import Mathlib

/-! Formal model of the metrics_etl pipeline engine.

Shallow embedding of src/core/pipeline.py (class ETLEngine), together with
src/core/secrets_manager.py (SecretsManager.get_secrets) and the logging
helpers of src/utils/logging_config.py, over a closed universe of
YAML/JSON-style configuration values.  Logging is modeled as an explicit
event trace; exceptions are modeled with Except; the collaborator plugins
(extractor fetch, transformer transform, loader construction and load) are
modeled as deterministic oracle functions supplied by a World record, since
their implementations are declared out of scope by the specification.
The theorems at the end of the file settle the claims about cache key
determinism, failure isolation, secret resolution, signal name injection,
loader handling and environment template expansion. -/

/-- Keys of a Python dict as they occur in YAML-loaded configuration values:
either a string or an integer.  (Python allows further key types; string and
integer keys are the ones YAML configuration produces and they are enough to
exhibit the TypeError behaviour of mixed-type key sorting.) -/
inductive VKey where
  | s (v : String)
  | i (v : Int)
deriving DecidableEq

/-- A YAML/JSON style value: the universe of configuration and parameter
values the engine handles (strings, integers, booleans, null, lists, dicts).
Python floats are omitted from the universe; no claim depends on them. -/
inductive Val where
  | str (s : String)
  | int (n : Int)
  | bool (b : Bool)
  | null
  | list (xs : List Val)
  | dict (kvs : List (VKey × Val))

/-- Result of ETLEngine._make_hashable_key: a hashable Python value, i.e. a
primitive or a (nested) tuple.  A Python pair (k, v) is represented as the
two-element tuple. -/
inductive HKey where
  | str (s : String)
  | int (n : Int)
  | bool (b : Bool)
  | null
  | tup (xs : List HKey)

mutual

/-- Boolean equality on HKey (Python value equality on hashable values,
restricted to this universe). -/
def HKey.beq : HKey → HKey → Bool
  | .str a, .str b => a == b
  | .int a, .int b => a == b
  | .bool a, .bool b => a == b
  | .null, .null => true
  | .tup xs, .tup ys => HKey.beqList xs ys
  | _, _ => false

/-- Pointwise Boolean equality on lists of HKey. -/
def HKey.beqList : List HKey → List HKey → Bool
  | [], [] => true
  | x :: xs, y :: ys => HKey.beq x y && HKey.beqList xs ys
  | _, _ => false

end

instance : BEq HKey := ⟨HKey.beq⟩

mutual

theorem hkeyBeq_self : ∀ a : HKey, HKey.beq a a = true
  | .str _ => by simp [HKey.beq]
  | .int _ => by simp [HKey.beq]
  | .bool _ => by simp [HKey.beq]
  | .null => rfl
  | .tup xs => HKey.beqList_refl xs

theorem HKey.beqList_refl : ∀ xs : List HKey, HKey.beqList xs xs = true
  | [] => rfl
  | x :: xs => by
      simp only [HKey.beqList, Bool.and_eq_true]
      exact ⟨hkeyBeq_self x, HKey.beqList_refl xs⟩

end

/-- Comparison of characters by code point, as Python compares characters
inside string comparison. -/
def charsLe : List Char → List Char → Bool
  | [], _ => true
  | _ :: _, [] => false
  | a :: as, b :: bs =>
      if a.toNat < b.toNat then true
      else if b.toNat < a.toNat then false
      else charsLe as bs

/-- Python string comparison (lexicographic on code points). -/
def strLe (a b : String) : Bool := charsLe a.data b.data

/-- Comparison used by Python sorted on a homogeneous list of dict keys.
The two cross-type cases never arise in a sort that Python completes
(Python raises TypeError there, which the model captures separately with
the mixedKeys test); they are fixed arbitrarily to keep the order total. -/
def vkeyLe : VKey → VKey → Bool
  | .i a, .i b => decide (a ≤ b)
  | .s a, .s b => strLe a b
  | .i _, .s _ => true
  | .s _, .i _ => false

/-- Order on key/value pairs: Python sorted compares the pairs
lexicographically, which on a list with pairwise distinct keys is decided by
the key alone; dict key lists are always pairwise distinct. -/
def keyPairLe {α : Type} (x y : VKey × α) : Prop := vkeyLe x.1 y.1 = true

instance {α : Type} : DecidableRel (@keyPairLe α) :=
  fun x y => instDecidableEqBool (vkeyLe x.1 y.1) true

/-- True when the key is a string key. -/
def isStrKey : VKey → Bool
  | .s _ => true
  | .i _ => false

/-- A key list has mixed types when it holds both a string key and an
integer key; sorting such a list raises TypeError in Python. -/
def mixedKeys {α : Type} (kvs : List (VKey × α)) : Bool :=
  kvs.any (fun kv => isStrKey kv.1) && kvs.any (fun kv => !isStrKey kv.1)

/-- JSON rendering of a string (escaping details abstracted: no claim
depends on the rendered text, only on whether dumping raises). -/
def jstr (s : String) : String := "\"" ++ s ++ "\""

/-- JSON rendering of a dict key: json.dumps turns an integer key into its
decimal string. -/
def jkey : VKey → String
  | .s v => jstr v
  | .i v => jstr (toString v)

/-- Comma-joined fragments. -/
def joinComma : List String → String
  | [] => ""
  | [x] => x
  | x :: xs => x ++ ", " ++ joinComma xs

mutual

/-- Model of json.dumps(v, sort_keys=True) on this value universe, the
fallback of _make_hashable_key (pipeline.py line 127): every dict is dumped
with its keys sorted, and dumping raises TypeError exactly when some dict in
the value has keys of mixed types, because sorting those keys fails. -/
def jsonDumps : Val → Except Unit String
  | .str s => .ok (jstr s)
  | .int n => .ok (toString n)
  | .bool b => .ok (if b then "true" else "false")
  | .null => .ok "null"
  | .list xs => do
      let parts ← jsonDumpsList xs
      .ok ("[" ++ joinComma parts ++ "]")
  | .dict kvs =>
      if mixedKeys kvs then .error () else do
        let parts ← jsonDumpsPairs kvs
        .ok ("\x7b" ++
          joinComma ((List.insertionSort keyPairLe parts).map
            (fun kv => jkey kv.1 ++ ": " ++ kv.2)) ++ "\x7d")

/-- Dump every element of a list, left to right, first failure wins. -/
def jsonDumpsList : List Val → Except Unit (List String)
  | [] => .ok []
  | v :: vs => do
      let s ← jsonDumps v
      let ss ← jsonDumpsList vs
      .ok (s :: ss)

/-- Dump every value of a key/value list, left to right. -/
def jsonDumpsPairs : List (VKey × Val) → Except Unit (List (VKey × String))
  | [] => .ok []
  | (k, v) :: rest => do
      let s ← jsonDumps v
      let ss ← jsonDumpsPairs rest
      .ok ((k, s) :: ss)

end

/-- The Python pair (k, h) appearing in the sorted tuple that
_make_hashable_key builds from a dict. -/
def entryTup (kv : VKey × HKey) : HKey :=
  match kv with
  | (.s v, h) => .tup [.str v, h]
  | (.i v, h) => .tup [.int v, h]

mutual

/-- Translation of ETLEngine._make_hashable_key (pipeline.py lines 118-136).
A dict becomes the tuple of its (key, converted value) pairs sorted by key;
if evaluating the converted values or sorting the pairs raises TypeError
(mixed-type keys), the code falls back to json.dumps with sorted keys; a
list becomes a tuple of converted elements; primitives pass through.  The
error value models the TypeError that escapes when the json fallback also
fails. -/
def make_hashable_key : Val → Except Unit HKey
  | .str s => .ok (.str s)
  | .int n => .ok (.int n)
  | .bool b => .ok (.bool b)
  | .null => .ok .null
  | .list xs => do
      let hs ← mkhkList xs
      .ok (.tup hs)
  | .dict kvs =>
      match mkhkPairs kvs with
      | .error _ => (jsonDumps (.dict kvs)).map HKey.str
      | .ok pairs =>
          if mixedKeys kvs then (jsonDumps (.dict kvs)).map HKey.str
          else .ok (.tup ((List.insertionSort keyPairLe pairs).map entryTup))

/-- Convert every element of a list, left to right, first TypeError wins. -/
def mkhkList : List Val → Except Unit (List HKey)
  | [] => .ok []
  | v :: vs => do
      let h ← make_hashable_key v
      let hs ← mkhkList vs
      .ok (h :: hs)

/-- Convert every value of a key/value list, left to right. -/
def mkhkPairs : List (VKey × Val) → Except Unit (List (VKey × HKey))
  | [] => .ok []
  | (k, v) :: rest => do
      let h ← make_hashable_key v
      let hs ← mkhkPairs rest
      .ok ((k, h) :: hs)

end

mutual

/-- Spec-side canonical form of a value: every dict reordered into sorted
key order, recursively.  Two values are structurally equal regardless of
dict insertion order precisely when their canonical forms are equal; this
is the equivalence under which the claims state CacheKey determinism. -/
def canon : Val → Val
  | .str s => .str s
  | .int n => .int n
  | .bool b => .bool b
  | .null => .null
  | .list xs => .list (canonList xs)
  | .dict kvs => .dict (List.insertionSort keyPairLe (canonPairs kvs))

/-- Canonical form of every element. -/
def canonList : List Val → List Val
  | [] => []
  | v :: vs => canon v :: canonList vs

/-- Canonical form of every value of a key/value list. -/
def canonPairs : List (VKey × Val) → List (VKey × Val)
  | [] => []
  | (k, v) :: rest => (k, canon v) :: canonPairs rest

end

mutual

/-- True when the value holds, at any depth, a dict whose keys mix strings
and integers (the only inputs in this universe on which
_make_hashable_key raises). -/
def hasMixed : Val → Bool
  | .str _ => false
  | .int _ => false
  | .bool _ => false
  | .null => false
  | .list xs => hasMixedList xs
  | .dict kvs => mixedKeys kvs || hasMixedPairs kvs

/-- Some element has a mixed-key dict. -/
def hasMixedList : List Val → Bool
  | [] => false
  | v :: vs => hasMixed v || hasMixedList vs

/-- Some value has a mixed-key dict. -/
def hasMixedPairs : List (VKey × Val) → Bool
  | [] => false
  | (_, v) :: rest => hasMixed v || hasMixedPairs rest

end

/-- Keys of a key/value list. -/
def keysOf {α : Type} (kvs : List (VKey × α)) : List VKey := kvs.map Prod.fst

mutual

/-- Wellformedness of a value as a Python object: every dict it holds has
pairwise distinct keys (always true of a real Python dict). -/
def WFv : Val → Bool
  | .str _ => true
  | .int _ => true
  | .bool _ => true
  | .null => true
  | .list xs => WFList xs
  | .dict kvs => decide (keysOf kvs).Nodup && WFPairs kvs

/-- Every element wellformed. -/
def WFList : List Val → Bool
  | [] => true
  | v :: vs => WFv v && WFList vs

/-- Every value wellformed. -/
def WFPairs : List (VKey × Val) → Bool
  | [] => true
  | (_, v) :: rest => WFv v && WFPairs rest

end

theorem charsLe_total : ∀ a b : List Char, charsLe a b = true ∨ charsLe b a = true
  | [], _ => Or.inl rfl
  | _ :: _, [] => Or.inr rfl
  | a :: as, b :: bs => by
      simp only [charsLe]
      rcases Nat.lt_trichotomy a.toNat b.toNat with h | h | h
      · left; simp [h]
      · have hne : ¬ a.toNat < b.toNat := by omega
        have hne2 : ¬ b.toNat < a.toNat := by omega
        rcases charsLe_total as bs with ih | ih
        · left; simp [hne, hne2, ih]
        · right; simp [hne, hne2, ih]
      · right; simp [h]

theorem charsLe_trans : ∀ a b c : List Char,
    charsLe a b = true → charsLe b c = true → charsLe a c = true
  | [], _, _, _, _ => rfl
  | _ :: _, [], _, h, _ => by simp [charsLe] at h
  | _ :: _, _ :: _, [], _, h => by simp [charsLe] at h
  | a :: as, b :: bs, c :: cs, hab, hbc => by
      simp only [charsLe] at hab hbc ⊢
      rcases Nat.lt_trichotomy a.toNat c.toNat with h | h | h
      · simp [h]
      · have h1 : ¬ a.toNat < c.toNat := by omega
        have h2 : ¬ c.toNat < a.toNat := by omega
        simp only [h1, h2, if_false, if_true, ite_self]
        by_cases g1 : a.toNat < b.toNat
        · by_cases g2 : b.toNat < c.toNat
          · omega
          · have g3 : c.toNat < b.toNat := by
              by_contra g4
              have : b.toNat = c.toNat := by omega
              omega
            simp [g2, g3] at hbc
        · by_cases g2 : b.toNat < a.toNat
          · simp [g1, g2] at hab
          · have hba : a.toNat = b.toNat := by omega
            by_cases g3 : b.toNat < c.toNat
            · omega
            · by_cases g4 : c.toNat < b.toNat
              · simp [g3, g4] at hbc
              · simp [g1, g2] at hab
                simp [g3, g4] at hbc
                simp [if_neg g1, if_neg g2] at *
                exact charsLe_trans as bs cs hab hbc
      · exfalso
        by_cases g1 : a.toNat < b.toNat
        · by_cases g2 : b.toNat < c.toNat
          · omega
          · by_cases g3 : c.toNat < b.toNat
            · simp [g2, g3] at hbc
            · omega
        · by_cases g2 : b.toNat < a.toNat
          · simp [g1, g2] at hab
          · by_cases g3 : b.toNat < c.toNat
            · omega
            · by_cases g4 : c.toNat < b.toNat
              · simp [g3, g4] at hbc
              · omega

theorem charsLe_antisymm : ∀ a b : List Char,
    charsLe a b = true → charsLe b a = true → a = b
  | [], [], _, _ => rfl
  | [], _ :: _, _, h => by simp [charsLe] at h
  | _ :: _, [], h, _ => by simp [charsLe] at h
  | a :: as, b :: bs, hab, hba => by
      simp only [charsLe] at hab hba
      by_cases g1 : a.toNat < b.toNat
      · have g2 : ¬ b.toNat < a.toNat := by omega
        simp [g1, g2] at hba
      · by_cases g2 : b.toNat < a.toNat
        · simp [g1, g2] at hab
        · have hac : a = b := by
            apply Char.ext
            apply UInt32.toNat.inj
            show a.toNat = b.toNat
            omega
          simp [g1, g2] at hab hba
          rw [hac, charsLe_antisymm as bs hab hba]

theorem strLe_total (a b : String) : strLe a b = true ∨ strLe b a = true :=
  charsLe_total a.data b.data

theorem strLe_trans {a b c : String} (h1 : strLe a b = true) (h2 : strLe b c = true) :
    strLe a c = true :=
  charsLe_trans a.data b.data c.data h1 h2

theorem strLe_antisymm {a b : String} (h1 : strLe a b = true) (h2 : strLe b a = true) :
    a = b := by
  cases a; cases b
  simp only [strLe] at h1 h2
  exact congrArg String.mk (charsLe_antisymm _ _ h1 h2)

theorem vkeyLe_total (a b : VKey) : vkeyLe a b = true ∨ vkeyLe b a = true := by
  cases a <;> cases b <;> simp [vkeyLe]
  · exact strLe_total _ _
  · omega

theorem vkeyLe_trans {a b c : VKey} (h1 : vkeyLe a b = true) (h2 : vkeyLe b c = true) :
    vkeyLe a c = true := by
  cases a <;> cases b <;> cases c <;> simp_all [vkeyLe]
  · exact strLe_trans h1 h2
  · omega

theorem vkeyLe_antisymm {a b : VKey} (h1 : vkeyLe a b = true) (h2 : vkeyLe b a = true) :
    a = b := by
  cases a <;> cases b <;> simp_all [vkeyLe]
  · exact strLe_antisymm h1 h2
  · omega

instance {α : Type} : IsTotal (VKey × α) keyPairLe :=
  ⟨fun x y => vkeyLe_total x.1 y.1⟩

instance {α : Type} : IsTrans (VKey × α) keyPairLe :=
  ⟨fun _ _ _ h1 h2 => vkeyLe_trans h1 h2⟩

/-- Strict version of the pair order, antisymmetric outright, used to turn
sortedness plus distinct keys into uniqueness of the sorted arrangement. -/
def keyPairLt {α : Type} (x y : VKey × α) : Prop :=
  vkeyLe x.1 y.1 = true ∧ x.1 ≠ y.1

instance {α : Type} : IsAntisymm (VKey × α) keyPairLt :=
  ⟨fun _ _ h1 h2 => absurd (vkeyLe_antisymm h1.1 h2.1) h1.2⟩

theorem perm_any {α : Type} {l₁ l₂ : List α} (h : List.Perm l₁ l₂) (p : α → Bool) :
    l₁.any p = l₂.any p := by
  cases hb : l₂.any p
  · simp only [List.any_eq_false] at hb ⊢
    intro a ha
    exact hb a (h.mem_iff.mp ha)
  · simp only [List.any_eq_true] at hb ⊢
    obtain ⟨a, ha, hpa⟩ := hb
    exact ⟨a, h.mem_iff.mpr ha, hpa⟩

theorem mixedKeys_perm {α : Type} {l₁ l₂ : List (VKey × α)} (h : List.Perm l₁ l₂) :
    mixedKeys l₁ = mixedKeys l₂ := by
  simp only [mixedKeys, perm_any h]

/-- Sorting by key is insensitive to the input order whenever the keys are
pairwise distinct: this is the engine-side fact behind CacheKey
determinism. -/
theorem insertionSort_eq_of_perm {α : Type} {l₁ l₂ : List (VKey × α)}
    (h : List.Perm l₁ l₂) (hnd : (keysOf l₁).Nodup) :
    List.insertionSort keyPairLe l₁ = List.insertionSort keyPairLe l₂ := by
  have hp : List.Perm (List.insertionSort keyPairLe l₁) (List.insertionSort keyPairLe l₂) :=
    ((List.perm_insertionSort keyPairLe l₁).trans h).trans
      (List.perm_insertionSort keyPairLe l₂).symm
  have hs1 : List.Sorted keyPairLe (List.insertionSort keyPairLe l₁) :=
    List.sorted_insertionSort keyPairLe l₁
  have hs2 : List.Sorted keyPairLe (List.insertionSort keyPairLe l₂) :=
    List.sorted_insertionSort keyPairLe l₂
  have hnd1 : (keysOf (List.insertionSort keyPairLe l₁)).Nodup := by
    have : List.Perm (keysOf (List.insertionSort keyPairLe l₁)) (keysOf l₁) :=
      (List.perm_insertionSort keyPairLe l₁).map Prod.fst
    exact this.nodup_iff.mpr hnd
  have hnd2 : (keysOf (List.insertionSort keyPairLe l₂)).Nodup := by
    have hp2 : List.Perm (keysOf (List.insertionSort keyPairLe l₂))
        (keysOf (List.insertionSort keyPairLe l₁)) :=
      hp.symm.map Prod.fst
    exact hp2.nodup_iff.mpr hnd1
  have strengthen : ∀ (l : List (VKey × α)), List.Sorted keyPairLe l →
      (keysOf l).Nodup → List.Sorted keyPairLt l := by
    intro l hs hn
    have hne : List.Pairwise (fun x y : VKey × α => x.1 ≠ y.1) l := by
      have := (List.pairwise_map (f := (Prod.fst : VKey × α → VKey))
        (R := Ne) (l := l)).mp hn
      exact this
    exact (hs.and hne).imp (fun h => ⟨h.1, h.2⟩)
  exact List.eq_of_perm_of_sorted hp (strengthen _ hs1 hnd1) (strengthen _ hs2 hnd2)

/-- The converted value when conversion succeeds (placeholder .null
otherwise; only used under a success hypothesis). -/
def hOk (v : Val) : HKey :=
  match make_hashable_key v with
  | .ok h => h
  | .error _ => HKey.null

/-- The key/converted-value pair of a dict entry. -/
def hPair (kv : VKey × Val) : VKey × HKey := (kv.1, hOk kv.2)

theorem hasMixedList_eq_any (l : List Val) :
    hasMixedList l = l.any hasMixed := by
  induction l with
  | nil => rfl
  | cons v vs ih => simp [hasMixedList, ih]

theorem hasMixedPairs_eq_any (l : List (VKey × Val)) :
    hasMixedPairs l = l.any (fun kv => hasMixed kv.2) := by
  induction l with
  | nil => rfl
  | cons kv rest ih => cases kv; simp [hasMixedPairs, ih]

theorem WFList_eq_all (l : List Val) : WFList l = l.all WFv := by
  induction l with
  | nil => rfl
  | cons v vs ih => simp [WFList, ih]

theorem WFPairs_eq_all (l : List (VKey × Val)) :
    WFPairs l = l.all (fun kv => WFv kv.2) := by
  induction l with
  | nil => rfl
  | cons kv rest ih => cases kv; simp [WFPairs, ih]

theorem bind_error {a b : Type} (f : a → Except Unit b) :
    ((Except.error () : Except Unit a) >>= f) = Except.error () := rfl

theorem bind_ok {a b : Type} (x : a) (f : a → Except Unit b) :
    ((Except.ok x : Except Unit a) >>= f) = f x := rfl

mutual

theorem jsonDumps_err : ∀ v : Val, hasMixed v = true → jsonDumps v = .error ()
  | .str _, h => by simp [hasMixed] at h
  | .int _, h => by simp [hasMixed] at h
  | .bool _, h => by simp [hasMixed] at h
  | .null, h => by simp [hasMixed] at h
  | .list xs, h => by
      simp only [hasMixed] at h
      simp only [jsonDumps, jsonDumpsList_err xs h, bind_error]
  | .dict kvs, h => by
      simp only [hasMixed, Bool.or_eq_true] at h
      rcases h with h | h
      · simp [jsonDumps, h]
      · by_cases hm : mixedKeys kvs
        · simp [jsonDumps, hm]
        · simp only [jsonDumps, if_neg hm, jsonDumpsPairs_err kvs h, bind_error]

theorem jsonDumpsList_err : ∀ l : List Val, hasMixedList l = true →
    jsonDumpsList l = .error ()
  | v :: vs, h => by
      simp only [hasMixedList, Bool.or_eq_true] at h
      rcases h with h | h
      · simp only [jsonDumpsList, jsonDumps_err v h, bind_error]
      · cases hv : jsonDumps v with
        | error e => cases e; simp only [jsonDumpsList, hv, bind_error]
        | ok s =>
            simp only [jsonDumpsList, hv, bind_ok,
              jsonDumpsList_err vs h, bind_error]

theorem jsonDumpsPairs_err : ∀ l : List (VKey × Val), hasMixedPairs l = true →
    jsonDumpsPairs l = .error ()
  | (k, v) :: rest, h => by
      simp only [hasMixedPairs, Bool.or_eq_true] at h
      rcases h with h | h
      · simp only [jsonDumpsPairs, jsonDumps_err v h, bind_error]
      · cases hv : jsonDumps v with
        | error e => cases e; simp only [jsonDumpsPairs, hv, bind_error]
        | ok s =>
            simp only [jsonDumpsPairs, hv, bind_ok,
              jsonDumpsPairs_err rest h, bind_error]

end

mutual

theorem mkhk_err : ∀ v : Val, hasMixed v = true → make_hashable_key v = .error ()
  | .str _, h => by simp [hasMixed] at h
  | .int _, h => by simp [hasMixed] at h
  | .bool _, h => by simp [hasMixed] at h
  | .null, h => by simp [hasMixed] at h
  | .list xs, h => by
      simp only [hasMixed] at h
      simp only [make_hashable_key, mkhkList_err xs h, bind_error]
  | .dict kvs, h => by
      have hj : jsonDumps (.dict kvs) = .error () := jsonDumps_err _ h
      simp only [make_hashable_key]
      cases hp : mkhkPairs kvs with
      | error e => simp [hj, Except.map]
      | ok pairs =>
          simp only [hasMixed, Bool.or_eq_true] at h
          rcases h with h | h
          · simp [h, hj, Except.map]
          · exact absurd hp (by simp [mkhkPairs_err kvs h])

theorem mkhkList_err : ∀ l : List Val, hasMixedList l = true →
    mkhkList l = .error ()
  | v :: vs, h => by
      simp only [hasMixedList, Bool.or_eq_true] at h
      rcases h with h | h
      · simp only [mkhkList, mkhk_err v h, bind_error]
      · cases hv : make_hashable_key v with
        | error e => cases e; simp only [mkhkList, hv, bind_error]
        | ok s =>
            simp only [mkhkList, hv, bind_ok, mkhkList_err vs h, bind_error]

theorem mkhkPairs_err : ∀ l : List (VKey × Val), hasMixedPairs l = true →
    mkhkPairs l = .error ()
  | (k, v) :: rest, h => by
      simp only [hasMixedPairs, Bool.or_eq_true] at h
      rcases h with h | h
      · simp only [mkhkPairs, mkhk_err v h, bind_error]
      · cases hv : make_hashable_key v with
        | error e => cases e; simp only [mkhkPairs, hv, bind_error]
        | ok s =>
            simp only [mkhkPairs, hv, bind_ok, mkhkPairs_err rest h, bind_error]

end

mutual

theorem mkhk_ok : ∀ v : Val, hasMixed v = false → make_hashable_key v = .ok (hOk v)
  | .str s, _ => rfl
  | .int n, _ => rfl
  | .bool b, _ => rfl
  | .null, _ => rfl
  | .list xs, h => by
      simp only [hasMixed] at h
      have hl := mkhkList_ok xs h
      have : make_hashable_key (.list xs) = .ok (.tup (xs.map hOk)) := by
        simp only [make_hashable_key, hl, bind_ok]
      rw [this, hOk, this]
  | .dict kvs, h => by
      simp only [hasMixed, Bool.or_eq_false_iff] at h
      obtain ⟨hm, hp⟩ := h
      have hps := mkhkPairs_ok kvs hp
      have heq : make_hashable_key (.dict kvs) =
          .ok (.tup ((List.insertionSort keyPairLe (kvs.map hPair)).map entryTup)) := by
        simp only [make_hashable_key, hps, hm, Bool.false_eq_true, if_false]
      rw [heq, hOk, heq]

theorem mkhkList_ok : ∀ l : List Val, hasMixedList l = false →
    mkhkList l = .ok (l.map hOk)
  | [], _ => rfl
  | v :: vs, h => by
      simp only [hasMixedList, Bool.or_eq_false_iff] at h
      simp only [mkhkList, mkhk_ok v h.1, bind_ok, mkhkList_ok vs h.2, List.map_cons]

theorem mkhkPairs_ok : ∀ l : List (VKey × Val), hasMixedPairs l = false →
    mkhkPairs l = .ok (l.map hPair)
  | [], _ => rfl
  | (k, v) :: rest, h => by
      simp only [hasMixedPairs, Bool.or_eq_false_iff] at h
      simp only [mkhkPairs, mkhk_ok v h.1, bind_ok, mkhkPairs_ok rest h.2,
        List.map_cons, hPair]

end

theorem canonList_eq_map (l : List Val) : canonList l = l.map canon := by
  induction l with
  | nil => rfl
  | cons v vs ih => simp [canonList, ih]

theorem canonPairs_eq_map (l : List (VKey × Val)) :
    canonPairs l = l.map (fun kv => (kv.1, canon kv.2)) := by
  induction l with
  | nil => rfl
  | cons kv rest ih => cases kv; simp [canonPairs, ih]

theorem keysOf_map_snd {α β : Type} (g : VKey → α → β) (l : List (VKey × α)) :
    keysOf (l.map (fun kv => (kv.1, g kv.1 kv.2))) = keysOf l := by
  simp only [keysOf, List.map_map]
  have h : (Prod.fst ∘ fun kv : VKey × α => (kv.1, g kv.1 kv.2)) =
      (Prod.fst : VKey × α → VKey) := funext fun kv => rfl
  rw [h]

theorem mixedKeys_congr {α β : Type} {l₁ : List (VKey × α)} {l₂ : List (VKey × β)}
    (h : keysOf l₁ = keysOf l₂) : mixedKeys l₁ = mixedKeys l₂ := by
  have h1 : ∀ {γ : Type} (l : List (VKey × γ)) (p : VKey → Bool),
      l.any (fun kv => p kv.1) = (keysOf l).any p := by
    intro γ l p
    induction l with
    | nil => rfl
    | cons kv rest ih =>
        cases kv
        simp only [List.any_cons, keysOf, List.map_cons] at ih ⊢
        rw [ih]
  rw [mixedKeys, mixedKeys, h1 l₁ isStrKey, h1 l₂ isStrKey,
    h1 l₁ (fun k => !isStrKey k), h1 l₂ (fun k => !isStrKey k), h]

theorem map_orderedInsert_keyfun {α β : Type} (g : VKey → α → β)
    (x : VKey × α) (l : List (VKey × α)) :
    (List.orderedInsert keyPairLe x l).map (fun kv => (kv.1, g kv.1 kv.2)) =
      List.orderedInsert keyPairLe ((fun kv => (kv.1, g kv.1 kv.2)) x)
        (l.map (fun kv => (kv.1, g kv.1 kv.2))) := by
  induction l with
  | nil => rfl
  | cons y ys ih =>
      by_cases h : keyPairLe x y
      · have h2 : keyPairLe ((fun kv : VKey × α => (kv.1, g kv.1 kv.2)) x)
            ((fun kv : VKey × α => (kv.1, g kv.1 kv.2)) y) := h
        simp only [List.orderedInsert, if_pos h, List.map_cons, if_pos h2]
      · have h2 : ¬ keyPairLe ((fun kv : VKey × α => (kv.1, g kv.1 kv.2)) x)
            ((fun kv : VKey × α => (kv.1, g kv.1 kv.2)) y) := h
        simp only [List.orderedInsert, if_neg h, List.map_cons, if_neg h2, ih]

theorem map_insertionSort_keyfun {α β : Type} (g : VKey → α → β)
    (l : List (VKey × α)) :
    (List.insertionSort keyPairLe l).map (fun kv => (kv.1, g kv.1 kv.2)) =
      List.insertionSort keyPairLe (l.map (fun kv => (kv.1, g kv.1 kv.2))) := by
  induction l with
  | nil => rfl
  | cons x xs ih =>
      simp only [List.insertionSort, List.map_cons]
      rw [map_orderedInsert_keyfun, ih]

mutual

theorem hasMixed_canon : ∀ v : Val, hasMixed (canon v) = hasMixed v
  | .str _ => rfl
  | .int _ => rfl
  | .bool _ => rfl
  | .null => rfl
  | .list xs => by
      simp only [canon, hasMixed, hasMixedListC xs]
  | .dict kvs => by
      simp only [canon, hasMixed]
      have hperm : List.Perm (List.insertionSort keyPairLe (canonPairs kvs))
          (canonPairs kvs) := List.perm_insertionSort _ _
      have hk : keysOf (canonPairs kvs) = keysOf kvs := by
        rw [canonPairs_eq_map]
        exact keysOf_map_snd (fun _ v => canon v) kvs
      rw [mixedKeys_perm hperm, mixedKeys_congr hk]
      rw [hasMixedPairs_eq_any, perm_any hperm, ← hasMixedPairs_eq_any,
        hasMixedPairs_canon kvs]

theorem hasMixedListC : ∀ l : List Val, hasMixedList (canonList l) = hasMixedList l
  | [] => rfl
  | v :: vs => by
      simp only [canonList, hasMixedList, hasMixed_canon v, hasMixedListC vs]

theorem hasMixedPairs_canon : ∀ l : List (VKey × Val),
    hasMixedPairs (canonPairs l) = hasMixedPairs l
  | [] => rfl
  | (k, v) :: rest => by
      simp only [canonPairs, hasMixedPairs, hasMixed_canon v,
        hasMixedPairs_canon rest]

end

theorem map_insertionSort_hPair (l : List (VKey × Val)) :
    (List.insertionSort keyPairLe l).map hPair =
      List.insertionSort keyPairLe (l.map hPair) := by
  have h := map_insertionSort_keyfun (fun (_ : VKey) v => hOk v) l
  have e : (fun kv : VKey × Val => (kv.1, (fun (_ : VKey) v => hOk v) kv.1 kv.2)) =
      hPair := funext fun kv => rfl
  rw [e] at h
  exact h

mutual

theorem mkhk_canon : ∀ v : Val, make_hashable_key (canon v) = make_hashable_key v
  | .str _ => rfl
  | .int _ => rfl
  | .bool _ => rfl
  | .null => rfl
  | .list xs => by
      simp only [canon, make_hashable_key, mkhkListC xs]
  | .dict kvs => by
      cases hmix : hasMixed (.dict kvs) with
      | true =>
          have h1 : hasMixed (canon (.dict kvs)) = true := by
            rw [hasMixed_canon]; exact hmix
          rw [mkhk_err _ h1, mkhk_err _ hmix]
      | false =>
          have hmd := hmix
          simp only [hasMixed, Bool.or_eq_false_iff] at hmd
          obtain ⟨hm, hp⟩ := hmd
          have hpc : hasMixedPairs (canonPairs kvs) = false := by
            rw [hasMixedPairs_canon]; exact hp
          have hperm : List.Perm (List.insertionSort keyPairLe (canonPairs kvs))
              (canonPairs kvs) := List.perm_insertionSort _ _
          have hpl : hasMixedPairs (List.insertionSort keyPairLe (canonPairs kvs)) = false := by
            rw [hasMixedPairs_eq_any, perm_any hperm, ← hasMixedPairs_eq_any]
            exact hpc
          have hk : keysOf (canonPairs kvs) = keysOf kvs := by
            rw [canonPairs_eq_map]
            exact keysOf_map_snd (fun _ v => canon v) kvs
          have hml : mixedKeys (List.insertionSort keyPairLe (canonPairs kvs)) = false := by
            rw [mixedKeys_perm hperm, mixedKeys_congr hk]
            exact hm
          have hps1 : mkhkPairs (List.insertionSort keyPairLe (canonPairs kvs)) =
              .ok ((List.insertionSort keyPairLe (canonPairs kvs)).map hPair) :=
            mkhkPairs_ok _ hpl
          have hps2 : mkhkPairs kvs = .ok (kvs.map hPair) := mkhkPairs_ok _ hp
          have hps3 : mkhkPairs (canonPairs kvs) = .ok ((canonPairs kvs).map hPair) :=
            mkhkPairs_ok _ hpc
          have hmapeq : (canonPairs kvs).map hPair = kvs.map hPair := by
            have h4 := mkhkPairsC kvs
            rw [hps3, hps2] at h4
            exact Except.ok.inj h4
          show make_hashable_key (.dict (List.insertionSort keyPairLe (canonPairs kvs))) =
            make_hashable_key (.dict kvs)
          simp only [make_hashable_key, hps1, hps2, hml, hm, Bool.false_eq_true, if_false]
          rw [map_insertionSort_hPair, hmapeq,
            List.Sorted.insertionSort_eq (List.sorted_insertionSort keyPairLe (kvs.map hPair))]

theorem mkhkListC : ∀ l : List Val, mkhkList (canonList l) = mkhkList l
  | [] => rfl
  | v :: vs => by
      simp only [canonList, mkhkList, mkhk_canon v, mkhkListC vs]

theorem mkhkPairsC : ∀ l : List (VKey × Val), mkhkPairs (canonPairs l) = mkhkPairs l
  | [] => rfl
  | (k, v) :: rest => by
      simp only [canonPairs, mkhkPairs, mkhk_canon v, mkhkPairsC rest]

end

/-- CacheKey determinism at the level of the parameter structure: two
structurally equal values (equal canonical forms, i.e. equal regardless of
dict key insertion order at any depth) are mapped by _make_hashable_key to
the same result. -/
theorem make_hashable_key_deterministic {p q : Val} (h : canon p = canon q) :
    make_hashable_key p = make_hashable_key q := by
  rw [← mkhk_canon p, h, mkhk_canon q]

/-- Reordering the entries of a wellformed parameter dict (varying the key
insertion order) does not change its canonical form, hence not its cache
key. -/
theorem canon_dict_perm {kvs₁ kvs₂ : List (VKey × Val)}
    (h : List.Perm kvs₁ kvs₂) (hnd : (keysOf kvs₁).Nodup) :
    canon (.dict kvs₁) = canon (.dict kvs₂) := by
  show Val.dict (List.insertionSort keyPairLe (canonPairs kvs₁)) =
    Val.dict (List.insertionSort keyPairLe (canonPairs kvs₂))
  have hmap : List.Perm (canonPairs kvs₁) (canonPairs kvs₂) := by
    rw [canonPairs_eq_map, canonPairs_eq_map]
    exact h.map _
  have hnd1 : (keysOf (canonPairs kvs₁)).Nodup := by
    rw [canonPairs_eq_map]
    rw [keysOf_map_snd (fun _ v => canon v) kvs₁]
    exact hnd
  rw [insertionSort_eq_of_perm hmap hnd1]

/-- Python exceptions relevant to the engine: the typed errors of
utils/exceptions.py, the TypeError arising from hashing and bad call
arity, and a catch-all for any other exception. -/
inductive PyErr where
  | missingSecret (name : String)
  | extraction (msg : String)
  | transformation (msg : String)
  | load (msg : String)
  | typeError
  | other (msg : String)
deriving DecidableEq

/-- Identity of a resolved plugin implementation: either a short symbolic
name (resolved through the static maps or through _load_plugin) or an
explicit module/class pair. -/
inductive PluginRef where
  | byName (name : String)
  | byModule (module cls : String)
deriving DecidableEq

/-- Extractor spec of a signal: string style or module/class/params
style. -/
inductive ExtractorDef where
  | byName (name : String)
  | byModule (module cls : String) (params : List (VKey × Val))

/-- Transformer spec: string style, module/class/params style, or a list
(the engine uses only the first element of a list). -/
inductive TransformerDef where
  | byName (name : String)
  | byModule (module cls : String) (params : List (VKey × Val))
  | listOf (ds : List TransformerDef)

/-- Loader spec: module/class style (detected by the presence of the
module key) or type style. -/
inductive LoaderConfig where
  | byModule (module cls : String) (params : List (VKey × Val))
  | byType (type : String) (config : List (VKey × Val))

/-- One signal entry of the signals mapping. -/
structure SignalConfig where
  extractor : ExtractorDef
  extractor_params : List (VKey × Val)
  secrets : List String
  secret_mapping : List (String × String)
  transformer : TransformerDef
  loaders : Option (List LoaderConfig)

/-- The loaded configuration: the signals mapping in insertion order, with
pairwise distinct names as in a Python dict. -/
structure Config where
  signals : List (String × SignalConfig)

/-- The deterministic environment the engine runs against: process
environment plus the behaviour of the out-of-scope collaborator plugins
(import success, extractor fetch, transformer transform, loader
construction and load).  The construct flag is true when construction is
attempted with the params keyword and false with the config keyword. -/
structure World where
  getenv : String → Option String
  importOk : String → String → Bool
  importLoadMod : String → Bool
  fetch : PluginRef → List (VKey × Val) → Except PyErr Val
  transform : PluginRef → Val → Except PyErr (List (VKey × Val))
  constructL : PluginRef → Bool → List (VKey × Val) → Except PyErr Unit
  load : PluginRef → List (VKey × Val) → Except PyErr Unit

/-- Log and plugin-invocation trace events, mirroring the calls the engine
makes into utils/logging_config.py and into the plugins. -/
inductive Event where
  | signalStart (signal : String)
  | extractStart (name : String)
  | errImportExtractor (signal : String)
  | errUnknownExtractor (extractor signal : String)
  | warnSecretNotFound (secret signal : String)
  | cacheHitInfo (cls : String)
  | cacheMissInfo (cls : String)
  | fetchCall (ref : PluginRef) (params : List (VKey × Val))
  | fetchedInfo (cls : String)
  | errCacheKeyGen
  | fetchNoCache (cls : String)
  | transformStart (name : String)
  | errUnknownTransformer (transformer signal : String)
  | errImportTransformer (signal : String)
  | transformCall (ref : PluginRef) (raw : Val)
  | skipGoogleSheets (signal : String)
  | errLoaderImport (signal : String)
  | errLoaderInit (signal : String)
  | constructCall (ref : PluginRef) (paramsStyle : Bool) (params : List (VKey × Val))
  | loadStart (cls : String)
  | loadCall (ref : PluginRef) (record : List (VKey × Val))
  | errLoaderFailed (signal : String)
  | etlSuccess (signal : String)
  | warnPartialLoad (signal : String)
  | etlFailure (signal : String)
  | errSignalNotFound (signal : String)
  | errRunSignalError (signal : String)

/-- Severity levels of the logging module. -/
inductive LogLevel where
  | info
  | warning
  | error
deriving DecidableEq

/-- Level at which each event is logged, following logging_config.py and
the logger calls in pipeline.py: the plugin-invocation markers (fetchCall,
transformCall, constructCall, loadCall) accompany info-level plugin logs.
The cache key generation failure is logged with logger.error
(pipeline.py lines 201 and 438). -/
def Event.level : Event → LogLevel
  | .signalStart _ => .info
  | .extractStart _ => .info
  | .errImportExtractor _ => .error
  | .errUnknownExtractor _ _ => .error
  | .warnSecretNotFound _ _ => .warning
  | .cacheHitInfo _ => .info
  | .cacheMissInfo _ => .info
  | .fetchCall _ _ => .info
  | .fetchedInfo _ => .info
  | .errCacheKeyGen => .error
  | .fetchNoCache _ => .info
  | .transformStart _ => .info
  | .errUnknownTransformer _ _ => .error
  | .errImportTransformer _ => .error
  | .transformCall _ _ => .info
  | .skipGoogleSheets _ => .info
  | .errLoaderImport _ => .error
  | .errLoaderInit _ => .error
  | .constructCall _ _ _ => .info
  | .loadStart _ => .info
  | .loadCall _ _ => .info
  | .errLoaderFailed _ => .error
  | .etlSuccess _ => .info
  | .warnPartialLoad _ => .warning
  | .etlFailure _ => .error
  | .errSignalNotFound _ => .error
  | .errRunSignalError _ => .error

/-- Cache keys as built at pipeline.py lines 186 and 188: the extractor
identity paired with the hashable form of the parameters. -/
inductive CKey where
  | byName (extractor : String) (params : HKey)
  | byModule (module cls : String) (params : HKey)

/-- Boolean equality of cache keys (Python tuple equality). -/
def CKey.beq : CKey → CKey → Bool
  | .byName a h, .byName b g => a == b && HKey.beq h g
  | .byModule m c h, .byModule n d g => m == n && c == d && HKey.beq h g
  | _, _ => false

instance : BEq CKey := ⟨CKey.beq⟩

theorem ckeyBeq_self (k : CKey) : (k == k) = true := by
  cases k <;> simp [BEq.beq, CKey.beq, hkeyBeq_self]

/-- The extractor cache: an association list standing for the Python dict
self.extractor_cache.  Entries are only ever added for keys not yet
present, so prepending models dict assignment. -/
abbrev Cache := List (CKey × Val)

/-- Translation of SecretsManager.get_secrets (secrets_manager.py lines
9-16): walk the required names in order, raise MissingSecretError at the
first name whose environment value is missing or empty, otherwise collect
name-to-value pairs. -/
def get_secrets (getenv : String → Option String) : List String → Except PyErr (List (String × String))
  | [] => .ok []
  | n :: rest =>
      match getenv n with
      | none => .error (.missingSecret n)
      | some v =>
          if v = "" then .error (.missingSecret n)
          else (get_secrets getenv rest).map (fun s => (n, v) :: s)

/-- Python dict assignment d[k] = v: replace the value at the first
occurrence of the key, else append the new entry. -/
def dictSet (d : List (VKey × Val)) (k : VKey) (v : Val) : List (VKey × Val) :=
  match d with
  | [] => [(k, v)]
  | (k0, v0) :: rest => if k0 = k then (k, v) :: rest else (k0, v0) :: dictSet rest k v

/-- The static extractor map of ETLEngine.__init__ (pipeline.py lines
56-61): its keys, which the string-style resolution consults. -/
def extractor_map_keys : List String :=
  ["fred_extractor", "alternative_extractor", "coingecko_extractor",
   "alternative_global_extractor"]

/-- The static transformer map of ETLEngine.__init__ (pipeline.py lines
62-72): its keys. -/
def transformer_map_keys : List String :=
  ["m2_transformer", "fear_greed_transformer", "bitcoin_price_transformer",
   "total_market_cap_transformer", "bitcoin_24h_change_transformer",
   "bitcoin_7d_change_transformer", "bitcoin_30d_change_transformer",
   "bitcoin_market_cap_transformer", "bitcoin_24h_volume_transformer"]

/-- Lowercase a character (ASCII, as the module name strings at issue are
ASCII). -/
def charLower (c : Char) : Char :=
  if 65 ≤ c.toNat ∧ c.toNat ≤ 90 then Char.ofNat (c.toNat + 32) else c

/-- Python str.lower restricted to ASCII module names. -/
def pyLower (s : String) : String := ⟨s.data.map charLower⟩

/-- Substring containment on character lists (Python in on str). -/
def containsSubList (s pat : List Char) : Bool :=
  match s with
  | [] => pat.isEmpty
  | _ :: rest => pat.isPrefixOf s || containsSubList rest pat

/-- Test used at pipeline.py lines 269/506: the lowercased module path
holds the text google_sheets_loader. -/
def moduleIsGoogleSheets (m : String) : Bool :=
  containsSubList (pyLower m).data "google_sheets_loader".data

/-- Test used at pipeline.py lines 276/513: the lowercased module path
holds the text supabase_loader. -/
def moduleIsSupabase (m : String) : Bool :=
  containsSubList (pyLower m).data "supabase_loader".data

/-- Outcome of a resolution step inside the per-signal body: a value, a
logged skip (the continue / return False branches), or an exception that
the outer handler will receive. -/
inductive Step (α : Type) where
  | ok (a : α)
  | skip
  | raise (e : PyErr)

/-- Merge of secret values into the extractor parameters per the secret
mapping (pipeline.py lines 176-180 and 413-417): a mapped secret present in
the resolved secrets dict is written into the parameters; a mapped secret
absent from it is logged as a warning and skipped. -/
def applySecretMapping (secrets : List (String × String)) (signal : String) :
    List (String × String) → List (VKey × Val) → List Event × List (VKey × Val)
  | [], params => ([], params)
  | (p, sname) :: rest, params =>
      match secrets.lookup sname with
      | some v => applySecretMapping secrets signal rest (dictSet params (.s p) (.str v))
      | none =>
          let (evs, ps) := applySecretMapping secrets signal rest params
          (Event.warnSecretNotFound sname signal :: evs, ps)

/-- Resolution of the extractor spec and of the extraction parameters
(pipeline.py lines 146-180): module/class specs are imported (import or
attribute failure logs an error and skips the signal); string specs are
looked up in the static map (unknown name logs an error and skips the
signal), then secrets are resolved (which may raise MissingSecretError)
and merged through the secret mapping. -/
def resolveExtractorStep (w : World) (signal : String) (cfg : SignalConfig) :
    List Event × Step (PluginRef × String × List (VKey × Val)) :=
  match cfg.extractor with
  | .byModule m c ps =>
      if w.importOk m c then ([.extractStart c], .ok (.byModule m c, c, ps))
      else ([.extractStart c, .errImportExtractor signal], .skip)
  | .byName n =>
      if extractor_map_keys.contains n then
        match get_secrets w.getenv cfg.secrets with
        | .error e => ([.extractStart n], .raise e)
        | .ok secrets =>
            let (evs, params) :=
              applySecretMapping secrets signal cfg.secret_mapping cfg.extractor_params
            (.extractStart n :: evs, .ok (.byName n, n, params))
      else ([.extractStart n, .errUnknownExtractor n signal], .skip)

/-- The cache key for an extractor identity and hashable parameters
(pipeline.py lines 186 and 188). -/
def cacheKeyOf (ref : PluginRef) (h : HKey) : CKey :=
  match ref with
  | .byName n => .byName n h
  | .byModule m c => .byModule m c h

/-- The caching block of pipeline.py lines 182-205 (and 419-442): build the
cache key from the parameters; on a hit return the cached raw record; on a
miss fetch and store.  The surrounding try/except catches every exception
of the block, so both a TypeError from key construction and an exception
from the first fetch land in the fallback, which logs the cache failure
with logger.error and fetches again without caching; an exception from
that second fetch propagates to the per-signal handler.  Cache lookups use
Python equality of keys. -/
def extractStage (w : World) (ref : PluginRef) (cls : String)
    (params : List (VKey × Val)) (cache : Cache) :
    List Event × Except PyErr (Val × Cache) :=
  match make_hashable_key (.dict params) with
  | .ok h =>
      let key := cacheKeyOf ref h
      match List.lookup key cache with
      | some raw => ([.cacheHitInfo cls], .ok (raw, cache))
      | none =>
          match w.fetch ref params with
          | .ok raw =>
              ([.cacheMissInfo cls, .fetchCall ref params, .fetchedInfo cls],
               .ok (raw, (key, raw) :: cache))
          | .error _ =>
              match w.fetch ref params with
              | .ok raw =>
                  ([.cacheMissInfo cls, .fetchCall ref params, .errCacheKeyGen,
                    .fetchCall ref params, .fetchNoCache cls],
                   .ok (raw, cache))
              | .error e2 =>
                  ([.cacheMissInfo cls, .fetchCall ref params, .errCacheKeyGen,
                    .fetchCall ref params],
                   .error e2)
  | .error _ =>
      match w.fetch ref params with
      | .ok raw => ([.errCacheKeyGen, .fetchCall ref params, .fetchNoCache cls], .ok (raw, cache))
      | .error e => ([.errCacheKeyGen, .fetchCall ref params], .error e)

/-- Resolution of the transformer spec (pipeline.py lines 207-241): a dict
or list spec goes through dynamic import (a list uses its first element; an
empty list raises IndexError, a non-dict first element raises
AttributeError on the .get call); a string spec is looked up in the static
map.  Lookup and import failures log an error and skip the signal. -/
def resolveTransformerStep (w : World) (signal : String) :
    TransformerDef → List Event × Step PluginRef
  | .byModule m c _ =>
      if w.importOk m c then ([.transformStart c], .ok (.byModule m c))
      else ([.transformStart c, .errImportTransformer signal], .skip)
  | .byName n =>
      if transformer_map_keys.contains n then ([.transformStart n], .ok (.byName n))
      else ([.transformStart n, .errUnknownTransformer n signal], .skip)
  | .listOf ds =>
      match ds with
      | [] => ([], .raise (.other "IndexError"))
      | .byModule m c _ :: _ =>
          if w.importOk m c then ([.transformStart c], .ok (.byModule m c))
          else ([.transformStart c, .errImportTransformer signal], .skip)
      | _ :: _ => ([], .raise (.other "AttributeError"))

/-- The default loader list of pipeline.py lines 251-259. -/
def default_loaders : List LoaderConfig :=
  [.byType "supabase_loader" [(.s "table", .str "financial_signals")]]

/-- Construction of one loader (one iteration of pipeline.py lines
261-329).  Google Sheets loaders are skipped before any construction; a
Supabase loader gets url/key injected from the environment, and the URL
preview log slices the value, raising TypeError when SUPABASE_URL is
unset (caught by the enclosing handler, dropping the loader); module/class
loaders are imported and constructed with the params keyword, retrying
with the config keyword on TypeError; type-style loaders are imported via
_load_plugin and constructed with the config keyword.  Every failure is
logged and drops the loader (returns none). -/
def buildLoader (w : World) (signal : String) : LoaderConfig → List Event × Option PluginRef
  | .byModule m c ps =>
      if moduleIsGoogleSheets m then ([.skipGoogleSheets signal], none)
      else
        let afterEnv : Except PyErr (List (VKey × Val)) :=
          if moduleIsSupabase m then
            match w.getenv "SUPABASE_URL" with
            | none => .error .typeError
            | some url =>
                .ok (dictSet (dictSet ps (.s "url") (.str url)) (.s "key")
                  (match w.getenv "SUPABASE_KEY" with
                   | some k => .str k
                   | none => .null))
          else .ok ps
        match afterEnv with
        | .error _ => ([.errLoaderInit signal], none)
        | .ok ps1 =>
            if w.importOk m c then
              match w.constructL (.byModule m c) true ps1 with
              | .ok _ => ([.constructCall (.byModule m c) true ps1], some (.byModule m c))
              | .error .typeError =>
                  match w.constructL (.byModule m c) false ps1 with
                  | .ok _ =>
                      ([.constructCall (.byModule m c) true ps1,
                        .constructCall (.byModule m c) false ps1], some (.byModule m c))
                  | .error _ =>
                      ([.constructCall (.byModule m c) true ps1,
                        .constructCall (.byModule m c) false ps1,
                        .errLoaderInit signal], none)
              | .error _ =>
                  ([.constructCall (.byModule m c) true ps1, .errLoaderInit signal], none)
            else ([.errLoaderImport signal], none)
  | .byType t cfg =>
      if t = "google_sheets_loader" then ([.skipGoogleSheets signal], none)
      else
        let afterEnv : Except PyErr (List (VKey × Val)) :=
          if t = "supabase_loader" then
            match w.getenv "SUPABASE_URL" with
            | none => .error .typeError
            | some url =>
                .ok (dictSet (dictSet cfg (.s "url") (.str url)) (.s "key")
                  (match w.getenv "SUPABASE_KEY" with
                   | some k => .str k
                   | none => .null))
          else .ok cfg
        match afterEnv with
        | .error _ => ([.errLoaderInit signal], none)
        | .ok cfg1 =>
            if w.importLoadMod t then
              match w.constructL (.byName t) false cfg1 with
              | .ok _ => ([.constructCall (.byName t) false cfg1], some (.byName t))
              | .error _ =>
                  ([.constructCall (.byName t) false cfg1, .errLoaderInit signal], none)
            else ([.errLoaderInit signal], none)

/-- Construction of all configured loaders in order, dropping the failed
and skipped ones (pipeline.py lines 249-329). -/
def buildLoaders (w : World) (signal : String) : List LoaderConfig → List Event × List PluginRef
  | [] => ([], [])
  | lc :: rest =>
      let (e1, inst) := buildLoader w signal lc
      let (e2, insts) := buildLoaders w signal rest
      (e1 ++ e2,
       match inst with
       | some r => r :: insts
       | none => insts)

/-- Display name of a loader for the stage logs. -/
def refCls : PluginRef → String
  | .byName n => n
  | .byModule _ c => c

/-- Execution of the constructed loaders (pipeline.py lines 331-344):
every loader is invoked with the transformed record; a LoadError or any
other exception is logged and clears the success flag but the loop
continues with the remaining loaders. -/
def runLoaders (w : World) (signal : String) (record : List (VKey × Val)) :
    List PluginRef → List Event × Bool
  | [] => ([], true)
  | ref :: rest =>
      let (evs, ok) := runLoaders w signal record rest
      match w.load ref record with
      | .ok _ => (.loadStart (refCls ref) :: .loadCall ref record :: evs, ok)
      | .error _ =>
          (.loadStart (refCls ref) :: .loadCall ref record :: .errLoaderFailed signal :: evs,
           false)

/-- Terminal state of one signal body: completed (with the all-loaders
success flag deciding between full success and processed-but-not-fully-
loaded), skipped at plugin resolution, or an exception reaching the outer
handler. -/
inductive BodyResult where
  | completed (fullyLoaded : Bool)
  | resolutionFailed
  | raised (e : PyErr)

/-- The per-signal body shared verbatim by run (pipeline.py lines 144-349)
and run_signal (lines 381-588): resolve the extractor and parameters,
extract through the cache, resolve the transformer, transform, inject
signal_name into the record (overwriting any existing value), construct
the loaders, execute them, and log full success or the partial-load
warning. -/
def processSignalBody (w : World) (cache : Cache) (signal : String) (cfg : SignalConfig) :
    List Event × Cache × BodyResult :=
  match resolveExtractorStep w signal cfg with
  | (e1, .skip) => (e1, cache, .resolutionFailed)
  | (e1, .raise e) => (e1, cache, .raised e)
  | (e1, .ok (ref, cls, params)) =>
      match extractStage w ref cls params cache with
      | (e2, .error e) => (e1 ++ e2, cache, .raised e)
      | (e2, .ok (raw, cache2)) =>
          match resolveTransformerStep w signal cfg.transformer with
          | (e3, .skip) => (e1 ++ e2 ++ e3, cache2, .resolutionFailed)
          | (e3, .raise e) => (e1 ++ e2 ++ e3, cache2, .raised e)
          | (e3, .ok tref) =>
              match w.transform tref raw with
              | .error e =>
                  (e1 ++ e2 ++ e3 ++ [.transformCall tref raw], cache2, .raised e)
              | .ok rec0 =>
                  let record := dictSet rec0 (.s "signal_name") (.str signal)
                  let (e4, insts) := buildLoaders w signal (cfg.loaders.getD default_loaders)
                  let (e5, okAll) := runLoaders w signal record insts
                  let e6 : List Event :=
                    if okAll then [.etlSuccess signal] else [.warnPartialLoad signal]
                  (e1 ++ e2 ++ e3 ++ [.transformCall tref raw] ++ e4 ++ e5 ++ e6,
                   cache2, .completed okAll)

/-- The signal loop of run (pipeline.py lines 142-365): every configured
signal is processed in order against the shared cache; an exception from
the body is caught here, logged through log_etl_failure, and the loop
continues with the next signal. -/
def runSignals (w : World) (cache : Cache) :
    List (String × SignalConfig) → List Event × Cache × List (String × BodyResult)
  | [] => ([], cache, [])
  | (name, cfg) :: rest =>
      let (e1, cache1, r) := processSignalBody w cache name cfg
      let e2 : List Event :=
        match r with
        | .raised _ => [.etlFailure name]
        | _ => []
      let (e3, cache2, rs) := runSignals w cache1 rest
      (.signalStart name :: (e1 ++ e2) ++ e3, cache2, (name, r) :: rs)

/-- Translation of ETLEngine.run (pipeline.py lines 138-368): the extractor
cache is cleared at the start (so the initial cache state is the empty
cache), then every configured signal is processed in order; run always
returns (no exception of a signal body escapes the loop). -/
def run (w : World) (config : Config) : List Event × Cache × List (String × BodyResult) :=
  runSignals w [] config.signals

/-- Translation of ETLEngine.run_signal (pipeline.py lines 370-605): the
extractor cache is cleared first (line 373), then the name is checked
against the signals mapping (line 375), returning False when absent; a
present signal runs the shared body; a completed body returns True whether
or not all loaders succeeded; a resolution failure returns False.  When
the body raises, the typed handlers at lines 590-605 call
log_etl_failure with three arguments while logging_config.py defines it
with two, so the handler itself raises TypeError, which propagates out of
run_signal; the Except value models that escape. -/
def run_signal (w : World) (config : Config) (_cache0 : Cache) (signal : String) :
    List Event × Cache × Except PyErr Bool :=
  match List.lookup signal config.signals with
  | none => ([.errSignalNotFound signal], [], .ok false)
  | some cfg =>
      match processSignalBody w [] signal cfg with
      | (e1, cache1, .completed _) => (.signalStart signal :: e1, cache1, .ok true)
      | (e1, cache1, .resolutionFailed) => (.signalStart signal :: e1, cache1, .ok false)
      | (e1, cache1, .raised _) =>
          (.signalStart signal :: e1 ++ [.errRunSignalError signal], cache1,
           .error .typeError)

/-- The loader skip test of the engine applied to a plugin reference:
symbolic google_sheets_loader or a module path whose lowercase form holds
google_sheets_loader. -/
def refIsGoogle : PluginRef → Bool
  | .byName t => t = "google_sheets_loader"
  | .byModule m _ => moduleIsGoogleSheets m

/-- The loader configurations the claim describes: type equal to
google_sheets_loader, or module path containing google_sheets_loader. -/
def lcIsGoogle : LoaderConfig → Bool
  | .byType t _ => t = "google_sheets_loader"
  | .byModule m _ _ => containsSubList m.data "google_sheets_loader".data

/-- Event class test: a loader invocation. -/
def isLoadCall : Event → Bool
  | .loadCall _ _ => true
  | _ => false

/-- Event class test: a loader construction. -/
def isConstructCall : Event → Bool
  | .constructCall _ _ _ => true
  | _ => false

/-- Event class test: an extractor fetch invocation. -/
def isFetchCall : Event → Bool
  | .fetchCall _ _ => true
  | _ => false

theorem applySecretMapping_events {secrets : List (String × String)} {signal : String} :
    ∀ {sm : List (String × String)} {params : List (VKey × Val)} {e : Event},
      e ∈ (applySecretMapping secrets signal sm params).1 →
      ∃ s, e = Event.warnSecretNotFound s signal
  | [], _, _, h => by simp [applySecretMapping] at h
  | (p, sname) :: rest, params, e, h => by
      simp only [applySecretMapping] at h
      cases hl : secrets.lookup sname with
      | some v =>
          rw [hl] at h
          exact applySecretMapping_events h
      | none =>
          rw [hl] at h
          simp only [List.mem_cons] at h
          rcases h with h | h
          · exact ⟨sname, h⟩
          · exact applySecretMapping_events h

theorem resolveExtractor_events {w : World} {s : String} {cfg : SignalConfig} {e : Event}
    (h : e ∈ (resolveExtractorStep w s cfg).1) :
    isLoadCall e = false ∧ isConstructCall e = false ∧ isFetchCall e = false := by
  obtain ⟨ed, eps, secs, sm, td, lds⟩ := cfg
  cases ed with
  | byName n =>
      simp only [resolveExtractorStep] at h
      cases hk : extractor_map_keys.contains n with
      | true =>
          rw [hk] at h
          simp only [if_true] at h
          cases hs : get_secrets w.getenv secs with
          | error er =>
              rw [hs] at h
              simp at h
              subst h; exact ⟨rfl, rfl, rfl⟩
          | ok secrets =>
              rw [hs] at h
              simp only [List.mem_cons] at h
              rcases h with h | h
              · subst h; exact ⟨rfl, rfl, rfl⟩
              · obtain ⟨s2, he⟩ := applySecretMapping_events h
                subst he; exact ⟨rfl, rfl, rfl⟩
      | false =>
          rw [hk] at h
          simp only [Bool.false_eq_true, if_false, List.mem_cons, List.mem_singleton] at h
          rcases h with h | h | h
          · subst h; exact ⟨rfl, rfl, rfl⟩
          · subst h; exact ⟨rfl, rfl, rfl⟩
          · simp at h
  | byModule m c ps =>
      simp only [resolveExtractorStep] at h
      cases hi : w.importOk m c with
      | true =>
          rw [hi] at h
          simp only [if_true, List.mem_singleton] at h
          subst h; exact ⟨rfl, rfl, rfl⟩
      | false =>
          rw [hi] at h
          simp only [Bool.false_eq_true, if_false, List.mem_cons, List.mem_singleton] at h
          rcases h with h | h | h
          · subst h; exact ⟨rfl, rfl, rfl⟩
          · subst h; exact ⟨rfl, rfl, rfl⟩
          · simp at h

theorem extractStage_events {w : World} {ref : PluginRef} {cls : String}
    {params : List (VKey × Val)} {cache : Cache} {e : Event}
    (h : e ∈ (extractStage w ref cls params cache).1) :
    isLoadCall e = false ∧ isConstructCall e = false := by
  unfold extractStage at h
  cases hk : make_hashable_key (.dict params) with
  | ok hv =>
      rw [hk] at h
      simp only at h
      cases hl : List.lookup (cacheKeyOf ref hv) cache with
      | some raw => rw [hl] at h; simp at h; subst h; exact ⟨rfl, rfl⟩
      | none =>
          rw [hl] at h
          cases hf : w.fetch ref params with
          | ok raw =>
              rw [hf] at h; simp at h
              rcases h with h | h | h <;> (subst h; exact ⟨rfl, rfl⟩)
          | error er =>
              rw [hf] at h
              simp at h
              rcases h with h | h | h | h <;> (subst h; exact ⟨rfl, rfl⟩)
  | error er =>
      rw [hk] at h
      cases hf : w.fetch ref params with
      | ok raw => rw [hf] at h; simp at h; rcases h with h | h | h <;> (subst h; exact ⟨rfl, rfl⟩)
      | error e2 => rw [hf] at h; simp at h; rcases h with h | h <;> (subst h; exact ⟨rfl, rfl⟩)

theorem resolveTransformer_events {w : World} {s : String} {td : TransformerDef} {e : Event}
    (h : e ∈ (resolveTransformerStep w s td).1) :
    isLoadCall e = false ∧ isConstructCall e = false ∧ isFetchCall e = false := by
  cases td with
  | byName n =>
      simp only [resolveTransformerStep] at h
      cases hk : transformer_map_keys.contains n with
      | true =>
          rw [hk] at h; simp at h; subst h; exact ⟨rfl, rfl, rfl⟩
      | false =>
          rw [hk] at h; simp at h
          rcases h with h | h <;> (subst h; exact ⟨rfl, rfl, rfl⟩)
  | byModule m c ps =>
      simp only [resolveTransformerStep] at h
      cases hi : w.importOk m c with
      | true => rw [hi] at h; simp at h; subst h; exact ⟨rfl, rfl, rfl⟩
      | false =>
          rw [hi] at h; simp at h
          rcases h with h | h <;> (subst h; exact ⟨rfl, rfl, rfl⟩)
  | listOf ds =>
      cases ds with
      | nil => simp [resolveTransformerStep] at h
      | cons d rest =>
          cases d with
          | byName n => simp [resolveTransformerStep] at h
          | byModule m c ps =>
              simp only [resolveTransformerStep] at h
              cases hi : w.importOk m c with
              | true => rw [hi] at h; simp at h; subst h; exact ⟨rfl, rfl, rfl⟩
              | false =>
                  rw [hi] at h; simp at h
                  rcases h with h | h <;> (subst h; exact ⟨rfl, rfl, rfl⟩)
          | listOf ds2 => simp [resolveTransformerStep] at h

theorem isPrefixOf_map {f : Char → Char} : ∀ {pat s : List Char},
    pat.isPrefixOf s = true → (pat.map f).isPrefixOf (s.map f) = true
  | [], _, _ => by simp [List.isPrefixOf]
  | _ :: _, [], h => by simp [List.isPrefixOf] at h
  | a :: pat, b :: s, h => by
      simp only [List.isPrefixOf, Bool.and_eq_true, beq_iff_eq] at h ⊢
      exact ⟨by rw [h.1], isPrefixOf_map h.2⟩

theorem containsSub_map {f : Char → Char} : ∀ {s pat : List Char},
    containsSubList s pat = true → pat.map f = pat →
    containsSubList (s.map f) pat = true
  | [], pat, h, _ => by simpa [containsSubList] using h
  | c :: s, pat, h, hf => by
      simp only [containsSubList, Bool.or_eq_true] at h
      simp only [List.map_cons, containsSubList, Bool.or_eq_true]
      rcases h with h | h
      · left
        have := isPrefixOf_map (f := f) h
        rw [hf] at this
        simpa using this
      · right
        exact containsSub_map h hf

theorem googlePat_lower :
    "google_sheets_loader".data.map charLower = "google_sheets_loader".data := by decide

/-- A loader configuration meeting the google test is skipped before any
environment injection, import, or construction (pipeline.py lines 268-271
and 305-308; likewise 505-508 and 542-545). -/
theorem buildLoader_google {w : World} {s : String} {lc : LoaderConfig}
    (h : lcIsGoogle lc = true) :
    buildLoader w s lc = ([.skipGoogleSheets s], none) := by
  cases lc with
  | byType t cfg =>
      simp only [lcIsGoogle, decide_eq_true_eq] at h
      simp [buildLoader, h]
  | byModule m c ps =>
      simp only [lcIsGoogle] at h
      have hg : moduleIsGoogleSheets m = true := by
        unfold moduleIsGoogleSheets pyLower
        exact containsSub_map h googlePat_lower
      simp [buildLoader, hg]

/-- Shape of the events a single loader construction emits: never a load
call, and any construction call targets a non-google reference. -/
theorem buildLoader_events {w : World} {s : String} {lc : LoaderConfig} {e : Event}
    (h : e ∈ (buildLoader w s lc).1) :
    isLoadCall e = false ∧ isFetchCall e = false ∧
      (∀ ref b ps, e = Event.constructCall ref b ps → refIsGoogle ref = false) := by
  cases lc with
  | byModule m c ps =>
      simp only [buildLoader] at h
      cases hg : moduleIsGoogleSheets m with
      | true =>
          rw [hg] at h; simp at h; subst h
          exact ⟨rfl, rfl, by intro r b p hx; cases hx⟩
      | false =>
          rw [hg] at h
          simp only [Bool.false_eq_true, if_false] at h
          have hng : refIsGoogle (.byModule m c) = false := hg
          cases hsup : moduleIsSupabase m with
          | true =>
              rw [hsup] at h
              simp only [if_true] at h
              cases hurl : w.getenv "SUPABASE_URL" with
              | none =>
                  rw [hurl] at h; simp at h; subst h
                  exact ⟨rfl, rfl, by intro r b p hx; cases hx⟩
              | some url =>
                  rw [hurl] at h
                  simp only at h
                  cases hi : w.importOk m c with
                  | false =>
                      rw [hi] at h; simp at h; subst h
                      exact ⟨rfl, rfl, by intro r b p hx; cases hx⟩
                  | true =>
                      rw [hi] at h
                      simp only [if_true] at h
                      cases hc1 : w.constructL (.byModule m c) true _ with
                      | ok u => rw [hc1] at h; simp at h; subst h
                                exact ⟨rfl, rfl, by
                                  intro r b p hx
                                  cases hx
                                  exact hng⟩
                      | error e1 =>
                          rw [hc1] at h
                          cases e1 with
                          | typeError =>
                              cases hc2 : w.constructL (.byModule m c) false _ with
                              | ok u =>
                                  rw [hc2] at h; simp at h
                                  rcases h with h | h <;>
                                    (subst h; exact ⟨rfl, rfl, by
                                      intro r b p hx; cases hx; exact hng⟩)
                              | error e2 =>
                                  rw [hc2] at h; simp at h
                                  rcases h with h | h | h <;>
                                    first
                                      | (subst h; exact ⟨rfl, rfl, by
                                          intro r b p hx; cases hx; exact hng⟩)
                                      | (subst h; exact ⟨rfl, rfl, by
                                          intro r b p hx; cases hx⟩)
                          | missingSecret a => simp at h
                                               rcases h with h | h <;>
                                                 (subst h; exact ⟨rfl, rfl, by
                                                   intro r b p hx
                                                   first
                                                     | cases hx; exact hng
                                                     | cases hx⟩)
                          | extraction a => simp at h
                                            rcases h with h | h <;>
                                              (subst h; exact ⟨rfl, rfl, by
                                                intro r b p hx
                                                first
                                                  | cases hx; exact hng
                                                  | cases hx⟩)
                          | transformation a => simp at h
                                                rcases h with h | h <;>
                                                  (subst h; exact ⟨rfl, rfl, by
                                                    intro r b p hx
                                                    first
                                                      | cases hx; exact hng
                                                      | cases hx⟩)
                          | load a => simp at h
                                      rcases h with h | h <;>
                                        (subst h; exact ⟨rfl, rfl, by
                                          intro r b p hx
                                          first
                                            | cases hx; exact hng
                                            | cases hx⟩)
                          | other a => simp at h
                                       rcases h with h | h <;>
                                         (subst h; exact ⟨rfl, rfl, by
                                           intro r b p hx
                                           first
                                             | cases hx; exact hng
                                             | cases hx⟩)
          | false =>
              rw [hsup] at h
              simp only [Bool.false_eq_true, if_false] at h
              cases hi : w.importOk m c with
              | false =>
                  rw [hi] at h; simp at h; subst h
                  exact ⟨rfl, rfl, by intro r b p hx; cases hx⟩
              | true =>
                  rw [hi] at h
                  simp only [if_true] at h
                  cases hc1 : w.constructL (.byModule m c) true _ with
                  | ok u => rw [hc1] at h; simp at h; subst h
                            exact ⟨rfl, rfl, by
                              intro r b p hx; cases hx; exact hng⟩
                  | error e1 =>
                      rw [hc1] at h
                      cases e1 with
                      | typeError =>
                          cases hc2 : w.constructL (.byModule m c) false _ with
                          | ok u =>
                              rw [hc2] at h; simp at h
                              rcases h with h | h <;>
                                (subst h; exact ⟨rfl, rfl, by
                                  intro r b p hx; cases hx; exact hng⟩)
                          | error e2 =>
                              rw [hc2] at h; simp at h
                              rcases h with h | h | h <;>
                                first
                                  | (subst h; exact ⟨rfl, rfl, by
                                      intro r b p hx; cases hx; exact hng⟩)
                                  | (subst h; exact ⟨rfl, rfl, by
                                      intro r b p hx; cases hx⟩)
                      | missingSecret a => simp at h
                                           rcases h with h | h <;>
                                             (subst h; exact ⟨rfl, rfl, by
                                               intro r b p hx
                                               first
                                                 | cases hx; exact hng
                                                 | cases hx⟩)
                      | extraction a => simp at h
                                        rcases h with h | h <;>
                                          (subst h; exact ⟨rfl, rfl, by
                                            intro r b p hx
                                            first
                                              | cases hx; exact hng
                                              | cases hx⟩)
                      | transformation a => simp at h
                                            rcases h with h | h <;>
                                              (subst h; exact ⟨rfl, rfl, by
                                                intro r b p hx
                                                first
                                                  | cases hx; exact hng
                                                  | cases hx⟩)
                      | load a => simp at h
                                  rcases h with h | h <;>
                                    (subst h; exact ⟨rfl, rfl, by
                                      intro r b p hx
                                      first
                                        | cases hx; exact hng
                                        | cases hx⟩)
                      | other a => simp at h
                                   rcases h with h | h <;>
                                     (subst h; exact ⟨rfl, rfl, by
                                       intro r b p hx
                                       first
                                         | cases hx; exact hng
                                         | cases hx⟩)
  | byType t cfg =>
      simp only [buildLoader] at h
      by_cases hg : t = "google_sheets_loader"
      · rw [if_pos hg] at h; simp at h; subst h
        exact ⟨rfl, rfl, by intro r b p hx; cases hx⟩
      · rw [if_neg hg] at h
        have hng : refIsGoogle (.byName t) = false := by
          simp [refIsGoogle, hg]
        by_cases hsup : t = "supabase_loader"
        case pos =>
              rw [if_pos hsup] at h
              cases hurl : w.getenv "SUPABASE_URL" with
              | none =>
                  rw [hurl] at h; simp at h; subst h
                  exact ⟨rfl, rfl, by intro r b p hx; cases hx⟩
              | some url =>
                  rw [hurl] at h
                  simp only at h
                  cases hi : w.importLoadMod t with
                  | false =>
                      rw [hi] at h; simp at h; subst h
                      exact ⟨rfl, rfl, by intro r b p hx; cases hx⟩
                  | true =>
                      rw [hi] at h
                      simp only [if_true] at h
                      cases hc1 : w.constructL (.byName t) false _ with
                      | ok u => rw [hc1] at h; simp at h; subst h
                                exact ⟨rfl, rfl, by
                                  intro r b p hx; cases hx; exact hng⟩
                      | error e1 =>
                          rw [hc1] at h; simp at h
                          rcases h with h | h <;>
                            (subst h; exact ⟨rfl, rfl, by
                              intro r b p hx
                              first
                                | cases hx; exact hng
                                | cases hx⟩)
        case neg =>
              rw [if_neg hsup] at h
              simp only at h
              cases hi : w.importLoadMod t with
              | false =>
                  rw [hi] at h; simp at h; subst h
                  exact ⟨rfl, rfl, by intro r b p hx; cases hx⟩
              | true =>
                  rw [hi] at h
                  simp only [if_true] at h
                  cases hc1 : w.constructL (.byName t) false _ with
                  | ok u => rw [hc1] at h; simp at h; subst h
                            exact ⟨rfl, rfl, by
                              intro r b p hx; cases hx; exact hng⟩
                  | error e1 =>
                      rw [hc1] at h; simp at h
                      rcases h with h | h <;>
                        (subst h; exact ⟨rfl, rfl, by
                          intro r b p hx
                          first
                            | cases hx; exact hng
                            | cases hx⟩)

theorem buildLoader_inst {w : World} {s : String} {lc : LoaderConfig} {r : PluginRef}
    (h : (buildLoader w s lc).2 = some r) : refIsGoogle r = false := by
  cases lc with
  | byModule m c ps =>
      simp only [buildLoader] at h
      cases hg : moduleIsGoogleSheets m with
      | true => rw [hg] at h; simp at h
      | false =>
          rw [hg] at h
          simp only [Bool.false_eq_true, if_false] at h
          have hng : refIsGoogle (.byModule m c) = false := hg
          cases hsup : moduleIsSupabase m with
          | true =>
              rw [hsup] at h
              simp only [if_true] at h
              cases hurl : w.getenv "SUPABASE_URL" with
              | none => rw [hurl] at h; simp at h
              | some url =>
                  rw [hurl] at h
                  simp only at h
                  cases hi : w.importOk m c with
                  | false => rw [hi] at h; simp at h
                  | true =>
                      rw [hi] at h
                      simp only [if_true] at h
                      cases hc1 : w.constructL (.byModule m c) true _ with
                      | ok u => rw [hc1] at h; simp at h; exact h ▸ hng
                      | error e1 =>
                          rw [hc1] at h
                          cases e1 with
                          | typeError =>
                              cases hc2 : w.constructL (.byModule m c) false _ with
                              | ok u => rw [hc2] at h; simp at h; exact h ▸ hng
                              | error e2 => rw [hc2] at h; simp at h
                          | missingSecret a => simp at h
                          | extraction a => simp at h
                          | transformation a => simp at h
                          | load a => simp at h
                          | other a => simp at h
          | false =>
              rw [hsup] at h
              simp only [Bool.false_eq_true, if_false] at h
              cases hi : w.importOk m c with
              | false => rw [hi] at h; simp at h
              | true =>
                  rw [hi] at h
                  simp only [if_true] at h
                  cases hc1 : w.constructL (.byModule m c) true _ with
                  | ok u => rw [hc1] at h; simp at h; exact h ▸ hng
                  | error e1 =>
                      rw [hc1] at h
                      cases e1 with
                      | typeError =>
                          cases hc2 : w.constructL (.byModule m c) false _ with
                          | ok u => rw [hc2] at h; simp at h; exact h ▸ hng
                          | error e2 => rw [hc2] at h; simp at h
                      | missingSecret a => simp at h
                      | extraction a => simp at h
                      | transformation a => simp at h
                      | load a => simp at h
                      | other a => simp at h
  | byType t cfg =>
      simp only [buildLoader] at h
      by_cases hg : t = "google_sheets_loader"
      · rw [if_pos hg] at h; simp at h
      · rw [if_neg hg] at h
        have hng : refIsGoogle (.byName t) = false := by
          simp [refIsGoogle, hg]
        by_cases hsup : t = "supabase_loader"
        case pos =>
            rw [if_pos hsup] at h
            cases hurl : w.getenv "SUPABASE_URL" with
            | none => rw [hurl] at h; simp at h
            | some url =>
                rw [hurl] at h
                simp only at h
                cases hi : w.importLoadMod t with
                | false => rw [hi] at h; simp at h
                | true =>
                    rw [hi] at h
                    simp only [if_true] at h
                    cases hc1 : w.constructL (.byName t) false _ with
                    | ok u => rw [hc1] at h; simp at h; exact h ▸ hng
                    | error e1 => rw [hc1] at h; simp at h
        case neg =>
            rw [if_neg hsup] at h
            simp only at h
            cases hi : w.importLoadMod t with
            | false => rw [hi] at h; simp at h
            | true =>
                rw [hi] at h
                simp only [if_true] at h
                cases hc1 : w.constructL (.byName t) false _ with
                | ok u => rw [hc1] at h; simp at h; exact h ▸ hng
                | error e1 => rw [hc1] at h; simp at h

theorem buildLoaders_events {w : World} {s : String} {e : Event} :
    ∀ {lcs : List LoaderConfig}, e ∈ (buildLoaders w s lcs).1 →
    isLoadCall e = false ∧ isFetchCall e = false ∧
      (∀ ref b ps, e = Event.constructCall ref b ps → refIsGoogle ref = false)
  | [], h => by simp [buildLoaders] at h
  | lc :: rest, h => by
      simp only [buildLoaders, List.mem_append] at h
      rcases h with h | h
      · exact buildLoader_events h
      · exact buildLoaders_events h

theorem buildLoaders_insts {w : World} {s : String} {r : PluginRef} :
    ∀ {lcs : List LoaderConfig}, r ∈ (buildLoaders w s lcs).2 →
    refIsGoogle r = false
  | [], h => by simp [buildLoaders] at h
  | lc :: rest, h => by
      simp only [buildLoaders] at h
      cases hb : (buildLoader w s lc).2 with
      | none => rw [hb] at h; exact buildLoaders_insts h
      | some r2 =>
          rw [hb] at h
          simp only [List.mem_cons] at h
          rcases h with h | h
          · subst h; exact buildLoader_inst hb
          · exact buildLoaders_insts h

theorem runLoaders_events {w : World} {s : String} {record : List (VKey × Val)} {e : Event} :
    ∀ {insts : List PluginRef}, e ∈ (runLoaders w s record insts).1 →
    isConstructCall e = false ∧ isFetchCall e = false ∧
      (∀ ref rec, e = Event.loadCall ref rec → rec = record ∧ ref ∈ insts)
  | [], h => by simp [runLoaders] at h
  | ref0 :: rest, h => by
      simp only [runLoaders] at h
      cases hl : w.load ref0 record with
      | ok u =>
          rw [hl] at h
          simp only [List.mem_cons] at h
          rcases h with h | h | h
          · subst h; exact ⟨rfl, rfl, by intro a b hx; cases hx⟩
          · subst h
            exact ⟨rfl, rfl, by intro a b hx; cases hx; exact ⟨rfl, List.mem_cons_self _ _⟩⟩
          · obtain ⟨h1, h2, h3⟩ := runLoaders_events h
            exact ⟨h1, h2, by
              intro a b hx
              obtain ⟨hb, hm⟩ := h3 a b hx
              exact ⟨hb, List.mem_cons_of_mem _ hm⟩⟩
      | error er =>
          rw [hl] at h
          simp only [List.mem_cons] at h
          rcases h with h | h | h | h
          · subst h; exact ⟨rfl, rfl, by intro a b hx; cases hx⟩
          · subst h
            exact ⟨rfl, rfl, by intro a b hx; cases hx; exact ⟨rfl, List.mem_cons_self _ _⟩⟩
          · subst h; exact ⟨rfl, rfl, by intro a b hx; cases hx⟩
          · obtain ⟨h1, h2, h3⟩ := runLoaders_events h
            exact ⟨h1, h2, by
              intro a b hx
              obtain ⟨hb, hm⟩ := h3 a b hx
              exact ⟨hb, List.mem_cons_of_mem _ hm⟩⟩

theorem lookup_dictSet (d : List (VKey × Val)) (k : VKey) (v : Val) :
    List.lookup k (dictSet d k v) = some v := by
  induction d with
  | nil => simp [dictSet, List.lookup]
  | cons kv rest ih =>
      obtain ⟨k0, v0⟩ := kv
      by_cases hk : k0 = k
      · simp [dictSet, hk, List.lookup]
      · simp only [dictSet, if_neg hk, List.lookup]
        have : (k == k0) = false := by
          simp [BEq.beq]
          exact fun he => hk he.symm
        rw [this]
        exact ih

/-- Every loader invocation and every loader construction inside the
per-signal body targets a non-google loader, and every loader invocation
receives the transformed record with signal_name bound to the processed
signal. -/
theorem body_events {w : World} {cache : Cache} {s : String} {cfg : SignalConfig} {e : Event}
    (h : e ∈ (processSignalBody w cache s cfg).1) :
    (∀ ref rec, e = Event.loadCall ref rec →
        refIsGoogle ref = false ∧
        List.lookup (VKey.s "signal_name") rec = some (Val.str s)) ∧
    (∀ ref b ps, e = Event.constructCall ref b ps → refIsGoogle ref = false) := by
  unfold processSignalBody at h
  rcases hR : resolveExtractorStep w s cfg with ⟨e1, st⟩
  rw [hR] at h
  cases st with
  | skip =>
      simp only at h
      obtain ⟨h1, h2, _⟩ := resolveExtractor_events (hR ▸ h : e ∈ (resolveExtractorStep w s cfg).1)
      exact ⟨by intro a b hx; subst hx; simp [isLoadCall] at h1,
             by intro a b p hx; subst hx; simp [isConstructCall] at h2⟩
  | raise er =>
      simp only at h
      obtain ⟨h1, h2, _⟩ := resolveExtractor_events (hR ▸ h : e ∈ (resolveExtractorStep w s cfg).1)
      exact ⟨by intro a b hx; subst hx; simp [isLoadCall] at h1,
             by intro a b p hx; subst hx; simp [isConstructCall] at h2⟩
  | ok triple =>
      obtain ⟨ref, cls, params⟩ := triple
      simp only at h
      rcases hE : extractStage w ref cls params cache with ⟨e2, res⟩
      rw [hE] at h
      cases res with
      | error er =>
          simp only [List.mem_append] at h
          rcases h with h | h
          · obtain ⟨h1, h2, _⟩ :=
              resolveExtractor_events (hR ▸ h : e ∈ (resolveExtractorStep w s cfg).1)
            exact ⟨by intro a b hx; subst hx; simp [isLoadCall] at h1,
                   by intro a b p hx; subst hx; simp [isConstructCall] at h2⟩
          · obtain ⟨h1, h2⟩ :=
              extractStage_events (hE ▸ h : e ∈ (extractStage w ref cls params cache).1)
            exact ⟨by intro a b hx; subst hx; simp [isLoadCall] at h1,
                   by intro a b p hx; subst hx; simp [isConstructCall] at h2⟩
      | ok pair =>
          obtain ⟨raw, cache2⟩ := pair
          simp only at h
          rcases hT : resolveTransformerStep w s cfg.transformer with ⟨e3, st3⟩
          rw [hT] at h
          cases st3 with
          | skip =>
              simp only [List.mem_append] at h
              rcases h with (h | h) | h
              · obtain ⟨h1, h2, _⟩ :=
                  resolveExtractor_events (hR ▸ h : e ∈ (resolveExtractorStep w s cfg).1)
                exact ⟨by intro a b hx; subst hx; simp [isLoadCall] at h1,
                       by intro a b p hx; subst hx; simp [isConstructCall] at h2⟩
              · obtain ⟨h1, h2⟩ :=
                  extractStage_events (hE ▸ h : e ∈ (extractStage w ref cls params cache).1)
                exact ⟨by intro a b hx; subst hx; simp [isLoadCall] at h1,
                       by intro a b p hx; subst hx; simp [isConstructCall] at h2⟩
              · obtain ⟨h1, h2, _⟩ :=
                  resolveTransformer_events (hT ▸ h : e ∈ (resolveTransformerStep w s cfg.transformer).1)
                exact ⟨by intro a b hx; subst hx; simp [isLoadCall] at h1,
                       by intro a b p hx; subst hx; simp [isConstructCall] at h2⟩
          | raise er =>
              simp only [List.mem_append] at h
              rcases h with (h | h) | h
              · obtain ⟨h1, h2, _⟩ :=
                  resolveExtractor_events (hR ▸ h : e ∈ (resolveExtractorStep w s cfg).1)
                exact ⟨by intro a b hx; subst hx; simp [isLoadCall] at h1,
                       by intro a b p hx; subst hx; simp [isConstructCall] at h2⟩
              · obtain ⟨h1, h2⟩ :=
                  extractStage_events (hE ▸ h : e ∈ (extractStage w ref cls params cache).1)
                exact ⟨by intro a b hx; subst hx; simp [isLoadCall] at h1,
                       by intro a b p hx; subst hx; simp [isConstructCall] at h2⟩
              · obtain ⟨h1, h2, _⟩ :=
                  resolveTransformer_events (hT ▸ h : e ∈ (resolveTransformerStep w s cfg.transformer).1)
                exact ⟨by intro a b hx; subst hx; simp [isLoadCall] at h1,
                       by intro a b p hx; subst hx; simp [isConstructCall] at h2⟩
          | ok tref =>
              simp only at h
              cases hTr : w.transform tref raw with
              | error er =>
                  rw [hTr] at h
                  simp only [List.mem_append] at h
                  rcases h with ((h | h) | h) | h
                  · obtain ⟨h1, h2, _⟩ :=
                      resolveExtractor_events (hR ▸ h : e ∈ (resolveExtractorStep w s cfg).1)
                    exact ⟨by intro a b hx; subst hx; simp [isLoadCall] at h1,
                           by intro a b p hx; subst hx; simp [isConstructCall] at h2⟩
                  · obtain ⟨h1, h2⟩ :=
                      extractStage_events (hE ▸ h : e ∈ (extractStage w ref cls params cache).1)
                    exact ⟨by intro a b hx; subst hx; simp [isLoadCall] at h1,
                           by intro a b p hx; subst hx; simp [isConstructCall] at h2⟩
                  · obtain ⟨h1, h2, _⟩ :=
                      resolveTransformer_events (hT ▸ h : e ∈ (resolveTransformerStep w s cfg.transformer).1)
                    exact ⟨by intro a b hx; subst hx; simp [isLoadCall] at h1,
                           by intro a b p hx; subst hx; simp [isConstructCall] at h2⟩
                  · simp only [List.mem_singleton] at h
                    subst h
                    exact ⟨(by intro a b hx; cases hx), (by intro a b p hx; cases hx)⟩
              | ok rec0 =>
                  rw [hTr] at h
                  simp only [List.mem_append] at h
                  rcases h with (((((h | h) | h) | h) | h) | h) | h
                  · obtain ⟨h1, h2, _⟩ :=
                      resolveExtractor_events (hR ▸ h : e ∈ (resolveExtractorStep w s cfg).1)
                    exact ⟨by intro a b hx; subst hx; simp [isLoadCall] at h1,
                           by intro a b p hx; subst hx; simp [isConstructCall] at h2⟩
                  · obtain ⟨h1, h2⟩ :=
                      extractStage_events (hE ▸ h : e ∈ (extractStage w ref cls params cache).1)
                    exact ⟨by intro a b hx; subst hx; simp [isLoadCall] at h1,
                           by intro a b p hx; subst hx; simp [isConstructCall] at h2⟩
                  · obtain ⟨h1, h2, _⟩ :=
                      resolveTransformer_events (hT ▸ h : e ∈ (resolveTransformerStep w s cfg.transformer).1)
                    exact ⟨by intro a b hx; subst hx; simp [isLoadCall] at h1,
                           by intro a b p hx; subst hx; simp [isConstructCall] at h2⟩
                  · simp only [List.mem_singleton] at h
                    subst h
                    exact ⟨(by intro a b hx; cases hx), (by intro a b p hx; cases hx)⟩
                  · obtain ⟨h1, h2, h3⟩ := buildLoaders_events h
                    exact ⟨by intro a b hx; subst hx; simp [isLoadCall] at h1,
                           by intro a b p hx; exact h3 a b p hx⟩
                  · obtain ⟨h1, h2, h3⟩ := runLoaders_events h
                    refine ⟨?_, by intro a b p hx; subst hx; simp [isConstructCall] at h1⟩
                    intro a b hx
                    obtain ⟨hb, hm⟩ := h3 a b hx
                    subst hb
                    exact ⟨buildLoaders_insts hm, lookup_dictSet _ _ _⟩
                  · cases hok : (runLoaders w s
                        (dictSet rec0 (VKey.s "signal_name") (Val.str s))
                        (buildLoaders w s (cfg.loaders.getD default_loaders)).2).2 with
                    | true =>
                        rw [hok] at h
                        simp only [if_true, List.mem_singleton] at h
                        subst h
                        exact ⟨(by intro a b hx; cases hx), (by intro a b p hx; cases hx)⟩
                    | false =>
                        rw [hok] at h
                        simp at h
                        subst h
                        exact ⟨(by intro a b hx; cases hx), (by intro a b p hx; cases hx)⟩

/-- Event class test: the loop-level events the run loop itself emits
around each signal body. -/
def isLoopEvent : Event → Bool
  | .signalStart _ => true
  | .etlFailure _ => true
  | _ => false

theorem runSignals_events {w : World} :
    ∀ {sigs : List (String × SignalConfig)} {cache : Cache} {e : Event},
      e ∈ (runSignals w cache sigs).1 →
      isLoopEvent e = true ∨
      ∃ name cfg cache2, (name, cfg) ∈ sigs ∧ e ∈ (processSignalBody w cache2 name cfg).1
  | [], _, _, h => by simp [runSignals] at h
  | (name, cfg) :: rest, cache, e, h => by
      simp only [runSignals] at h
      rcases hB : processSignalBody w cache name cfg with ⟨e1, cache1, r⟩
      rw [hB] at h
      simp only [List.mem_cons, List.mem_append] at h
      rcases h with (h | h | h) | h
      · subst h; exact Or.inl rfl
      · exact Or.inr ⟨name, cfg, cache, List.mem_cons_self _ _, by rw [hB]; exact h⟩
      · cases r with
        | raised er => simp at h; subst h; exact Or.inl rfl
        | completed b => simp at h
        | resolutionFailed => simp at h
      · rcases runSignals_events h with h2 | ⟨n2, c2, ca2, hm, he⟩
        · exact Or.inl h2
        · exact Or.inr ⟨n2, c2, ca2, List.mem_cons_of_mem _ hm, he⟩

theorem run_signal_events {w : World} {config : Config} {cache0 : Cache}
    {signal : String} {e : Event}
    (h : e ∈ (run_signal w config cache0 signal).1) :
    e = Event.errSignalNotFound signal ∨ e = Event.signalStart signal ∨
    e = Event.errRunSignalError signal ∨
    ∃ cfg, List.lookup signal config.signals = some cfg ∧
      e ∈ (processSignalBody w [] signal cfg).1 := by
  cases hl : List.lookup signal config.signals with
  | none =>
      simp only [run_signal, hl] at h
      simp at h; exact Or.inl h
  | some cfg =>
      rcases hB : processSignalBody w [] signal cfg with ⟨e1, cache1, r⟩
      simp only [run_signal, hl, hB] at h
      cases r with
      | completed b =>
          simp only [List.mem_cons] at h
          rcases h with h | h
          · exact Or.inr (Or.inl h)
          · exact Or.inr (Or.inr (Or.inr ⟨cfg, rfl, by rw [hB]; exact h⟩))
      | resolutionFailed =>
          simp only [List.mem_cons] at h
          rcases h with h | h
          · exact Or.inr (Or.inl h)
          · exact Or.inr (Or.inr (Or.inr ⟨cfg, rfl, by rw [hB]; exact h⟩))
      | raised er =>
          simp only [List.cons_append, List.mem_cons, List.mem_append,
            List.mem_singleton] at h
          rcases h with h | h | h | h
          · exact Or.inr (Or.inl h)
          · exact Or.inr (Or.inr (Or.inr ⟨cfg, rfl, by rw [hB]; exact h⟩))
          · exact Or.inr (Or.inr (Or.inl h))
          · simp at h

/-- Claim C4: after transformation the engine overwrites the record's
signal_name with the processed signal's name before any loader is invoked.
Stated as: in the shared per-signal body (used verbatim by both run and
run_signal), every loader invocation receives a record whose signal_name
is the processed signal's name; in a whole run every loader invocation
carries the name of one of the configured signals; and in run_signal every
loader invocation carries the requested signal's name. -/
theorem C4_signal_name_injection :
    (∀ (w : World) (cache : Cache) (s : String) (cfg : SignalConfig)
        (ref : PluginRef) (rec : List (VKey × Val)),
      Event.loadCall ref rec ∈ (processSignalBody w cache s cfg).1 →
      List.lookup (VKey.s "signal_name") rec = some (Val.str s)) ∧
    (∀ (w : World) (config : Config) (ref : PluginRef) (rec : List (VKey × Val)),
      Event.loadCall ref rec ∈ (run w config).1 →
      ∃ p ∈ config.signals,
        List.lookup (VKey.s "signal_name") rec = some (Val.str p.1)) ∧
    (∀ (w : World) (config : Config) (cache0 : Cache) (signal : String)
        (ref : PluginRef) (rec : List (VKey × Val)),
      Event.loadCall ref rec ∈ (run_signal w config cache0 signal).1 →
      List.lookup (VKey.s "signal_name") rec = some (Val.str signal)) := by
  refine ⟨?_, ?_, ?_⟩
  · intro w cache s cfg ref rec h
    exact ((body_events h).1 ref rec rfl).2
  · intro w config ref rec h
    rcases runSignals_events h with h2 | ⟨n2, c2, ca2, hm, he⟩
    · simp [isLoopEvent] at h2
    · exact ⟨(n2, c2), hm, ((body_events he).1 ref rec rfl).2⟩
  · intro w config cache0 signal ref rec h
    rcases run_signal_events h with h2 | h2 | h2 | ⟨cfg, hl, he⟩
    · cases h2
    · cases h2
    · cases h2
    · exact ((body_events he).1 ref rec rfl).2

/-- Claim C10: loaders meeting the google_sheets_loader test (type equal
to google_sheets_loader, or module path containing google_sheets_loader)
are skipped unconditionally: such a loader configuration is dropped with a
skip log and no construction, in every run and every run_signal no loader
construction and no loader invocation targets a google_sheets_loader
reference, and dropping the loader leaves the remaining loader list (hence
the signal's load success flag) exactly as if the loader were absent. -/
theorem C10_google_sheets_loader_skipped :
    (∀ (w : World) (s : String) (lc : LoaderConfig), lcIsGoogle lc = true →
      buildLoader w s lc = ([.skipGoogleSheets s], none)) ∧
    (∀ (w : World) (config : Config) (e : Event), e ∈ (run w config).1 →
      (∀ ref rec, e = Event.loadCall ref rec → refIsGoogle ref = false) ∧
      (∀ ref b ps, e = Event.constructCall ref b ps → refIsGoogle ref = false)) ∧
    (∀ (w : World) (config : Config) (cache0 : Cache) (signal : String) (e : Event),
      e ∈ (run_signal w config cache0 signal).1 →
      (∀ ref rec, e = Event.loadCall ref rec → refIsGoogle ref = false) ∧
      (∀ ref b ps, e = Event.constructCall ref b ps → refIsGoogle ref = false)) ∧
    (∀ (w : World) (s : String) (lc : LoaderConfig) (rest : List LoaderConfig),
      lcIsGoogle lc = true →
      (buildLoaders w s (lc :: rest)).2 = (buildLoaders w s rest).2) := by
  refine ⟨fun w s lc h => buildLoader_google h, ?_, ?_, ?_⟩
  · intro w config e h
    rcases runSignals_events h with h2 | ⟨n2, c2, ca2, hm, he⟩
    · constructor
      · intro ref rec hx; subst hx; simp [isLoopEvent] at h2
      · intro ref b ps hx; subst hx; simp [isLoopEvent] at h2
    · obtain ⟨hL, hC⟩ := body_events he
      exact ⟨fun ref rec hx => (hL ref rec hx).1, hC⟩
  · intro w config cache0 signal e h
    rcases run_signal_events h with h2 | h2 | h2 | ⟨cfg, hl, he⟩
    · subst h2
      exact ⟨fun ref rec hx => absurd hx (by simp), fun ref b ps hx => absurd hx (by simp)⟩
    · subst h2
      exact ⟨fun ref rec hx => absurd hx (by simp), fun ref b ps hx => absurd hx (by simp)⟩
    · subst h2
      exact ⟨fun ref rec hx => absurd hx (by simp), fun ref b ps hx => absurd hx (by simp)⟩
    · obtain ⟨hL, hC⟩ := body_events he
      exact ⟨fun ref rec hx => (hL ref rec hx).1, hC⟩
  · intro w s lc rest h
    simp [buildLoaders, buildLoader_google h]

theorem resolveExtractor_byName {w : World} {s n : String}
    {eps : List (VKey × Val)} {secrets : List String} {sm : List (String × String)}
    {td : TransformerDef} {lds : Option (List LoaderConfig)}
    {svals : List (String × String)}
    (hmem : n ∈ extractor_map_keys)
    (hsec : get_secrets w.getenv secrets = .ok svals) :
    resolveExtractorStep w s ⟨.byName n, eps, secrets, sm, td, lds⟩ =
      (Event.extractStart n :: (applySecretMapping svals s sm eps).1,
       .ok (.byName n, n, (applySecretMapping svals s sm eps).2)) := by
  simp [resolveExtractorStep, hmem, hsec]

theorem resolveExtractor_missing {w : World} {s n : String}
    {eps : List (VKey × Val)} {secrets : List String} {sm : List (String × String)}
    {td : TransformerDef} {lds : Option (List LoaderConfig)} {er : PyErr}
    (hmem : n ∈ extractor_map_keys)
    (hsec : get_secrets w.getenv secrets = .error er) :
    resolveExtractorStep w s ⟨.byName n, eps, secrets, sm, td, lds⟩ =
      ([Event.extractStart n], .raise er) := by
  simp [resolveExtractorStep, hmem, hsec]

theorem resolveTransformer_byName {w : World} {s n : String}
    (hmem : n ∈ transformer_map_keys) :
    resolveTransformerStep w s (.byName n) =
      ([Event.transformStart n], .ok (.byName n)) := by
  simp [resolveTransformerStep, hmem]

theorem extractStage_miss {w : World} {ref : PluginRef} {cls : String}
    {params : List (VKey × Val)} {cache : Cache} {hkey : HKey} {raw : Val}
    (hk : make_hashable_key (.dict params) = .ok hkey)
    (hl : List.lookup (cacheKeyOf ref hkey) cache = none)
    (hf : w.fetch ref params = .ok raw) :
    extractStage w ref cls params cache =
      ([.cacheMissInfo cls, .fetchCall ref params, .fetchedInfo cls],
       .ok (raw, (cacheKeyOf ref hkey, raw) :: cache)) := by
  unfold extractStage
  rw [hk]
  simp only [hl, hf]

theorem extractStage_hit {w : World} {ref : PluginRef} {cls : String}
    {params : List (VKey × Val)} {cache : Cache} {hkey : HKey} {raw : Val}
    (hk : make_hashable_key (.dict params) = .ok hkey)
    (hl : List.lookup (cacheKeyOf ref hkey) cache = some raw) :
    extractStage w ref cls params cache = ([.cacheHitInfo cls], .ok (raw, cache)) := by
  unfold extractStage
  rw [hk]
  simp only [hl]

theorem extractStage_fetch_error {w : World} {ref : PluginRef} {c : String}
    {params : List (VKey × Val)} {cache : Cache} {hkey : HKey} {er : PyErr}
    (hk : make_hashable_key (.dict params) = .ok hkey)
    (hl : List.lookup (cacheKeyOf ref hkey) cache = none)
    (hf : w.fetch ref params = .error er) :
    extractStage w ref c params cache =
      ([.cacheMissInfo c, .fetchCall ref params, .errCacheKeyGen, .fetchCall ref params],
       .error er) := by
  unfold extractStage
  rw [hk]
  simp only [hl, hf]

theorem extractStage_keyfail {w : World} {ref : PluginRef} {c : String}
    {params : List (VKey × Val)} {m : Cache} {raw : Val}
    (hk : make_hashable_key (.dict params) = .error ())
    (hf : w.fetch ref params = .ok raw) :
    extractStage w ref c params m =
      ([.errCacheKeyGen, .fetchCall ref params, .fetchNoCache c], .ok (raw, m)) := by
  unfold extractStage
  rw [hk]
  simp only [hf]

theorem processSignalBody_ok {w : World} {m : Cache} {s : String} {cfg : SignalConfig}
    {e1 e2 e3 : List Event} {ref tref : PluginRef} {cls : String}
    {params : List (VKey × Val)} {raw : Val} {cache2 : Cache}
    {rec0 : List (VKey × Val)}
    (hR : resolveExtractorStep w s cfg = (e1, .ok (ref, cls, params)))
    (hE : extractStage w ref cls params m = (e2, .ok (raw, cache2)))
    (hT : resolveTransformerStep w s cfg.transformer = (e3, .ok tref))
    (hTr : w.transform tref raw = .ok rec0) :
    processSignalBody w m s cfg =
      (e1 ++ e2 ++ e3 ++ [.transformCall tref raw] ++
        (buildLoaders w s (cfg.loaders.getD default_loaders)).1 ++
        (runLoaders w s (dictSet rec0 (.s "signal_name") (.str s))
          (buildLoaders w s (cfg.loaders.getD default_loaders)).2).1 ++
        (if (runLoaders w s (dictSet rec0 (.s "signal_name") (.str s))
              (buildLoaders w s (cfg.loaders.getD default_loaders)).2).2
         then [.etlSuccess s] else [.warnPartialLoad s]),
       cache2,
       .completed (runLoaders w s (dictSet rec0 (.s "signal_name") (.str s))
          (buildLoaders w s (cfg.loaders.getD default_loaders)).2).2) := by
  unfold processSignalBody
  simp only [hR, hE, hT, hTr]

theorem processSignalBody_fetch_raised {w : World} {cache : Cache} {s : String}
    {cfg : SignalConfig} {e1 e2 : List Event} {ref : PluginRef} {cls : String}
    {params : List (VKey × Val)} {er : PyErr}
    (hR : resolveExtractorStep w s cfg = (e1, .ok (ref, cls, params)))
    (hE : extractStage w ref cls params cache = (e2, .error er)) :
    processSignalBody w cache s cfg = (e1 ++ e2, cache, .raised er) := by
  unfold processSignalBody
  simp only [hR, hE]

theorem processSignalBody_resolver_raised {w : World} {cache : Cache} {s : String}
    {cfg : SignalConfig} {e1 : List Event} {er : PyErr}
    (hR : resolveExtractorStep w s cfg = (e1, .raise er)) :
    processSignalBody w cache s cfg = (e1, cache, .raised er) := by
  unfold processSignalBody
  simp only [hR]

/-- The extractor identity a cache key was built from. -/
def refOfKey : CKey → PluginRef
  | .byName n _ => .byName n
  | .byModule m c _ => .byModule m c

/-- Invariant of the extractor cache: every stored entry was produced by a
successful fetch of its extractor (a failed fetch leaves no cache entry). -/
abbrev CacheInv (w : World) (cache : Cache) : Prop :=
  ∀ kv ∈ cache, ∃ ps r, w.fetch (refOfKey kv.1) ps = .ok r

theorem lookup_mem_beq : ∀ {l : List (CKey × Val)} {k : CKey} {v : Val},
    List.lookup k l = some v → ∃ k2, (k2, v) ∈ l ∧ (k == k2) = true
  | [], k, v, h => by simp [List.lookup] at h
  | (k1, v1) :: rest, k, v, h => by
      simp only [List.lookup] at h
      cases hb : (k == k1) with
      | true =>
          rw [hb] at h
          simp at h
          exact ⟨k1, by simp [h], hb⟩
      | false =>
          rw [hb] at h
          simp at h
          obtain ⟨k2, hm, hb2⟩ := lookup_mem_beq h
          exact ⟨k2, List.mem_cons_of_mem _ hm, hb2⟩

theorem ckey_beq_ref {k k2 : CKey} (h : (k == k2) = true) :
    refOfKey k = refOfKey k2 := by
  cases k with
  | byName n p =>
      cases k2 with
      | byName n2 p2 =>
          simp only [BEq.beq, CKey.beq, Bool.and_eq_true, beq_iff_eq,
            decide_eq_true_eq] at h
          simp [refOfKey, h.1]
      | byModule m2 c2 p2 => simp [BEq.beq, CKey.beq] at h
  | byModule m c p =>
      cases k2 with
      | byName n2 p2 => simp [BEq.beq, CKey.beq] at h
      | byModule m2 c2 p2 =>
          simp only [BEq.beq, CKey.beq, Bool.and_eq_true, beq_iff_eq,
            decide_eq_true_eq] at h
          simp [refOfKey, h.1.1, h.1.2]

theorem refOfKey_cacheKeyOf (ref : PluginRef) (h : HKey) :
    refOfKey (cacheKeyOf ref h) = ref := by
  cases ref <;> rfl

theorem extractStage_cacheInv {w : World} {ref : PluginRef} {cls : String}
    {params : List (VKey × Val)} {cache : Cache} {evs : List Event}
    {raw : Val} {cache2 : Cache}
    (hinv : CacheInv w cache)
    (h : extractStage w ref cls params cache = (evs, .ok (raw, cache2))) :
    CacheInv w cache2 := by
  unfold extractStage at h
  cases hk : make_hashable_key (.dict params) with
  | ok hkey =>
      rw [hk] at h
      simp only at h
      cases hl : List.lookup (cacheKeyOf ref hkey) cache with
      | some r0 =>
          rw [hl] at h
          simp at h
          rw [← h.2.2]
          exact hinv
      | none =>
          rw [hl] at h
          cases hf : w.fetch ref params with
          | ok r0 =>
              rw [hf] at h
              simp at h
              rw [← h.2.2]
              intro kv hm
              rcases List.mem_cons.mp hm with hm | hm
              · subst hm
                exact ⟨params, r0, by rw [refOfKey_cacheKeyOf]; exact hf⟩
              · exact hinv kv hm
          | error er =>
              rw [hf] at h
              simp at h
  | error er =>
      rw [hk] at h
      cases hf : w.fetch ref params with
      | ok r0 =>
          rw [hf] at h
          simp at h
          rw [← h.2.2]
          exact hinv
      | error e2 => rw [hf] at h; simp at h

theorem extractStage_blocked {w : World} {ref : PluginRef} {cls : String}
    {params : List (VKey × Val)} {cache : Cache} {er : PyErr}
    (hinv : CacheInv w cache)
    (hf : ∀ ps, w.fetch ref ps = .error er) :
    ∃ evs, extractStage w ref cls params cache = (evs, .error er) ∧
      Event.fetchCall ref params ∈ evs := by
  cases hk : make_hashable_key (.dict params) with
  | ok hkey =>
      cases hl : List.lookup (cacheKeyOf ref hkey) cache with
      | some r0 =>
          exfalso
          obtain ⟨k2, hm, hb⟩ := lookup_mem_beq hl
          obtain ⟨ps, r, hfok⟩ := hinv (k2, r0) hm
          have : refOfKey k2 = ref := by
            rw [← ckey_beq_ref hb, refOfKey_cacheKeyOf]
          rw [this] at hfok
          rw [hf ps] at hfok
          cases hfok
      | none =>
          exact ⟨_, extractStage_fetch_error hk hl (hf params), by simp⟩
  | error er2 =>
      cases er2
      have hEq : extractStage w ref cls params cache =
          ([.errCacheKeyGen, .fetchCall ref params], .error er) := by
        unfold extractStage
        rw [hk]
        simp only [hf params]
      exact ⟨_, hEq, by simp⟩

theorem body_cacheInv {w : World} {cache : Cache} {s : String} {cfg : SignalConfig}
    {evs : List Event} {cache2 : Cache} {r : BodyResult}
    (hinv : CacheInv w cache)
    (h : processSignalBody w cache s cfg = (evs, cache2, r)) :
    CacheInv w cache2 := by
  unfold processSignalBody at h
  rcases hR : resolveExtractorStep w s cfg with ⟨e1, st⟩
  rw [hR] at h
  cases st with
  | skip => simp at h; rw [← h.2.1]; exact hinv
  | raise er => simp at h; rw [← h.2.1]; exact hinv
  | ok triple =>
      obtain ⟨ref, cls, params⟩ := triple
      simp only at h
      rcases hE : extractStage w ref cls params cache with ⟨e2, res⟩
      rw [hE] at h
      cases res with
      | error er => simp at h; rw [← h.2.1]; exact hinv
      | ok pair =>
          obtain ⟨raw, cacheE⟩ := pair
          have hinv2 : CacheInv w cacheE := extractStage_cacheInv hinv hE
          simp only at h
          rcases hT : resolveTransformerStep w s cfg.transformer with ⟨e3, st3⟩
          rw [hT] at h
          cases st3 with
          | skip => simp at h; rw [← h.2.1]; exact hinv2
          | raise er => simp at h; rw [← h.2.1]; exact hinv2
          | ok tref =>
              simp only at h
              cases hTr : w.transform tref raw with
              | error er => rw [hTr] at h; simp at h; rw [← h.2.1]; exact hinv2
              | ok rec0 => rw [hTr] at h; simp at h; rw [← h.2.1]; exact hinv2

/-- A signal whose extractor resolves and fetches successfully and whose
transformer resolves and transforms successfully (whatever raw record it
receives): such a signal always completes its body, reaching the terminal
success or partial-load state regardless of its loaders. -/
def SignalGood (w : World) (s : String) (cfg : SignalConfig) : Prop :=
  (∃ e1 ref cls params, resolveExtractorStep w s cfg = (e1, .ok (ref, cls, params)) ∧
     ∃ raw, w.fetch ref params = .ok raw) ∧
  (∃ e3 tref, resolveTransformerStep w s cfg.transformer = (e3, .ok tref) ∧
     ∀ x, ∃ r0, w.transform tref x = .ok r0)

theorem processSignalBody_good {w : World} {s : String} {cfg : SignalConfig}
    (hg : SignalGood w s cfg) (cache : Cache) :
    ∃ evs cache2 b, processSignalBody w cache s cfg = (evs, cache2, .completed b) := by
  obtain ⟨⟨e1, ref, cls, params, hR, raw, hf⟩, e3, tref, hT, htr⟩ := hg
  have hex : ∃ e2 raw2 cache2,
      extractStage w ref cls params cache = (e2, .ok (raw2, cache2)) := by
    cases hk : make_hashable_key (.dict params) with
    | ok hkey =>
        cases hl : List.lookup (cacheKeyOf ref hkey) cache with
        | some r0 => exact ⟨_, _, _, extractStage_hit hk hl⟩
        | none => exact ⟨_, _, _, extractStage_miss hk hl hf⟩
    | error er =>
        cases er
        exact ⟨_, _, _, extractStage_keyfail hk hf⟩
  obtain ⟨e2, raw2, cache2, hE⟩ := hex
  obtain ⟨rec0, hTr⟩ := htr raw2
  exact ⟨_, _, _, processSignalBody_ok hR hE hT hTr⟩

theorem runSignals_good {w : World} :
    ∀ {sigs : List (String × SignalConfig)} {cache : Cache},
      CacheInv w cache → (∀ p ∈ sigs, SignalGood w p.1 p.2) →
      ∃ evs cache2 res, runSignals w cache sigs = (evs, cache2, res) ∧
        List.Forall₂ (fun (p : String × SignalConfig) (q : String × BodyResult) =>
          q.1 = p.1 ∧ ∃ b, q.2 = BodyResult.completed b) sigs res ∧
        CacheInv w cache2
  | [], cache, hinv, _ => ⟨[], cache, [], rfl, List.Forall₂.nil, hinv⟩
  | (name, cfg) :: rest, cache, hinv, hg => by
      have hgood : SignalGood w name cfg := hg (name, cfg) (List.mem_cons_self _ _)
      obtain ⟨evs1, cache1, b, hB⟩ := processSignalBody_good hgood cache
      have hinv1 : CacheInv w cache1 := body_cacheInv hinv hB
      obtain ⟨evs2, cache2, res2, hRS, hF, hinv2⟩ :=
        runSignals_good hinv1
          (show ∀ p ∈ rest, SignalGood w p.1 p.2 from
            fun p hp => hg p (List.mem_cons_of_mem _ hp))
      have hEq : runSignals w cache ((name, cfg) :: rest) =
          ((Event.signalStart name :: (evs1 ++ [])) ++ evs2, cache2,
           (name, BodyResult.completed b) :: res2) := by
        simp only [runSignals, hB, hRS]
      exact ⟨_, cache2, (name, BodyResult.completed b) :: res2, hEq,
        List.Forall₂.cons ⟨rfl, b, rfl⟩ hF, hinv2⟩

theorem runSignals_append {w : World} :
    ∀ (l1 l2 : List (String × SignalConfig)) (cache : Cache),
      runSignals w cache (l1 ++ l2) =
        ((runSignals w cache l1).1 ++
           (runSignals w (runSignals w cache l1).2.1 l2).1,
         (runSignals w (runSignals w cache l1).2.1 l2).2.1,
         (runSignals w cache l1).2.2 ++
           (runSignals w (runSignals w cache l1).2.1 l2).2.2)
  | [], l2, cache => by simp [runSignals]
  | (name, cfg) :: rest, l2, cache => by
      simp only [List.cons_append, runSignals]
      rcases hB : processSignalBody w cache name cfg with ⟨e1, cache1, r⟩
      simp [runSignals_append rest l2 cache1, List.append_assoc]

/-- Claim C2: with exactly one signal whose extractor always raises
ExtractionError placed anywhere in the batch (the signals before and after
it resolving, fetching and transforming successfully), run attempts every
signal and returns a terminal result for each in configured order: the
failing signal is recorded as failed with the extraction error (its failure
logged via log_etl_failure), every other signal reaches a terminal
completed state (full success or partial load), and no exception
propagates out of run (run is a total function of the model returning this
value). -/
theorem C2_one_failing_extractor_isolated
    (w : World) (pre post : List (String × SignalConfig)) (f : String)
    (cfgF : SignalConfig) (e1 : List Event) (ref : PluginRef) (cls : String)
    (params : List (VKey × Val)) (msg : String)
    (hgood : ∀ p ∈ pre ++ post, SignalGood w p.1 p.2)
    (hR : resolveExtractorStep w f cfgF = (e1, .ok (ref, cls, params)))
    (hf : ∀ ps, w.fetch ref ps = .error (.extraction msg)) :
    ∃ evs cache res1 res2,
      run w ⟨pre ++ (f, cfgF) :: post⟩ =
        (evs, cache, res1 ++ (f, BodyResult.raised (.extraction msg)) :: res2) ∧
      List.Forall₂ (fun (p : String × SignalConfig) (q : String × BodyResult) =>
        q.1 = p.1 ∧ ∃ b, q.2 = BodyResult.completed b) pre res1 ∧
      List.Forall₂ (fun (p : String × SignalConfig) (q : String × BodyResult) =>
        q.1 = p.1 ∧ ∃ b, q.2 = BodyResult.completed b) post res2 ∧
      Event.etlFailure f ∈ evs := by
  have hinv0 : CacheInv w ([] : Cache) := by intro kv hm; simp at hm
  obtain ⟨evs1, cache1, res1, hRS1, hF1, hinv1⟩ :=
    runSignals_good hinv0
      (show ∀ p ∈ pre, SignalGood w p.1 p.2 from
        fun p hp => hgood p (List.mem_append_left _ hp))
  have hblocked : ∃ evs,
      extractStage w ref cls params cache1 = (evs, .error (.extraction msg)) ∧
      Event.fetchCall ref params ∈ evs :=
    extractStage_blocked hinv1 hf
  obtain ⟨evsX, hX, hmemX⟩ := hblocked
  have hBF : processSignalBody w cache1 f cfgF =
      (e1 ++ evsX, cache1, .raised (.extraction msg)) :=
    processSignalBody_fetch_raised hR hX
  obtain ⟨evs2, cache2, res2, hRS2, hF2, hinv2⟩ :=
    runSignals_good hinv1
      (show ∀ p ∈ post, SignalGood w p.1 p.2 from
        fun p hp => hgood p (List.mem_append_right _ hp))
  have hCons : runSignals w cache1 ((f, cfgF) :: post) =
      ((Event.signalStart f :: ((e1 ++ evsX) ++ [Event.etlFailure f])) ++ evs2,
       cache2, (f, BodyResult.raised (.extraction msg)) :: res2) := by
    simp only [runSignals, hBF, hRS2]
  have hRun : run w ⟨pre ++ (f, cfgF) :: post⟩ =
      (evs1 ++ ((Event.signalStart f :: ((e1 ++ evsX) ++ [Event.etlFailure f])) ++ evs2),
       cache2, res1 ++ (f, BodyResult.raised (.extraction msg)) :: res2) := by
    show runSignals w [] (pre ++ (f, cfgF) :: post) = _
    rw [runSignals_append pre ((f, cfgF) :: post) []]
    rw [hRS1]
    simp only [hCons]
  exact ⟨_, cache2, res1, res2, hRun, hF1, hF2, by simp⟩

theorem lookup_single_self {k : CKey} {v : Val} :
    List.lookup k [(k, v)] = some v := by
  simp [List.lookup, ckeyBeq_self]

/-- Claim C1: cache key construction through _make_hashable_key is
deterministic: it depends only on the canonical form of the parameter
value (so two structurally equal mappings, nested dicts and lists
included, give identical keys), and in particular reordering the entries
of a parameter dict with distinct keys never changes the key; and in one
run over two signals with the same extractor name and structurally equal
parameters the underlying fetch is invoked exactly once, the second signal
hitting the cache and its transformer receiving the cached raw record. -/
theorem C1_cache_key_determinism_single_fetch :
    (∀ p q : Val, canon p = canon q →
      make_hashable_key p = make_hashable_key q) ∧
    (∀ kvs1 kvs2 : List (VKey × Val), List.Perm kvs1 kvs2 → (keysOf kvs1).Nodup →
      make_hashable_key (.dict kvs1) = make_hashable_key (.dict kvs2)) ∧
    (∀ (w : World) (n1 n2 ex tn1 tn2 : String) (p q : List (VKey × Val))
        (raw : Val) (r1 r2 : List (VKey × Val)),
      ex ∈ extractor_map_keys → tn1 ∈ transformer_map_keys →
      tn2 ∈ transformer_map_keys →
      canon (.dict p) = canon (.dict q) → hasMixed (.dict p) = false →
      w.fetch (.byName ex) p = .ok raw →
      w.transform (.byName tn1) raw = .ok r1 →
      w.transform (.byName tn2) raw = .ok r2 →
      ∃ evs cache,
        run w ⟨[(n1, ⟨.byName ex, p, [], [], .byName tn1, some []⟩),
                (n2, ⟨.byName ex, q, [], [], .byName tn2, some []⟩)]⟩ =
          (evs, cache,
           [(n1, BodyResult.completed true), (n2, BodyResult.completed true)]) ∧
        evs.countP isFetchCall = 1 ∧
        Event.cacheHitInfo ex ∈ evs ∧
        Event.transformCall (.byName tn2) raw ∈ evs) := by
  refine ⟨fun p q h => make_hashable_key_deterministic h, ?_, ?_⟩
  · intro kvs1 kvs2 hperm hnd
    exact make_hashable_key_deterministic (canon_dict_perm hperm hnd)
  · intro w n1 n2 ex tn1 tn2 p q raw r1 r2 hex htn1 htn2 hcanon hnm1 hfetch hTr1 hTr2
    have hnm2 : hasMixed (.dict q) = false := by
      rw [← hasMixed_canon (.dict q), ← hcanon, hasMixed_canon]
      exact hnm1
    have hk1 : make_hashable_key (.dict p) = .ok (hOk (.dict p)) := mkhk_ok _ hnm1
    have hkq : make_hashable_key (.dict q) = .ok (hOk (.dict p)) := by
      rw [← make_hashable_key_deterministic hcanon]
      exact hk1
    have hR1 : resolveExtractorStep w n1 ⟨.byName ex, p, [], [], .byName tn1, some []⟩ =
        ([Event.extractStart ex], .ok (.byName ex, ex, p)) :=
      resolveExtractor_byName hex rfl
    have hE1 : extractStage w (.byName ex) ex p [] =
        ([.cacheMissInfo ex, .fetchCall (.byName ex) p, .fetchedInfo ex],
         .ok (raw, [(cacheKeyOf (.byName ex) (hOk (.dict p)), raw)])) :=
      extractStage_miss hk1 rfl hfetch
    have hT1 : resolveTransformerStep w n1 (.byName tn1) =
        ([Event.transformStart tn1], .ok (.byName tn1)) :=
      resolveTransformer_byName htn1
    have hB1 : processSignalBody w [] n1 ⟨.byName ex, p, [], [], .byName tn1, some []⟩ =
        ([Event.extractStart ex, .cacheMissInfo ex, .fetchCall (.byName ex) p,
          .fetchedInfo ex, .transformStart tn1, .transformCall (.byName tn1) raw,
          .etlSuccess n1],
         [(cacheKeyOf (.byName ex) (hOk (.dict p)), raw)], .completed true) :=
      processSignalBody_ok hR1 hE1 hT1 hTr1
    have hR2 : resolveExtractorStep w n2 ⟨.byName ex, q, [], [], .byName tn2, some []⟩ =
        ([Event.extractStart ex], .ok (.byName ex, ex, q)) :=
      resolveExtractor_byName hex rfl
    have hE2 : extractStage w (.byName ex) ex q
        [(cacheKeyOf (.byName ex) (hOk (.dict p)), raw)] =
        ([.cacheHitInfo ex],
         .ok (raw, [(cacheKeyOf (.byName ex) (hOk (.dict p)), raw)])) :=
      extractStage_hit hkq lookup_single_self
    have hT2 : resolveTransformerStep w n2 (.byName tn2) =
        ([Event.transformStart tn2], .ok (.byName tn2)) :=
      resolveTransformer_byName htn2
    have hB2 : processSignalBody w [(cacheKeyOf (.byName ex) (hOk (.dict p)), raw)] n2
        ⟨.byName ex, q, [], [], .byName tn2, some []⟩ =
        ([Event.extractStart ex, .cacheHitInfo ex, .transformStart tn2,
          .transformCall (.byName tn2) raw, .etlSuccess n2],
         [(cacheKeyOf (.byName ex) (hOk (.dict p)), raw)], .completed true) :=
      processSignalBody_ok hR2 hE2 hT2 hTr2
    refine ⟨[Event.signalStart n1, .extractStart ex, .cacheMissInfo ex,
        .fetchCall (.byName ex) p, .fetchedInfo ex, .transformStart tn1,
        .transformCall (.byName tn1) raw, .etlSuccess n1,
        .signalStart n2, .extractStart ex, .cacheHitInfo ex, .transformStart tn2,
        .transformCall (.byName tn2) raw, .etlSuccess n2],
      [(cacheKeyOf (.byName ex) (hOk (.dict p)), raw)], ?_, ?_, ?_, ?_⟩
    · show runSignals w [] _ = _
      simp [runSignals, hB1, hB2]
    · rfl
    · simp
    · simp

/-- A benign environment for witness scenarios: every import succeeds,
fetch returns 42, transform returns a one-field record, loaders construct
and load successfully. -/
def okWorld : World where
  getenv := fun _ => some "value"
  importOk := fun _ _ => true
  importLoadMod := fun _ => true
  fetch := fun _ _ => .ok (.int 42)
  transform := fun _ _ => .ok [(.s "value", .int 7)]
  constructL := fun _ _ _ => .ok ()
  load := fun _ _ => .ok ()

theorem C1_witness :
    ∃ evs cache,
      run okWorld ⟨[("sig_a", ⟨.byName "fred_extractor",
            [(.s "x", .int 1), (.s "y", .int 2)], [], [],
            .byName "m2_transformer", some []⟩),
          ("sig_b", ⟨.byName "fred_extractor",
            [(.s "y", .int 2), (.s "x", .int 1)], [], [],
            .byName "fear_greed_transformer", some []⟩)]⟩ =
        (evs, cache,
         [("sig_a", BodyResult.completed true), ("sig_b", BodyResult.completed true)]) ∧
      evs.countP isFetchCall = 1 ∧
      Event.cacheHitInfo "fred_extractor" ∈ evs ∧
      Event.transformCall (.byName "fear_greed_transformer") (.int 42) ∈ evs :=
  C1_cache_key_determinism_single_fetch.2.2 okWorld "sig_a" "sig_b"
    "fred_extractor" "m2_transformer" "fear_greed_transformer"
    [(.s "x", .int 1), (.s "y", .int 2)] [(.s "y", .int 2), (.s "x", .int 1)]
    (.int 42) [(.s "value", .int 7)] [(.s "value", .int 7)]
    (by decide) (by decide) (by decide) rfl rfl rfl rfl rfl

/-- A world whose fred extractor always raises ExtractionError while every
other collaborator succeeds. -/
def fredFailsWorld : World where
  getenv := fun _ => some "value"
  importOk := fun _ _ => true
  importLoadMod := fun _ => true
  fetch := fun ref _ =>
    if ref = PluginRef.byName "fred_extractor" then .error (.extraction "boom")
    else .ok (.int 1)
  transform := fun _ _ => .ok [(.s "value", .int 7)]
  constructL := fun _ _ _ => .ok ()
  load := fun _ _ => .ok ()

theorem C2_witness :
    ∃ evs cache res1 res2,
      run fredFailsWorld
          ⟨[("good", ⟨.byName "coingecko_extractor", [], [], [],
              .byName "bitcoin_price_transformer", some []⟩)] ++
            ("bad", ⟨.byName "fred_extractor", [], [], [],
              .byName "m2_transformer", some []⟩) ::
            [("good2", ⟨.byName "alternative_extractor", [], [], [],
              .byName "fear_greed_transformer", some []⟩)]⟩ =
        (evs, cache, res1 ++ ("bad", BodyResult.raised (.extraction "boom")) :: res2) ∧
      List.Forall₂ (fun (p : String × SignalConfig) (q : String × BodyResult) =>
        q.1 = p.1 ∧ ∃ b, q.2 = BodyResult.completed b)
        [("good", ⟨.byName "coingecko_extractor", [], [], [],
            .byName "bitcoin_price_transformer", some []⟩)] res1 ∧
      List.Forall₂ (fun (p : String × SignalConfig) (q : String × BodyResult) =>
        q.1 = p.1 ∧ ∃ b, q.2 = BodyResult.completed b)
        [("good2", ⟨.byName "alternative_extractor", [], [], [],
            .byName "fear_greed_transformer", some []⟩)] res2 ∧
      Event.etlFailure "bad" ∈ evs := by
  apply C2_one_failing_extractor_isolated fredFailsWorld _ _ "bad" _
    [Event.extractStart "fred_extractor"] (.byName "fred_extractor")
    "fred_extractor" [] "boom"
  · intro pcfg hp
    simp only [List.mem_append, List.mem_singleton] at hp
    rcases hp with hp | hp
    · subst hp
      exact ⟨⟨_, _, _, _, rfl, .int 1, rfl⟩, _, _, rfl,
        fun x => ⟨[(.s "value", .int 7)], rfl⟩⟩
    · subst hp
      exact ⟨⟨_, _, _, _, rfl, .int 1, rfl⟩, _, _, rfl,
        fun x => ⟨[(.s "value", .int 7)], rfl⟩⟩
  · rfl
  · intro ps
    rfl

theorem C4_witness :
    List.lookup (VKey.s "signal_name")
        [(VKey.s "value", Val.int 7), (VKey.s "signal_name", Val.str "sig")] =
      some (Val.str "sig") := by
  apply C4_signal_name_injection.2.2 okWorld
    ⟨[("sig", ⟨.byName "fred_extractor", [], [], [], .byName "m2_transformer",
       some [.byType "file_loader" []]⟩)]⟩ [] "sig" (.byName "file_loader")
  have h : (run_signal okWorld
      ⟨[("sig", ⟨.byName "fred_extractor", [], [], [], .byName "m2_transformer",
         some [.byType "file_loader" []]⟩)]⟩ [] "sig").1 =
      [Event.signalStart "sig", .extractStart "fred_extractor",
       .cacheMissInfo "fred_extractor",
       .fetchCall (.byName "fred_extractor") [], .fetchedInfo "fred_extractor",
       .transformStart "m2_transformer",
       .transformCall (.byName "m2_transformer") (.int 42),
       .constructCall (.byName "file_loader") false [],
       .loadStart "file_loader",
       .loadCall (.byName "file_loader")
         [(VKey.s "value", Val.int 7), (VKey.s "signal_name", Val.str "sig")],
       .etlSuccess "sig"] := rfl
  rw [h]
  simp

theorem C10_witness :
    buildLoader okWorld "sig" (.byType "google_sheets_loader" []) =
      ([.skipGoogleSheets "sig"], none) ∧
    refIsGoogle (.byName "file_loader") = false := by
  constructor
  · exact C10_google_sheets_loader_skipped.1 okWorld "sig"
      (.byType "google_sheets_loader" []) (by decide)
  · have hmem : Event.loadCall (.byName "file_loader")
        [(VKey.s "value", Val.int 7), (VKey.s "signal_name", Val.str "sig")] ∈
        (run_signal okWorld
          ⟨[("sig", ⟨.byName "fred_extractor", [], [], [], .byName "m2_transformer",
             some [.byType "file_loader" []]⟩)]⟩ [] "sig").1 := by
      have h : (run_signal okWorld
          ⟨[("sig", ⟨.byName "fred_extractor", [], [], [], .byName "m2_transformer",
             some [.byType "file_loader" []]⟩)]⟩ [] "sig").1 =
          [Event.signalStart "sig", .extractStart "fred_extractor",
           .cacheMissInfo "fred_extractor",
           .fetchCall (.byName "fred_extractor") [], .fetchedInfo "fred_extractor",
           .transformStart "m2_transformer",
           .transformCall (.byName "m2_transformer") (.int 42),
           .constructCall (.byName "file_loader") false [],
           .loadStart "file_loader",
           .loadCall (.byName "file_loader")
             [(VKey.s "value", Val.int 7), (VKey.s "signal_name", Val.str "sig")],
           .etlSuccess "sig"] := rfl
      rw [h]
      simp
    exact (C10_google_sheets_loader_skipped.2.2.1 okWorld
      ⟨[("sig", ⟨.byName "fred_extractor", [], [], [], .byName "m2_transformer",
         some [.byType "file_loader" []]⟩)]⟩ [] "sig" _ hmem).1
      (.byName "file_loader")
      [(VKey.s "value", Val.int 7), (VKey.s "signal_name", Val.str "sig")] rfl

/-- Event class test: the missing-secret warning of pipeline.py line 180. -/
def isSecretWarn : Event → Bool
  | .warnSecretNotFound _ _ => true
  | _ => false

/-- An environment with no variables set. -/
def noEnvWorld : World where
  getenv := fun _ => none
  importOk := fun _ _ => true
  importLoadMod := fun _ => true
  fetch := fun _ _ => .ok (.int 42)
  transform := fun _ _ => .ok [(.s "value", .int 7)]
  constructL := fun _ _ _ => .ok ()
  load := fun _ _ => .ok ()

/-- Counterexample to claim C3: a signal that lists the missing secret
FRED_API_KEY in its secrets list is failed by get_secrets raising
MissingSecretError during secret resolution: run records it as failed with
MissingSecretError (not ExtractionError), no missing-secret warning is
logged, and the extractor is never constructed or invoked (no fetch). -/
theorem C3_counterexample :
    run noEnvWorld ⟨[("m2_money_supply",
        ⟨.byName "fred_extractor", [], ["FRED_API_KEY"],
         [("api_key", "FRED_API_KEY")], .byName "m2_transformer", some []⟩)]⟩ =
      ([.signalStart "m2_money_supply", .extractStart "fred_extractor",
        .etlFailure "m2_money_supply"],
       [],
       [("m2_money_supply", BodyResult.raised (.missingSecret "FRED_API_KEY"))]) ∧
    List.countP isSecretWarn
      (run noEnvWorld ⟨[("m2_money_supply",
        ⟨.byName "fred_extractor", [], ["FRED_API_KEY"],
         [("api_key", "FRED_API_KEY")], .byName "m2_transformer", some []⟩)]⟩).1 = 0 ∧
    List.countP isFetchCall
      (run noEnvWorld ⟨[("m2_money_supply",
        ⟨.byName "fred_extractor", [], ["FRED_API_KEY"],
         [("api_key", "FRED_API_KEY")], .byName "m2_transformer", some []⟩)]⟩).1 = 0 :=
  ⟨rfl, rfl, rfl⟩

/-- A value of the environment is falsy for os.getenv when the variable is
unset or set to the empty string (the `if not secret_value` test of
secrets_manager.py line 13). -/
def FalsyEnv (getenv : String → Option String) (s : String) : Prop :=
  getenv s = none ∨ getenv s = some ""

theorem get_secrets_error_of_falsy {getenv : String → Option String} :
    ∀ {secrets : List String} {s : String}, s ∈ secrets → FalsyEnv getenv s →
    ∃ s2, get_secrets getenv secrets = .error (.missingSecret s2) ∧ FalsyEnv getenv s2
  | [], s, hm, _ => by simp at hm
  | n :: rest, s, hm, hf => by
      rcases List.mem_cons.mp hm with hm | hm
      · subst hm
        rcases hf with hf | hf
        · exact ⟨s, by simp [get_secrets, hf], Or.inl hf⟩
        · exact ⟨s, by simp [get_secrets, hf], Or.inr hf⟩
      · cases hn : getenv n with
        | none => exact ⟨n, by simp [get_secrets, hn], Or.inl hn⟩
        | some v =>
            by_cases hv : v = ""
            · subst hv
              exact ⟨n, by simp [get_secrets, hn], Or.inr hn⟩
            · obtain ⟨s2, he, hf2⟩ := get_secrets_error_of_falsy hm hf
              exact ⟨s2, by simp [get_secrets, hn, hv, he, Except.map], hf2⟩

/-- Claim C3 as amended: a signal whose secrets list names a secret that is
unset (or empty) in the environment fails during secret resolution itself:
get_secrets raises MissingSecretError, the signal is recorded as failed
with that error before any warning is logged and before any extractor
fetch; the warn-and-proceed behaviour the claim describes applies only to
a secret referenced via secret_mapping but absent from the resolved
secrets dict: there the engine logs the missing-secret warning, constructs
the extractor without that parameter, and the signal fails at the
extraction stage with the extractor's ExtractionError. -/
theorem C3_amended_secret_resolution
    (w : World) (cache : Cache) (name n : String) (eps : List (VKey × Val))
    (secrets : List String) (sm : List (String × String)) (td : TransformerDef)
    (lds : Option (List LoaderConfig)) (s pname sname msg : String)
    (hkey : HKey) :
    (n ∈ extractor_map_keys → s ∈ secrets → FalsyEnv w.getenv s →
      ∃ s2, processSignalBody w cache name ⟨.byName n, eps, secrets, sm, td, lds⟩ =
        ([.extractStart n], cache, .raised (.missingSecret s2))) ∧
    (n ∈ extractor_map_keys →
      make_hashable_key (.dict eps) = .ok hkey →
      List.lookup (cacheKeyOf (.byName n) hkey) cache = none →
      w.fetch (.byName n) eps = .error (.extraction msg) →
      processSignalBody w cache name ⟨.byName n, eps, [], [(pname, sname)], td, lds⟩ =
        ([.extractStart n, .warnSecretNotFound sname name, .cacheMissInfo n,
          .fetchCall (.byName n) eps, .errCacheKeyGen, .fetchCall (.byName n) eps],
         cache, .raised (.extraction msg)) ∧
      (Event.warnSecretNotFound sname name).level = .warning) := by
  constructor
  · intro hn hs hf
    obtain ⟨s2, he, _⟩ := get_secrets_error_of_falsy hs hf
    exact ⟨s2, processSignalBody_resolver_raised (resolveExtractor_missing hn he)⟩
  · intro hn hk hl hf
    have hR : resolveExtractorStep w name ⟨.byName n, eps, [], [(pname, sname)], td, lds⟩ =
        ([.extractStart n, .warnSecretNotFound sname name], .ok (.byName n, n, eps)) :=
      resolveExtractor_byName hn (show get_secrets w.getenv [] = .ok [] from rfl)
    have hE := extractStage_fetch_error (w := w) (c := n) hk hl hf
    exact ⟨processSignalBody_fetch_raised hR hE, rfl⟩

theorem C3_amended_witness :
    (∃ s2, processSignalBody noEnvWorld [] "m2_money_supply"
        ⟨.byName "fred_extractor", [], ["FRED_API_KEY"],
         [("api_key", "FRED_API_KEY")], .byName "m2_transformer", some []⟩ =
        ([.extractStart "fred_extractor"], [],
         .raised (.missingSecret s2))) ∧
    (processSignalBody fredFailsWorld [] "m2_money_supply"
        ⟨.byName "fred_extractor", [], [],
         [("api_key", "FRED_API_KEY")], .byName "m2_transformer", some []⟩ =
        ([.extractStart "fred_extractor",
          .warnSecretNotFound "FRED_API_KEY" "m2_money_supply",
          .cacheMissInfo "fred_extractor",
          .fetchCall (.byName "fred_extractor") [], .errCacheKeyGen,
          .fetchCall (.byName "fred_extractor") []],
         [], .raised (.extraction "boom")) ∧
      (Event.warnSecretNotFound "FRED_API_KEY" "m2_money_supply").level =
        .warning) := by
  constructor
  · exact (C3_amended_secret_resolution noEnvWorld [] "m2_money_supply"
      "fred_extractor" [] ["FRED_API_KEY"] [("api_key", "FRED_API_KEY")]
      (.byName "m2_transformer") (some []) "FRED_API_KEY" "p" "s" "m"
      HKey.null).1 (by decide) (by simp) (Or.inl rfl)
  · exact (C3_amended_secret_resolution fredFailsWorld [] "m2_money_supply"
      "fred_extractor" [] [] [] (.byName "m2_transformer") (some [])
      "s" "api_key" "FRED_API_KEY" "boom" (.tup [])).2 (by decide) rfl rfl rfl

/-- Event class test: logged at warning level. -/
def isWarningLevel (e : Event) : Bool :=
  match e.level with
  | .warning => true
  | _ => false

/-- Counterexample to claim C5: a parameter dict with mixed-type keys makes
_make_hashable_key raise; the engine then fetches uncached and the signal
still completes, no cache entry is stored, but the failure is logged with
logger.error: the cache failure event carries error level and the run
emits no warning-level event at all, refuting that the failure is logged
as a warning. -/
theorem C5_counterexample :
    run okWorld ⟨[("sig",
        ⟨.byName "fred_extractor", [(.s "a", .int 1), (.i 2, .int 3)], [], [],
         .byName "m2_transformer", some []⟩)]⟩ =
      ([.signalStart "sig", .extractStart "fred_extractor", .errCacheKeyGen,
        .fetchCall (.byName "fred_extractor") [(.s "a", .int 1), (.i 2, .int 3)],
        .fetchNoCache "fred_extractor", .transformStart "m2_transformer",
        .transformCall (.byName "m2_transformer") (.int 42), .etlSuccess "sig"],
       [],
       [("sig", BodyResult.completed true)]) ∧
    Event.errCacheKeyGen.level = .error ∧
    List.countP isWarningLevel
      (run okWorld ⟨[("sig",
        ⟨.byName "fred_extractor", [(.s "a", .int 1), (.i 2, .int 3)], [], [],
         .byName "m2_transformer", some []⟩)]⟩).1 = 0 :=
  ⟨rfl, rfl, rfl⟩

/-- Claim C5 as amended: when cache key construction raises for the
parameter mapping, extraction still succeeds through an uncached direct
fetch, no cache entry is stored (the cache is returned unchanged), the
signal completes, and the failure is logged with logger.error, at error
level rather than warning level. -/
theorem C5_amended_keyfail_uncached
    (w : World) (cache : Cache) (name n tn : String) (eps : List (VKey × Val))
    (raw : Val) (rec0 : List (VKey × Val)) (lds : Option (List LoaderConfig))
    (hn : n ∈ extractor_map_keys)
    (hk : make_hashable_key (.dict eps) = .error ())
    (hf : w.fetch (.byName n) eps = .ok raw)
    (htn : tn ∈ transformer_map_keys)
    (hTr : w.transform (.byName tn) raw = .ok rec0) :
    ∃ evs b, processSignalBody w cache name ⟨.byName n, eps, [], [], .byName tn, lds⟩ =
        (evs, cache, .completed b) ∧
      Event.errCacheKeyGen ∈ evs ∧
      Event.errCacheKeyGen.level = .error ∧
      Event.errCacheKeyGen.level ≠ .warning := by
  have hR : resolveExtractorStep w name ⟨.byName n, eps, [], [], .byName tn, lds⟩ =
      ([.extractStart n], .ok (.byName n, n, eps)) :=
    resolveExtractor_byName hn (show get_secrets w.getenv [] = .ok [] from rfl)
  have hE := extractStage_keyfail (w := w) (c := n) (m := cache) hk hf
  have hT := resolveTransformer_byName (w := w) (s := name) htn
  exact ⟨_, _, processSignalBody_ok hR hE hT hTr, by simp, rfl, by simp [Event.level]⟩

theorem C5_amended_witness :
    ∃ evs b, processSignalBody okWorld [] "sig"
        ⟨.byName "fred_extractor", [(.s "a", .int 1), (.i 2, .int 3)], [], [],
         .byName "m2_transformer", some []⟩ = (evs, [], .completed b) ∧
      Event.errCacheKeyGen ∈ evs ∧
      Event.errCacheKeyGen.level = .error ∧
      Event.errCacheKeyGen.level ≠ .warning :=
  C5_amended_keyfail_uncached okWorld [] "sig" "fred_extractor" "m2_transformer"
    [(.s "a", .int 1), (.i 2, .int 3)] (.int 42) [(.s "value", .int 7)] (some [])
    (by decide) rfl rfl (by decide) rfl

/-- Event class test: the full-success log of a signal. -/
def isEtlSuccess : Event → Bool
  | .etlSuccess _ => true
  | _ => false

theorem runLoaders_flag {w : World} {s : String} {record : List (VKey × Val)} :
    ∀ {l : List PluginRef},
      (runLoaders w s record l).2 = true ↔
        ∀ ref ∈ l, w.load ref record = .ok ()
  | [] => by simp [runLoaders]
  | ref0 :: rest => by
      simp only [runLoaders]
      cases hl : w.load ref0 record with
      | ok u =>
          cases u
          simp only []
          constructor
          · intro hflag ref hm
            rcases List.mem_cons.mp hm with hm | hm
            · subst hm; exact hl
            · exact (runLoaders_flag (l := rest)).mp hflag ref hm
          · intro hall
            exact (runLoaders_flag (l := rest)).mpr
              (fun ref hm => hall ref (List.mem_cons_of_mem _ hm))
      | error er =>
          simp only []
          constructor
          · intro hflag; cases hflag
          · intro hall
            have := hall ref0 (List.mem_cons_self _ _)
            rw [hl] at this
            cases this

/-- A world whose file_loader always raises LoadError while everything
else succeeds. -/
def fileLoaderFailsWorld : World where
  getenv := fun _ => some "value"
  importOk := fun _ _ => true
  importLoadMod := fun _ => true
  fetch := fun _ _ => .ok (.int 42)
  transform := fun _ _ => .ok [(.s "value", .int 7)]
  constructL := fun _ _ _ => .ok ()
  load := fun ref _ =>
    if ref = PluginRef.byName "file_loader" then .error (.load "boom") else .ok ()

/-- Counterexample to claim C6: with two loaders of which the first always
raises LoadError, the other loader is still invoked and the partial-load
state is surfaced in the logs (warning instead of the success log), but
run_signal returns True exactly as in the fully successful scenario: the
return value does not distinguish partial load from full success. -/
theorem C6_counterexample :
    (run_signal fileLoaderFailsWorld ⟨[("sig",
        ⟨.byName "fred_extractor", [], [], [], .byName "m2_transformer",
         some [.byType "file_loader" [], .byType "tweet_metrics_loader" []]⟩)]⟩
      [] "sig").2.2 = .ok true ∧
    (run_signal okWorld ⟨[("sig",
        ⟨.byName "fred_extractor", [], [], [], .byName "m2_transformer",
         some [.byType "file_loader" [], .byType "tweet_metrics_loader" []]⟩)]⟩
      [] "sig").2.2 = .ok true ∧
    Event.warnPartialLoad "sig" ∈ (run_signal fileLoaderFailsWorld ⟨[("sig",
        ⟨.byName "fred_extractor", [], [], [], .byName "m2_transformer",
         some [.byType "file_loader" [], .byType "tweet_metrics_loader" []]⟩)]⟩
      [] "sig").1 ∧
    List.countP isEtlSuccess (run_signal fileLoaderFailsWorld ⟨[("sig",
        ⟨.byName "fred_extractor", [], [], [], .byName "m2_transformer",
         some [.byType "file_loader" [], .byType "tweet_metrics_loader" []]⟩)]⟩
      [] "sig").1 = 0 ∧
    Event.loadCall (.byName "tweet_metrics_loader")
        [(VKey.s "value", Val.int 7), (VKey.s "signal_name", Val.str "sig")] ∈
      (run_signal fileLoaderFailsWorld ⟨[("sig",
        ⟨.byName "fred_extractor", [], [], [], .byName "m2_transformer",
         some [.byType "file_loader" [], .byType "tweet_metrics_loader" []]⟩)]⟩
      [] "sig").1 ∧
    Event.etlSuccess "sig" ∈ (run_signal okWorld ⟨[("sig",
        ⟨.byName "fred_extractor", [], [], [], .byName "m2_transformer",
         some [.byType "file_loader" [], .byType "tweet_metrics_loader" []]⟩)]⟩
      [] "sig").1 := by
  refine ⟨rfl, rfl, ?_, rfl, ?_, ?_⟩
  · have h : (run_signal fileLoaderFailsWorld ⟨[("sig",
        ⟨.byName "fred_extractor", [], [], [], .byName "m2_transformer",
         some [.byType "file_loader" [], .byType "tweet_metrics_loader" []]⟩)]⟩
        [] "sig").1 =
        [.signalStart "sig", .extractStart "fred_extractor",
         .cacheMissInfo "fred_extractor", .fetchCall (.byName "fred_extractor") [],
         .fetchedInfo "fred_extractor", .transformStart "m2_transformer",
         .transformCall (.byName "m2_transformer") (.int 42),
         .constructCall (.byName "file_loader") false [],
         .constructCall (.byName "tweet_metrics_loader") false [],
         .loadStart "file_loader",
         .loadCall (.byName "file_loader")
           [(VKey.s "value", Val.int 7), (VKey.s "signal_name", Val.str "sig")],
         .errLoaderFailed "sig", .loadStart "tweet_metrics_loader",
         .loadCall (.byName "tweet_metrics_loader")
           [(VKey.s "value", Val.int 7), (VKey.s "signal_name", Val.str "sig")],
         .warnPartialLoad "sig"] := rfl
    rw [h]; simp
  · have h : (run_signal fileLoaderFailsWorld ⟨[("sig",
        ⟨.byName "fred_extractor", [], [], [], .byName "m2_transformer",
         some [.byType "file_loader" [], .byType "tweet_metrics_loader" []]⟩)]⟩
        [] "sig").1 =
        [.signalStart "sig", .extractStart "fred_extractor",
         .cacheMissInfo "fred_extractor", .fetchCall (.byName "fred_extractor") [],
         .fetchedInfo "fred_extractor", .transformStart "m2_transformer",
         .transformCall (.byName "m2_transformer") (.int 42),
         .constructCall (.byName "file_loader") false [],
         .constructCall (.byName "tweet_metrics_loader") false [],
         .loadStart "file_loader",
         .loadCall (.byName "file_loader")
           [(VKey.s "value", Val.int 7), (VKey.s "signal_name", Val.str "sig")],
         .errLoaderFailed "sig", .loadStart "tweet_metrics_loader",
         .loadCall (.byName "tweet_metrics_loader")
           [(VKey.s "value", Val.int 7), (VKey.s "signal_name", Val.str "sig")],
         .warnPartialLoad "sig"] := rfl
    rw [h]; simp
  · have h : (run_signal okWorld ⟨[("sig",
        ⟨.byName "fred_extractor", [], [], [], .byName "m2_transformer",
         some [.byType "file_loader" [], .byType "tweet_metrics_loader" []]⟩)]⟩
        [] "sig").1 =
        [.signalStart "sig", .extractStart "fred_extractor",
         .cacheMissInfo "fred_extractor", .fetchCall (.byName "fred_extractor") [],
         .fetchedInfo "fred_extractor", .transformStart "m2_transformer",
         .transformCall (.byName "m2_transformer") (.int 42),
         .constructCall (.byName "file_loader") false [],
         .constructCall (.byName "tweet_metrics_loader") false [],
         .loadStart "file_loader",
         .loadCall (.byName "file_loader")
           [(VKey.s "value", Val.int 7), (VKey.s "signal_name", Val.str "sig")],
         .loadStart "tweet_metrics_loader",
         .loadCall (.byName "tweet_metrics_loader")
           [(VKey.s "value", Val.int 7), (VKey.s "signal_name", Val.str "sig")],
         .etlSuccess "sig"] := rfl
    rw [h]; simp

/-- Claim C6 as amended: with two type-style loaders of which the first
always raises LoadError and the second succeeds, the second loader is
still invoked with the transformed record, the signal ends in the
processed-but-not-fully-loaded state which is surfaced distinctly in the
logs (the partial-load warning is emitted and the full-success log is
not), and a signal is logged as fully succeeded exactly when every
constructed loader's load succeeded; however run_signal returns True for
the partial-load outcome just as for full success, so the return value
does not distinguish the two. -/
theorem C6_amended_partial_load
    (w : World) (cache0 : Cache) (name n tn t1 t2 : String)
    (c1 c2 rec0 : List (VKey × Val)) (raw : Val) (msg : String)
    (hn : n ∈ extractor_map_keys)
    (hf : w.fetch (.byName n) [] = .ok raw)
    (htn : tn ∈ transformer_map_keys)
    (hTr : w.transform (.byName tn) raw = .ok rec0)
    (ht1g : ¬t1 = "google_sheets_loader") (ht1s : ¬t1 = "supabase_loader")
    (ht2g : ¬t2 = "google_sheets_loader") (ht2s : ¬t2 = "supabase_loader")
    (him1 : w.importLoadMod t1 = true) (him2 : w.importLoadMod t2 = true)
    (hc1 : w.constructL (.byName t1) false c1 = .ok ())
    (hc2 : w.constructL (.byName t2) false c2 = .ok ())
    (hl1 : ∀ rc, w.load (.byName t1) rc = .error (.load msg))
    (hl2 : ∀ rc, w.load (.byName t2) rc = .ok ()) :
    ∃ evs cache2,
      run_signal w ⟨[(name, ⟨.byName n, [], [], [], .byName tn,
          some [.byType t1 c1, .byType t2 c2]⟩)]⟩ cache0 name =
        (evs, cache2, .ok true) ∧
      Event.loadCall (.byName t2) (dictSet rec0 (.s "signal_name") (.str name)) ∈ evs ∧
      Event.warnPartialLoad name ∈ evs ∧
      Event.etlSuccess name ∉ evs ∧
      (∀ (w2 : World) (s2 : String) (rc : List (VKey × Val)) (insts : List PluginRef),
        (runLoaders w2 s2 rc insts).2 = true ↔
          ∀ ref ∈ insts, w2.load ref rc = .ok ()) := by
  have hR : resolveExtractorStep w name
      ⟨.byName n, [], [], [], .byName tn, some [.byType t1 c1, .byType t2 c2]⟩ =
      ([.extractStart n], .ok (.byName n, n, [])) :=
    resolveExtractor_byName hn (show get_secrets w.getenv [] = .ok [] from rfl)
  have hE : extractStage w (.byName n) n [] [] =
      ([.cacheMissInfo n, .fetchCall (.byName n) [], .fetchedInfo n],
       .ok (raw, [(cacheKeyOf (.byName n) (.tup []), raw)])) :=
    extractStage_miss rfl rfl hf
  have hT := resolveTransformer_byName (w := w) (s := name) htn
  have hBL1 : buildLoader w name (.byType t1 c1) =
      ([.constructCall (.byName t1) false c1], some (.byName t1)) := by
    simp only [buildLoader, if_neg ht1g, if_neg ht1s, him1, if_true, hc1]
  have hBL2 : buildLoader w name (.byType t2 c2) =
      ([.constructCall (.byName t2) false c2], some (.byName t2)) := by
    simp only [buildLoader, if_neg ht2g, if_neg ht2s, him2, if_true, hc2]
  have hB : buildLoaders w name [.byType t1 c1, .byType t2 c2] =
      ([.constructCall (.byName t1) false c1, .constructCall (.byName t2) false c2],
       [.byName t1, .byName t2]) := by
    simp [buildLoaders, hBL1, hBL2]
  have hRL : runLoaders w name (dictSet rec0 (.s "signal_name") (.str name))
      [.byName t1, .byName t2] =
      ([.loadStart (refCls (.byName t1)),
        .loadCall (.byName t1) (dictSet rec0 (.s "signal_name") (.str name)),
        .errLoaderFailed name,
        .loadStart (refCls (.byName t2)),
        .loadCall (.byName t2) (dictSet rec0 (.s "signal_name") (.str name))],
       false) := by
    simp [runLoaders, hl1, hl2]
  have hBody := processSignalBody_ok (m := []) hR hE hT hTr
  rw [show ((⟨.byName n, [], [], [], .byName tn,
      some [.byType t1 c1, .byType t2 c2]⟩ : SignalConfig).loaders.getD default_loaders) =
      [.byType t1 c1, .byType t2 c2] from rfl] at hBody
  rw [hB, hRL] at hBody
  simp only [Bool.false_eq_true, if_false] at hBody
  have hlk : List.lookup name
      [(name, (⟨.byName n, [], [], [], .byName tn,
        some [.byType t1 c1, .byType t2 c2]⟩ : SignalConfig))] =
      some ⟨.byName n, [], [], [], .byName tn,
        some [.byType t1 c1, .byType t2 c2]⟩ := by
    simp [List.lookup]
  have hRS : run_signal w ⟨[(name, ⟨.byName n, [], [], [], .byName tn,
      some [.byType t1 c1, .byType t2 c2]⟩)]⟩ cache0 name =
      (Event.signalStart name ::
        ([Event.extractStart n] ++
          [.cacheMissInfo n, .fetchCall (.byName n) [], .fetchedInfo n] ++
          [.transformStart tn] ++ [.transformCall (.byName tn) raw] ++
          [.constructCall (.byName t1) false c1, .constructCall (.byName t2) false c2] ++
          [.loadStart (refCls (.byName t1)),
           .loadCall (.byName t1) (dictSet rec0 (.s "signal_name") (.str name)),
           .errLoaderFailed name,
           .loadStart (refCls (.byName t2)),
           .loadCall (.byName t2) (dictSet rec0 (.s "signal_name") (.str name))] ++
          [.warnPartialLoad name]),
       [(cacheKeyOf (.byName n) (.tup []), raw)], .ok true) := by
    simp only [run_signal, hlk, hBody]
  refine ⟨_, _, hRS, by simp, by simp, ?_, fun w2 s2 rc insts => runLoaders_flag⟩
  intro hmem
  simp only [List.mem_cons, List.mem_append, List.mem_singleton] at hmem
  simp at hmem

theorem C6_amended_witness :
    ∃ evs cache2,
      run_signal fileLoaderFailsWorld ⟨[("sig",
          ⟨.byName "fred_extractor", [], [], [], .byName "m2_transformer",
           some [.byType "file_loader" [], .byType "tweet_metrics_loader" []]⟩)]⟩
        [] "sig" = (evs, cache2, .ok true) ∧
      Event.loadCall (.byName "tweet_metrics_loader")
        (dictSet [(.s "value", .int 7)] (.s "signal_name") (.str "sig")) ∈ evs ∧
      Event.warnPartialLoad "sig" ∈ evs ∧
      Event.etlSuccess "sig" ∉ evs ∧
      (∀ (w2 : World) (s2 : String) (rc : List (VKey × Val)) (insts : List PluginRef),
        (runLoaders w2 s2 rc insts).2 = true ↔
          ∀ ref ∈ insts, w2.load ref rc = .ok ()) :=
  C6_amended_partial_load fileLoaderFailsWorld [] "sig" "fred_extractor"
    "m2_transformer" "file_loader" "tweet_metrics_loader" [] []
    [(.s "value", .int 7)] (.int 42) "boom"
    (by decide) rfl (by decide) rfl
    (by decide) (by decide) (by decide) (by decide) rfl rfl rfl rfl
    (fun rc => rfl) (fun rc => rfl)

/-- Counterexample to claim C7: run_signal on a name absent from the
configuration does return False without raising, but it does touch the
extraction cache: the cache is cleared (line 373) before the existence
check (line 375), so a nonempty cache becomes empty. -/
theorem C7_counterexample :
    run_signal okWorld ⟨[("a",
        ⟨.byName "fred_extractor", [], [], [], .byName "m2_transformer", some []⟩)]⟩
      [(CKey.byName "x" HKey.null, Val.int 5)] "nonexistent" =
      ([.errSignalNotFound "nonexistent"], [], .ok false) ∧
    ([(CKey.byName "x" HKey.null, Val.int 5)] : Cache) ≠ ([] : Cache) :=
  ⟨rfl, by simp⟩

/-- Claim C7 as amended: for every name not present in the signals mapping,
run_signal returns False without raising and without processing any
signal, logging only the not-found error; however the extraction cache is
cleared first (before the existence check), so the engine's cache is left
empty rather than untouched; no other signal state exists to change. -/
theorem C7_amended_nonexistent
    (w : World) (config : Config) (cache0 : Cache) (name : String)
    (h : List.lookup name config.signals = none) :
    run_signal w config cache0 name =
      ([.errSignalNotFound name], [], .ok false) := by
  simp [run_signal, h]

theorem C7_amended_witness :
    run_signal okWorld ⟨[("a",
        ⟨.byName "fred_extractor", [], [], [], .byName "m2_transformer", some []⟩)]⟩
      [(CKey.byName "x" HKey.null, Val.int 5)] "nonexistent" =
      ([.errSignalNotFound "nonexistent"], [], .ok false) :=
  C7_amended_nonexistent okWorld _ _ "nonexistent" rfl

/-- The skip test of the engine on a loader configuration (the conditions
of pipeline.py lines 269 and 306). -/
def lcIsGoogleCode : LoaderConfig → Bool
  | .byType t _ => t = "google_sheets_loader"
  | .byModule m _ _ => moduleIsGoogleSheets m

/-- A loader configuration that is not skipped and produces no instance
left an initialization or import error in the log. -/
theorem buildLoader_failed_logged {w : World} {s : String} {lc : LoaderConfig}
    (hn : (buildLoader w s lc).2 = none) (hg : lcIsGoogleCode lc = false) :
    Event.errLoaderInit s ∈ (buildLoader w s lc).1 ∨
      Event.errLoaderImport s ∈ (buildLoader w s lc).1 := by
  cases lc with
  | byModule m c ps =>
      have hgm : moduleIsGoogleSheets m = false := hg
      simp only [buildLoader, hgm, Bool.false_eq_true, if_false] at hn ⊢
      cases hsup : moduleIsSupabase m with
      | true =>
          try rw [hsup] at hn
          simp only [if_true] at hn ⊢
          cases hurl : w.getenv "SUPABASE_URL" with
          | none => try rw [hurl] at hn; simp
          | some url =>
              try rw [hurl] at hn
              simp only at hn ⊢
              cases hi : w.importOk m c with
              | false => try rw [hi] at hn; simp
              | true =>
                  try rw [hi] at hn
                  simp only [if_true] at hn ⊢
                  cases hc1 : w.constructL (.byModule m c) true _ with
                  | ok u => try rw [hc1] at hn; simp at hn
                  | error e1 =>
                      try rw [hc1] at hn
                      cases e1 with
                      | typeError =>
                          cases hc2 : w.constructL (.byModule m c) false _ with
                          | ok u => try rw [hc2] at hn; simp at hn
                          | error e2 => try rw [hc2] at hn; simp
                      | missingSecret a => simp
                      | extraction a => simp
                      | transformation a => simp
                      | load a => simp
                      | other a => simp
      | false =>
          try rw [hsup] at hn
          simp only [Bool.false_eq_true, if_false] at hn ⊢
          cases hi : w.importOk m c with
          | false => try rw [hi] at hn; simp
          | true =>
              try rw [hi] at hn
              simp only [if_true] at hn ⊢
              cases hc1 : w.constructL (.byModule m c) true _ with
              | ok u => try rw [hc1] at hn; simp at hn
              | error e1 =>
                  try rw [hc1] at hn
                  cases e1 with
                  | typeError =>
                      cases hc2 : w.constructL (.byModule m c) false _ with
                      | ok u => try rw [hc2] at hn; simp at hn
                      | error e2 => try rw [hc2] at hn; simp
                  | missingSecret a => simp
                  | extraction a => simp
                  | transformation a => simp
                  | load a => simp
                  | other a => simp
  | byType t cfg =>
      have hgt : ¬t = "google_sheets_loader" := by
        simpa [lcIsGoogleCode] using hg
      simp only [buildLoader, if_neg hgt] at hn ⊢
      by_cases hsup : t = "supabase_loader"
      case pos =>
          rw [if_pos hsup] at hn ⊢
          cases hurl : w.getenv "SUPABASE_URL" with
          | none => try rw [hurl] at hn; simp
          | some url =>
              try rw [hurl] at hn
              simp only at hn ⊢
              cases hi : w.importLoadMod t with
              | false => try rw [hi] at hn; simp
              | true =>
                  try rw [hi] at hn
                  simp only [if_true] at hn ⊢
                  cases hc1 : w.constructL (.byName t) false _ with
                  | ok u => try rw [hc1] at hn; simp at hn
                  | error e1 => try rw [hc1] at hn; simp
      case neg =>
          rw [if_neg hsup] at hn ⊢
          simp only at hn ⊢
          cases hi : w.importLoadMod t with
          | false => try rw [hi] at hn; simp
          | true =>
              try rw [hi] at hn
              simp only [if_true] at hn ⊢
              cases hc1 : w.constructL (.byName t) false _ with
              | ok u => try rw [hc1] at hn; simp at hn
              | error e1 => try rw [hc1] at hn; simp

theorem buildLoaders_none {w : World} {s : String} :
    ∀ {lcs : List LoaderConfig},
      (∀ lc ∈ lcs, (buildLoader w s lc).2 = none) →
      (buildLoaders w s lcs).2 = []
  | [], _ => rfl
  | lc :: rest, h => by
      simp only [buildLoaders]
      rw [h lc (List.mem_cons_self _ _)]
      exact buildLoaders_none (fun lc2 hm => h lc2 (List.mem_cons_of_mem _ hm))

theorem buildLoaders_mem_lift {w : World} {s : String} {e : Event} :
    ∀ {lcs : List LoaderConfig} {lc : LoaderConfig}, lc ∈ lcs →
      e ∈ (buildLoader w s lc).1 → e ∈ (buildLoaders w s lcs).1
  | [], _, hm, _ => by simp at hm
  | lc0 :: rest, lc, hm, he => by
      simp only [buildLoaders, List.mem_append]
      rcases List.mem_cons.mp hm with hm | hm
      · subst hm; exact Or.inl he
      · exact Or.inr (buildLoaders_mem_lift hm he)

/-- Claim C9: a configured loader whose initialization fails (construction
or import raises) is logged and dropped; it does not count against the
signal's load success.  A signal all of whose configured loaders fail to
initialize executes zero load calls, is logged as fully successful, and
run_signal returns True. -/
theorem C9_failed_loaders_still_success
    (w : World) (cache0 : Cache) (name n tn : String) (raw : Val)
    (rec0 : List (VKey × Val)) (lcs : List LoaderConfig)
    (hn : n ∈ extractor_map_keys)
    (hf : w.fetch (.byName n) [] = .ok raw)
    (htn : tn ∈ transformer_map_keys)
    (hTr : w.transform (.byName tn) raw = .ok rec0)
    (hfail : ∀ lc ∈ lcs, (buildLoader w name lc).2 = none)
    (hng : ∀ lc ∈ lcs, lcIsGoogleCode lc = false) :
    ∃ evs cache2,
      run_signal w ⟨[(name, ⟨.byName n, [], [], [], .byName tn, some lcs⟩)]⟩
          cache0 name = (evs, cache2, .ok true) ∧
      Event.etlSuccess name ∈ evs ∧
      evs.countP isLoadCall = 0 ∧
      (∀ lc ∈ lcs, Event.errLoaderInit name ∈ evs ∨ Event.errLoaderImport name ∈ evs) := by
  have hR : resolveExtractorStep w name ⟨.byName n, [], [], [], .byName tn, some lcs⟩ =
      ([.extractStart n], .ok (.byName n, n, [])) :=
    resolveExtractor_byName hn (show get_secrets w.getenv [] = .ok [] from rfl)
  have hE : extractStage w (.byName n) n [] [] =
      ([.cacheMissInfo n, .fetchCall (.byName n) [], .fetchedInfo n],
       .ok (raw, [(cacheKeyOf (.byName n) (.tup []), raw)])) :=
    extractStage_miss rfl rfl hf
  have hT := resolveTransformer_byName (w := w) (s := name) htn
  have hB2 : (buildLoaders w name lcs).2 = [] := buildLoaders_none hfail
  have hBody := processSignalBody_ok (m := []) hR hE hT hTr
  rw [show ((⟨.byName n, [], [], [], .byName tn, some lcs⟩ : SignalConfig).loaders.getD
      default_loaders) = lcs from rfl] at hBody
  rw [hB2] at hBody
  rw [show runLoaders w name (dictSet rec0 (.s "signal_name") (.str name)) [] =
      ([], true) from rfl] at hBody
  simp only [if_true, List.append_nil] at hBody
  have hlk : List.lookup name
      [(name, (⟨.byName n, [], [], [], .byName tn, some lcs⟩ : SignalConfig))] =
      some ⟨.byName n, [], [], [], .byName tn, some lcs⟩ := by
    simp [List.lookup]
  have hRS : run_signal w ⟨[(name, ⟨.byName n, [], [], [], .byName tn, some lcs⟩)]⟩
      cache0 name =
      (Event.signalStart name ::
        ([Event.extractStart n] ++
          [.cacheMissInfo n, .fetchCall (.byName n) [], .fetchedInfo n] ++
          [.transformStart tn] ++ [.transformCall (.byName tn) raw] ++
          (buildLoaders w name lcs).1 ++ [.etlSuccess name]),
       [(cacheKeyOf (.byName n) (.tup []), raw)], .ok true) := by
    simp only [run_signal, hlk, hBody]
  refine ⟨_, _, hRS, by simp, ?_, ?_⟩
  · have hB0 : (buildLoaders w name lcs).1.countP isLoadCall = 0 := by
      rw [List.countP_eq_zero]
      intro e he
      simp [(buildLoaders_events he).1]
    simp [List.countP_append, List.countP_cons, hB0, isLoadCall]
  · intro lc hm
    rcases buildLoader_failed_logged (hfail lc hm) (hng lc hm) with he | he
    · left
      apply List.mem_cons_of_mem
      apply List.mem_append_left
      apply List.mem_append_right
      exact buildLoaders_mem_lift hm he
    · right
      apply List.mem_cons_of_mem
      apply List.mem_append_left
      apply List.mem_append_right
      exact buildLoaders_mem_lift hm he

/-- A world in which every loader construction raises. -/
def loaderInitFailsWorld : World where
  getenv := fun _ => some "value"
  importOk := fun _ _ => true
  importLoadMod := fun _ => true
  fetch := fun _ _ => .ok (.int 42)
  transform := fun _ _ => .ok [(.s "value", .int 7)]
  constructL := fun _ _ _ => .error (.other "constructor boom")
  load := fun _ _ => .ok ()

theorem C9_witness :
    ∃ evs cache2,
      run_signal loaderInitFailsWorld ⟨[("sig",
          ⟨.byName "fred_extractor", [], [], [], .byName "m2_transformer",
           some [.byType "file_loader" []]⟩)]⟩ [] "sig" =
        (evs, cache2, .ok true) ∧
      Event.etlSuccess "sig" ∈ evs ∧
      evs.countP isLoadCall = 0 ∧
      (∀ lc ∈ [LoaderConfig.byType "file_loader" []],
        Event.errLoaderInit "sig" ∈ evs ∨ Event.errLoaderImport "sig" ∈ evs) :=
  C9_failed_loaders_still_success loaderInitFailsWorld [] "sig" "fred_extractor"
    "m2_transformer" (.int 42) [(.s "value", .int 7)]
    [.byType "file_loader" []]
    (by decide) rfl (by decide) rfl
    (by intro lc hm; simp at hm; subst hm; rfl)
    (by intro lc hm; simp at hm; subst hm; rfl)

/-- Characters matched by the regex class [A-Za-z0-9_] of the variable
name groups in _process_env_vars. -/
def isVarChar (c : Char) : Bool := c.isAlphanum || c == '_'

/-- Whitespace as matched by the regex class \s. -/
def isSpaceChar (c : Char) : Bool :=
  c == ' ' || c == '\t' || c == '\n' || c == '\r'

/-- Greedy take of a character class and the rest (the behaviour of a
greedy regex group over a class disjoint from what follows). -/
def spanChars (p : Char → Bool) : List Char → List Char × List Char
  | [] => ([], [])
  | c :: rest =>
      if p c then
        let (a, b) := spanChars p rest
        (c :: a, b)
      else ([], c :: rest)

/-- Match of the regex \x7b\x7b\s*([A-Za-z0-9_]+)\s*\x7d\x7d at the head of
the text: on success, the captured variable name and the text after the
match. -/
def matchBrace (s : List Char) : Option (String × List Char) :=
  match s with
  | c1 :: c2 :: rest =>
      if c1 = '\x7b' ∧ c2 = '\x7b' then
        let (_, r1) := spanChars isSpaceChar rest
        let (nm, r2) := spanChars isVarChar r1
        if nm.isEmpty then none
        else
          let (_, r3) := spanChars isSpaceChar r2
          match r3 with
          | d1 :: d2 :: r4 =>
              if d1 = '\x7d' ∧ d2 = '\x7d' then some (String.mk nm, r4)
              else none
          | _ => none
      else none
  | _ => none

/-- Match of the regex \$\x7b([A-Za-z0-9_]+)\x7d at the head of the
text. -/
def matchDollar (s : List Char) : Option (String × List Char) :=
  match s with
  | c1 :: c2 :: rest =>
      if c1 = '$' ∧ c2 = '\x7b' then
        let (nm, r2) := spanChars isVarChar rest
        if nm.isEmpty then none
        else
          match r2 with
          | d1 :: r3 =>
              if d1 = '\x7d' then some (String.mk nm, r3) else none
          | _ => none
      else none
  | _ => none

theorem spanChars_length_le (p : Char → Bool) :
    ∀ l : List Char, (spanChars p l).2.length ≤ l.length
  | [] => Nat.le_refl _
  | c :: rest => by
      simp only [spanChars]
      by_cases h : p c
      · simp only [if_pos h]
        exact Nat.le_succ_of_le (spanChars_length_le p rest)
      · simp [if_neg h]

theorem matchBrace_length {s r : List Char} {nm : String}
    (h : matchBrace s = some (nm, r)) : r.length < s.length := by
  match s with
  | [] => simp [matchBrace] at h
  | [c] => simp [matchBrace] at h
  | c1 :: c2 :: rest =>
      simp only [matchBrace] at h
      by_cases hc : c1 = '\x7b' ∧ c2 = '\x7b'
      case neg => rw [if_neg hc] at h; exact absurd h (by simp)
      rw [if_pos hc] at h
      rcases h1 : spanChars isSpaceChar rest with ⟨a1, r1⟩
      rw [h1] at h
      rcases h2 : spanChars isVarChar r1 with ⟨nm2, r2⟩
      rw [h2] at h
      by_cases hne : nm2.isEmpty
      · simp [hne] at h
      · simp only [hne, Bool.false_eq_true, if_false] at h
        rcases h3 : spanChars isSpaceChar r2 with ⟨a3, r3⟩
        rw [h3] at h
        match r3, h with
        | [], h => exact absurd h (by simp)
        | [d], h => exact absurd h (by simp)
        | d1 :: d2 :: r4, h => ?_
        dsimp only at h
        by_cases hd : d1 = '\x7d' ∧ d2 = '\x7d'
        case neg => rw [if_neg hd] at h; exact absurd h (by simp)
        rw [if_pos hd] at h
        simp only [Option.some.injEq, Prod.mk.injEq] at h
        have e1 : r1.length ≤ rest.length := by
          have := spanChars_length_le isSpaceChar rest
          rw [h1] at this; exact this
        have e2 : r2.length ≤ r1.length := by
          have := spanChars_length_le isVarChar r1
          rw [h2] at this; exact this
        have e3 : (d1 :: d2 :: r4).length ≤ r2.length := by
          have := spanChars_length_le isSpaceChar r2
          rw [h3] at this; exact this
        simp only [List.length_cons] at e3 ⊢
        rw [← h.2]
        omega

theorem matchDollar_length {s r : List Char} {nm : String}
    (h : matchDollar s = some (nm, r)) : r.length < s.length := by
  match s with
  | [] => simp [matchDollar] at h
  | [c] => simp [matchDollar] at h
  | c1 :: c2 :: rest =>
      simp only [matchDollar] at h
      by_cases hc : c1 = '$' ∧ c2 = '\x7b'
      case neg => rw [if_neg hc] at h; exact absurd h (by simp)
      rw [if_pos hc] at h
      rcases h2 : spanChars isVarChar rest with ⟨nm2, r2⟩
      rw [h2] at h
      by_cases hne : nm2.isEmpty
      · simp [hne] at h
      · simp only [hne, Bool.false_eq_true, if_false] at h
        match r2, h with
        | [], h => exact absurd h (by simp)
        | d1 :: r3, h => ?_
        dsimp only at h
        by_cases hd : d1 = '\x7d'
        case neg => rw [if_neg hd] at h; exact absurd h (by simp)
        rw [if_pos hd] at h
        simp only [Option.some.injEq, Prod.mk.injEq] at h
        have e2 : (d1 :: r3).length ≤ rest.length := by
          have := spanChars_length_le isVarChar rest
          rw [h2] at this; exact this
        simp only [List.length_cons] at e2 ⊢
        rw [← h.2]
        omega

/-- Single step driver for re.findall of the double-brace pattern:
non-overlapping left-to-right scan, advancing one character when no match
starts at the current position. The fuel argument only serves structural
termination; findall1 supplies the text length, which always suffices. -/
def findall1Go : Nat → List Char → List String
  | 0, _ => []
  | _ + 1, [] => []
  | fuel + 1, c :: rest =>
      match matchBrace (c :: rest) with
      | some (nm, r4) => nm :: findall1Go fuel r4
      | none => findall1Go fuel rest

/-- re.findall of the double-brace pattern \x7b\x7b\s*([A-Za-z0-9_]+)\s*\x7d\x7d. -/
def findall1 (s : List Char) : List String := findall1Go s.length s

/-- Single step driver for re.findall of the dollar-brace pattern. -/
def findall2Go : Nat → List Char → List String
  | 0, _ => []
  | _ + 1, [] => []
  | fuel + 1, c :: rest =>
      match matchDollar (c :: rest) with
      | some (nm, r3) => nm :: findall2Go fuel r3
      | none => findall2Go fuel rest

/-- re.findall of the dollar-brace pattern \$\x7b([A-Za-z0-9_]+)\x7d. -/
def findall2 (s : List Char) : List String := findall2Go s.length s

/-- Driver for Python str.replace; the fuel argument only serves
structural termination. -/
def pyReplaceGo (old new : List Char) : Nat → List Char → List Char
  | 0, _ => []
  | _ + 1, [] => []
  | fuel + 1, c :: rest =>
      if old ≠ [] ∧ old.isPrefixOf (c :: rest) then
        new ++ pyReplaceGo old new fuel ((c :: rest).drop old.length)
      else c :: pyReplaceGo old new fuel rest

/-- Python str.replace: replaces every non-overlapping occurrence of old,
scanning left to right. (The engine only ever calls it with a non-empty
old string.) -/
def pyReplace (s old new : List Char) : List Char :=
  pyReplaceGo old new s.length s

theorem findall1Go_congr :
    ∀ (s : List Char) (f1 f2 : Nat), s.length ≤ f1 → s.length ≤ f2 →
      findall1Go f1 s = findall1Go f2 s
  | [], f1, f2, _, _ => by
      match f1, f2 with
      | 0, 0 => rfl
      | 0, _ + 1 => rfl
      | _ + 1, 0 => rfl
      | _ + 1, _ + 1 => rfl
  | c :: rest, f1, f2, h1, h2 => by
      match f1, f2, h1, h2 with
      | g1 + 1, g2 + 1, h1, h2 =>
          simp only [findall1Go]
          simp only [List.length_cons, Nat.add_le_add_iff_right] at h1 h2
          match hm : matchBrace (c :: rest) with
          | some (nm, r4) =>
              have hlt : r4.length < (c :: rest).length := matchBrace_length hm
              dsimp only
              have e1 : findall1Go g1 r4 = findall1Go r4.length r4 :=
                findall1Go_congr r4 g1 r4.length
                  (by simp only [List.length_cons] at hlt; omega) (Nat.le_refl _)
              have e2 : findall1Go g2 r4 = findall1Go r4.length r4 :=
                findall1Go_congr r4 g2 r4.length
                  (by simp only [List.length_cons] at hlt; omega) (Nat.le_refl _)
              rw [e1, e2]
          | none =>
              have hlt2 : rest.length < (c :: rest).length := by
                simp [List.length_cons]
              exact findall1Go_congr rest g1 g2 h1 h2
termination_by s => s.length

theorem findall2Go_congr :
    ∀ (s : List Char) (f1 f2 : Nat), s.length ≤ f1 → s.length ≤ f2 →
      findall2Go f1 s = findall2Go f2 s
  | [], f1, f2, _, _ => by
      match f1, f2 with
      | 0, 0 => rfl
      | 0, _ + 1 => rfl
      | _ + 1, 0 => rfl
      | _ + 1, _ + 1 => rfl
  | c :: rest, f1, f2, h1, h2 => by
      match f1, f2, h1, h2 with
      | g1 + 1, g2 + 1, h1, h2 =>
          simp only [findall2Go]
          simp only [List.length_cons, Nat.add_le_add_iff_right] at h1 h2
          match hm : matchDollar (c :: rest) with
          | some (nm, r3) =>
              have hlt : r3.length < (c :: rest).length := matchDollar_length hm
              dsimp only
              have e1 : findall2Go g1 r3 = findall2Go r3.length r3 :=
                findall2Go_congr r3 g1 r3.length
                  (by simp only [List.length_cons] at hlt; omega) (Nat.le_refl _)
              have e2 : findall2Go g2 r3 = findall2Go r3.length r3 :=
                findall2Go_congr r3 g2 r3.length
                  (by simp only [List.length_cons] at hlt; omega) (Nat.le_refl _)
              rw [e1, e2]
          | none =>
              have hlt2 : rest.length < (c :: rest).length := by
                simp [List.length_cons]
              exact findall2Go_congr rest g1 g2 h1 h2
termination_by s => s.length

theorem pyReplaceGo_congr (old new : List Char) :
    ∀ (s : List Char) (f1 f2 : Nat), s.length ≤ f1 → s.length ≤ f2 →
      pyReplaceGo old new f1 s = pyReplaceGo old new f2 s
  | [], f1, f2, _, _ => by
      match f1, f2 with
      | 0, 0 => rfl
      | 0, _ + 1 => rfl
      | _ + 1, 0 => rfl
      | _ + 1, _ + 1 => rfl
  | c :: rest, f1, f2, h1, h2 => by
      match f1, f2, h1, h2 with
      | g1 + 1, g2 + 1, h1, h2 =>
          simp only [pyReplaceGo]
          simp only [List.length_cons, Nat.add_le_add_iff_right] at h1 h2
          by_cases hp : old ≠ [] ∧ old.isPrefixOf (c :: rest)
          · rw [if_pos hp, if_pos hp]
            have hdl : ((c :: rest).drop old.length).length ≤ rest.length := by
              simp only [List.length_drop, List.length_cons]
              have : 0 < old.length := List.length_pos.mpr hp.1
              omega
            have e1 := pyReplaceGo_congr old new ((c :: rest).drop old.length)
              g1 ((c :: rest).drop old.length).length (by omega) (Nat.le_refl _)
            have e2 := pyReplaceGo_congr old new ((c :: rest).drop old.length)
              g2 ((c :: rest).drop old.length).length (by omega) (Nat.le_refl _)
            rw [e1, e2]
          · rw [if_neg hp, if_neg hp]
            rw [pyReplaceGo_congr old new rest g1 g2 h1 h2]
termination_by s => s.length
decreasing_by
  · simp only [List.length_drop, List.length_cons]
    have : 0 < old.length := List.length_pos.mpr hp.1
    omega
  · simp only [List.length_drop, List.length_cons]
    have : 0 < old.length := List.length_pos.mpr hp.1
    omega
  · simp [List.length_cons]

/-- os.getenv combined with the truthiness test `if env_value:` of
pipeline.py line 90: the value an env var reference is replaced with, or
none if the variable is unset or empty. -/
def envValue (getenv : String → Option String) (n : String) : Option String :=
  match getenv n with
  | some v => if v = "" then none else some v
  | none => none

/-- The string branch of ETLEngine._process_env_vars (pipeline.py lines
83-102): find all double-brace references, replace each resolved one (both
the spaced single-brace form and the tight double-brace form, as the
f-strings on lines 92-93 produce), then find all dollar-brace references
in the result and replace the resolved ones. Lines 74-104 contain no
logging call, so the trace of emitted log events is empty. -/
def processStr (getenv : String → Option String) (s : List Char) :
    List Char × List Event :=
  let r1 := (findall1 s).foldl (fun r nm =>
    match envValue getenv nm with
    | some v =>
        pyReplace
          (pyReplace r ('\x7b' :: ' ' :: (nm.data ++ [' ', '\x7d'])) v.data)
          ('\x7b' :: '\x7b' :: (nm.data ++ ['\x7d', '\x7d'])) v.data
    | none => r) s
  let r2 := (findall2 r1).foldl (fun r nm =>
    match envValue getenv nm with
    | some v => pyReplace r ('$' :: '\x7b' :: (nm.data ++ ['\x7d'])) v.data
    | none => r) r1
  (r2, [])

mutual
/-- ETLEngine._process_env_vars (pipeline.py lines 74-104): recursive
traversal replacing env var templates in every string; dict keys are left
unchanged, non-string leaves are returned as-is. -/
def process_env_vars (getenv : String → Option String) : Val → Val
  | .dict kvs => .dict (pevPairs getenv kvs)
  | .list xs => .list (pevList getenv xs)
  | .str s => .str ⟨(processStr getenv s.data).1⟩
  | .int n => .int n
  | .bool b => .bool b
  | .null => .null

def pevList (getenv : String → Option String) : List Val → List Val
  | [] => []
  | v :: vs => process_env_vars getenv v :: pevList getenv vs

def pevPairs (getenv : String → Option String) :
    List (VKey × Val) → List (VKey × Val)
  | [] => []
  | (k, v) :: kvs => (k, process_env_vars getenv v) :: pevPairs getenv kvs
end

theorem findall1_cons_none {c : Char} {rest : List Char}
    (h : matchBrace (c :: rest) = none) :
    findall1 (c :: rest) = findall1 rest := by
  simp only [findall1, List.length_cons, findall1Go, h]

theorem findall1_cons_some {c : Char} {rest r4 : List Char} {nm : String}
    (h : matchBrace (c :: rest) = some (nm, r4)) :
    findall1 (c :: rest) = nm :: findall1 r4 := by
  simp only [findall1, List.length_cons, findall1Go, h]
  have hlt : r4.length < (c :: rest).length := matchBrace_length h
  simp only [List.length_cons] at hlt
  rw [findall1Go_congr r4 rest.length r4.length (by omega) (Nat.le_refl _)]

theorem findall2_cons_none {c : Char} {rest : List Char}
    (h : matchDollar (c :: rest) = none) :
    findall2 (c :: rest) = findall2 rest := by
  simp only [findall2, List.length_cons, findall2Go, h]

theorem findall2_cons_some {c : Char} {rest r3 : List Char} {nm : String}
    (h : matchDollar (c :: rest) = some (nm, r3)) :
    findall2 (c :: rest) = nm :: findall2 r3 := by
  simp only [findall2, List.length_cons, findall2Go, h]
  have hlt : r3.length < (c :: rest).length := matchDollar_length h
  simp only [List.length_cons] at hlt
  rw [findall2Go_congr r3 rest.length r3.length (by omega) (Nat.le_refl _)]

theorem pyReplace_cons_pos {old : List Char} {c : Char} {rest : List Char}
    (new : List Char) (h : old ≠ [] ∧ old.isPrefixOf (c :: rest) = true) :
    pyReplace (c :: rest) old new
      = new ++ pyReplace ((c :: rest).drop old.length) old new := by
  simp only [pyReplace, List.length_cons, pyReplaceGo]
  rw [if_pos h]
  have hdl : ((c :: rest).drop old.length).length ≤ rest.length := by
    simp only [List.length_drop, List.length_cons]
    have : 0 < old.length := List.length_pos.mpr h.1
    omega
  rw [pyReplaceGo_congr old new ((c :: rest).drop old.length)
    rest.length ((c :: rest).drop old.length).length hdl (Nat.le_refl _)]

theorem pyReplace_cons_neg {old : List Char} {c : Char} {rest : List Char}
    (new : List Char) (h : ¬(old ≠ [] ∧ old.isPrefixOf (c :: rest) = true)) :
    pyReplace (c :: rest) old new = c :: pyReplace rest old new := by
  simp only [pyReplace, List.length_cons, pyReplaceGo]
  rw [if_neg h]

theorem isPrefixOf_self : ∀ l : List Char, l.isPrefixOf l = true
  | [] => rfl
  | c :: rest => by
      simp only [List.isPrefixOf, Bool.and_eq_true, beq_self_eq_true]
      exact ⟨trivial, isPrefixOf_self rest⟩

theorem pyReplace_self {s : List Char} (new : List Char) (h : s ≠ []) :
    pyReplace s s new = new := by
  match s, h with
  | c :: rest, h =>
      rw [pyReplace_cons_pos new ⟨h, isPrefixOf_self _⟩]
      rw [List.drop_length]
      simp [pyReplace, pyReplaceGo]

theorem pyReplace_not_contained :
    ∀ (s old new : List Char), containsSubList s old = false →
      pyReplace s old new = s
  | [], _, _, _ => rfl
  | c :: rest, old, new, h => by
      simp only [containsSubList, Bool.or_eq_false_iff] at h
      rw [pyReplace_cons_neg new (fun hc => by rw [h.1] at hc; exact absurd hc.2 (by simp))]
      rw [pyReplace_not_contained rest old new h.2]

theorem spanChars_all_append (p : Char → Bool) :
    ∀ (a b : List Char), (∀ c ∈ a, p c = true) →
      (∀ c, b.head? = some c → p c = false) →
      spanChars p (a ++ b) = (a, b)
  | [], b, _, hb => by
      match b with
      | [] => rfl
      | c :: b2 =>
          simp only [List.nil_append, spanChars]
          rw [if_neg (by simp [hb c rfl])]
  | a0 :: a2, b, ha, hb => by
      simp only [List.cons_append, spanChars, List.append_eq]
      rw [if_pos (ha a0 (by simp))]
      rw [spanChars_all_append p a2 b (fun c hc => ha c (by simp [hc])) hb]

theorem isVarChar_facts {c : Char} (h : isVarChar c = true) :
    (c = '\x7b' → False) ∧ (c = '\x7d' → False) ∧ (c = '$' → False) ∧
      (c = ' ' → False) ∧ isSpaceChar c = false := by
  have hsp : isSpaceChar c = false := by
    cases hc : isSpaceChar c
    · rfl
    · exfalso
      simp only [isSpaceChar, Bool.or_eq_true, beq_iff_eq] at hc
      rcases hc with ((e | e) | e) | e <;> subst e <;> exact absurd h (by decide)
  refine ⟨?_, ?_, ?_, ?_, hsp⟩
  · intro e; subst e; exact absurd h (by decide)
  · intro e; subst e; exact absurd h (by decide)
  · intro e; subst e; exact absurd h (by decide)
  · intro e; subst e; exact absurd h (by decide)

/-- No two consecutive opening braces: a sufficient syntactic condition for
the double-brace pattern to have no match anywhere in the text. -/
def noDDB : List Char → Bool
  | a :: b :: rest => !(a == '\x7b' && b == '\x7b') && noDDB (b :: rest)
  | _ => true

theorem findall1_nil_of_noDDB : ∀ s : List Char, noDDB s = true → findall1 s = []
  | [], _ => rfl
  | [c], _ => by
      have hm : matchBrace [c] = none := rfl
      rw [findall1_cons_none hm]
      rfl
  | c1 :: c2 :: rest, h => by
      simp only [noDDB, Bool.and_eq_true, Bool.not_eq_true', Bool.and_eq_false_iff] at h
      have hm : matchBrace (c1 :: c2 :: rest) = none := by
        simp only [matchBrace]
        rw [if_neg]
        intro hcc
        rcases h.1 with h1 | h1 <;>
          [exact absurd hcc.1 (by simpa using h1);
           exact absurd hcc.2 (by simpa using h1)]
      rw [findall1_cons_none hm]
      refine findall1_nil_of_noDDB (c2 :: rest) ?_
      simpa [noDDB] using h.2

theorem findall2_nil_of_no_dollar :
    ∀ s : List Char, (∀ c ∈ s, (c = '$') → False) → findall2 s = []
  | [], _ => rfl
  | c :: rest, h => by
      have hm : matchDollar (c :: rest) = none := by
        match rest with
        | [] => rfl
        | c2 :: r2 =>
            simp only [matchDollar]
            rw [if_neg]
            intro hcc
            exact h c (by simp) hcc.1
      rw [findall2_cons_none hm]
      exact findall2_nil_of_no_dollar rest (fun c2 hc2 e => h c2 (by simp [hc2]) e)

/-- A syntactically valid variable name as captured by the regex group
[A-Za-z0-9_]+. -/
def ValidVarName (nm : String) : Prop :=
  nm.data ≠ [] ∧ ∀ c ∈ nm.data, isVarChar c = true

instance : DecidablePred ValidVarName := by
  intro nm
  unfold ValidVarName
  infer_instance

theorem noDDB_append_rbrace :
    ∀ l : List Char, (∀ c ∈ l, (c == '\x7b') = false) →
      noDDB (l ++ ['\x7d']) = true
  | [], _ => rfl
  | [c], h => by
      simp only [List.cons_append, List.nil_append, noDDB, Bool.and_eq_true,
        Bool.not_eq_true', Bool.and_eq_false_iff]
      exact ⟨Or.inl (h c (by simp)), trivial⟩
  | c :: c2 :: l2, h => by
      simp only [List.cons_append, noDDB, Bool.and_eq_true, Bool.not_eq_true',
        Bool.and_eq_false_iff]
      refine ⟨Or.inl (h c (by simp)), ?_⟩
      have := noDDB_append_rbrace (c2 :: l2) (fun d hd => h d (by simp at hd ⊢; tauto))
      simpa [noDDB] using this

theorem noDDB_dollar (l : List Char) (hne : l ≠ [])
    (hv : ∀ c ∈ l, isVarChar c = true) :
    noDDB ('$' :: '\x7b' :: (l ++ ['\x7d'])) = true := by
  match l, hne with
  | c0 :: cs, _ =>
      have hc0 : (c0 == '\x7b') = false := by
        simp only [beq_eq_false_iff_ne]
        exact fun e => (isVarChar_facts (hv c0 (by simp))).1 e
      simp only [List.cons_append, noDDB, Bool.and_eq_true, Bool.not_eq_true',
        Bool.and_eq_false_iff]
      refine ⟨Or.inl (by decide), Or.inr hc0, ?_⟩
      have := noDDB_append_rbrace (c0 :: cs) (fun d hd => by
        simp only [beq_eq_false_iff_ne]
        exact fun e => (isVarChar_facts (hv d hd)).1 e)
      simp only [List.cons_append] at this
      simpa [noDDB] using this

theorem matchDollar_exact (l : List Char) (hne : l ≠ [])
    (hv : ∀ c ∈ l, isVarChar c = true) :
    matchDollar ('$' :: '\x7b' :: (l ++ ['\x7d'])) = some (⟨l⟩, []) := by
  simp only [matchDollar]
  rw [if_pos (by simp)]
  have hsp : spanChars isVarChar (l ++ ['\x7d']) = (l, ['\x7d']) :=
    spanChars_all_append isVarChar l ['\x7d'] hv
      (by intro c hc; simp only [List.head?] at hc; cases hc; decide)
  rw [hsp]
  dsimp only
  have hie : l.isEmpty = false := by cases l with
    | nil => exact absurd rfl hne
    | cons c cs => rfl
  rw [if_neg (by simp [hie])]
  rw [if_pos (by simp)]

theorem findall2_exact (l : List Char) (hne : l ≠ [])
    (hv : ∀ c ∈ l, isVarChar c = true) :
    findall2 ('$' :: '\x7b' :: (l ++ ['\x7d'])) = [⟨l⟩] := by
  rw [findall2_cons_some (matchDollar_exact l hne hv)]
  rfl

theorem matchBrace_exact (l : List Char) (hne : l ≠ [])
    (hv : ∀ c ∈ l, isVarChar c = true) :
    matchBrace ('\x7b' :: '\x7b' :: (l ++ ['\x7d', '\x7d'])) = some (⟨l⟩, []) := by
  simp only [matchBrace]
  rw [if_pos (by simp)]
  have hsp1 : spanChars isSpaceChar (l ++ ['\x7d', '\x7d'])
      = ([], l ++ ['\x7d', '\x7d']) := by
    have := spanChars_all_append isSpaceChar [] (l ++ ['\x7d', '\x7d'])
      (by intro c hc; simp at hc)
      (by
        intro c hc
        match l, hne with
        | c0 :: cs, _ =>
            simp only [List.cons_append, List.head?, Option.some.injEq] at hc
            subst hc
            exact (isVarChar_facts (hv c0 (by simp))).2.2.2.2)
    simpa using this
  rw [hsp1]
  dsimp only
  have hsp2 : spanChars isVarChar (l ++ ['\x7d', '\x7d']) = (l, ['\x7d', '\x7d']) :=
    spanChars_all_append isVarChar l ['\x7d', '\x7d'] hv
      (by intro c hc; simp only [List.head?] at hc; cases hc; decide)
  rw [hsp2]
  dsimp only
  have hie : l.isEmpty = false := by cases l with
    | nil => exact absurd rfl hne
    | cons c cs => rfl
  rw [if_neg (by simp [hie])]
  have hsp3 : spanChars isSpaceChar ['\x7d', '\x7d'] = ([], ['\x7d', '\x7d']) := by
    have := spanChars_all_append isSpaceChar [] ['\x7d', '\x7d']
      (by intro c hc; simp at hc)
      (by intro c hc; simp only [List.head?, Option.some.injEq] at hc; subst hc; decide)
    simpa using this
  rw [hsp3]
  dsimp only
  rw [if_pos (by simp)]

theorem findall1_exact (l : List Char) (hne : l ≠ [])
    (hv : ∀ c ∈ l, isVarChar c = true) :
    findall1 ('\x7b' :: '\x7b' :: (l ++ ['\x7d', '\x7d'])) = [⟨l⟩] := by
  rw [findall1_cons_some (matchBrace_exact l hne hv)]
  rfl

theorem containsSub_vars_rbrace2 :
    ∀ l : List Char, (∀ c ∈ l, isVarChar c = true) → ∀ p : List Char,
      containsSubList (l ++ ['\x7d', '\x7d']) ('\x7b' :: p) = false
  | [], _, p => by
      simp [containsSubList, List.isPrefixOf]
  | c :: l2, h, p => by
      have hc : ('\x7b' == c) = false := by
        simp only [beq_eq_false_iff_ne]
        exact fun e => (isVarChar_facts (h c (by simp))).1 e.symm
      simp only [List.cons_append, containsSubList, List.isPrefixOf, hc,
        Bool.false_and, Bool.false_or]
      exact containsSub_vars_rbrace2 l2 (fun d hd => h d (by simp [hd])) p

theorem pat1_not_in (l : List Char) (hne : l ≠ [])
    (hv : ∀ c ∈ l, isVarChar c = true) :
    containsSubList ('\x7b' :: '\x7b' :: (l ++ ['\x7d', '\x7d']))
      ('\x7b' :: ' ' :: (l ++ [' ', '\x7d'])) = false := by
  match l, hne with
  | c0 :: cs, _ =>
      have h0 : (' ' == c0) = false := by
        simp only [beq_eq_false_iff_ne]
        exact fun e => (isVarChar_facts (hv c0 (by simp))).2.2.2.1 e.symm
      have d1 : (' ' == '\x7b') = false := by decide
      have h1 : ('\x7b' == c0) = false := by
        simp only [beq_eq_false_iff_ne]
        exact fun e => (isVarChar_facts (hv c0 (by simp))).1 e.symm
      simp only [containsSubList, List.cons_append, List.append_eq,
        List.isPrefixOf, h0, d1, h1, Bool.and_false, Bool.false_and,
        Bool.and_self, Bool.false_or, Bool.or_false]
      exact containsSub_vars_rbrace2 cs (fun d hd => hv d (by simp [hd])) _

theorem processStr_all_unset (env : String → Option String) (s : List Char)
    (h : ∀ nm, envValue env nm = none) : processStr env s = (s, []) := by
  have fold1_id : ∀ (l : List String) (r : List Char),
      List.foldl (fun r nm =>
        match envValue env nm with
        | some v =>
            pyReplace
              (pyReplace r ('\x7b' :: ' ' :: (nm.data ++ [' ', '\x7d'])) v.data)
              ('\x7b' :: '\x7b' :: (nm.data ++ ['\x7d', '\x7d'])) v.data
        | none => r) r l = r := by
    intro l
    induction l with
    | nil => intro r; rfl
    | cons nm l ih =>
        intro r
        simp only [List.foldl, h nm]
        exact ih r
  have fold2_id : ∀ (l : List String) (r : List Char),
      List.foldl (fun r nm =>
        match envValue env nm with
        | some v => pyReplace r ('$' :: '\x7b' :: (nm.data ++ ['\x7d'])) v.data
        | none => r) r l = r := by
    intro l
    induction l with
    | nil => intro r; rfl
    | cons nm l ih =>
        intro r
        simp only [List.foldl, h nm]
        exact ih r
  simp only [processStr]
  rw [fold1_id, fold2_id]

theorem processStr_dollar (env : String → Option String) (nm v : String)
    (hn : ValidVarName nm) (he : envValue env nm = some v) :
    processStr env ('$' :: '\x7b' :: (nm.data ++ ['\x7d'])) = (v.data, []) := by
  have hfa1 : findall1 ('$' :: '\x7b' :: (nm.data ++ ['\x7d'])) = [] :=
    findall1_nil_of_noDDB _ (noDDB_dollar nm.data hn.1 hn.2)
  have hfa2 : findall2 ('$' :: '\x7b' :: (nm.data ++ ['\x7d'])) = [nm] :=
    findall2_exact nm.data hn.1 hn.2
  simp only [processStr]
  rw [hfa1]
  simp only [List.foldl_nil]
  rw [hfa2]
  simp only [List.foldl_cons, List.foldl_nil, he]
  rw [pyReplace_self v.data (by simp)]

theorem processStr_bracebrace (env : String → Option String) (nm v : String)
    (hn : ValidVarName nm) (he : envValue env nm = some v)
    (hd : ∀ c ∈ v.data, (c = '$') → False) :
    processStr env ('\x7b' :: '\x7b' :: (nm.data ++ ['\x7d', '\x7d']))
      = (v.data, []) := by
  have hfa1 : findall1 ('\x7b' :: '\x7b' :: (nm.data ++ ['\x7d', '\x7d'])) = [nm] :=
    findall1_exact nm.data hn.1 hn.2
  simp only [processStr]
  rw [hfa1]
  simp only [List.foldl_cons, List.foldl_nil, he]
  rw [pyReplace_not_contained _ _ _ (pat1_not_in nm.data hn.1 hn.2)]
  rw [pyReplace_self v.data (by simp)]
  rw [findall2_nil_of_no_dollar v.data hd]
  simp only [List.foldl_nil]

/-- Environment fixture: only FOO is set, to the value bar. -/
def envFOO : String → Option String :=
  fun n => if n = "FOO" then some "bar" else none

/-- C8: counterexample to the claim that an unresolved template reference is
left as-is AND a warning is emitted. With no environment variable set, both
the dollar-brace and the double-brace reference to FOO are indeed left
as-is, but the event trace of _process_env_vars is empty: the function
(pipeline.py lines 74-104) contains no logging call at all, so no warning
is ever emitted for the unresolved reference. -/
theorem C8_counterexample :
    processStr (fun _ => none) "$\x7bFOO\x7d".data = ("$\x7bFOO\x7d".data, [])
      ∧ processStr (fun _ => none) "\x7b\x7bFOO\x7d\x7d".data
          = ("\x7b\x7bFOO\x7d\x7d".data, [])
      ∧ ∀ e : Event, e ∈ (processStr (fun _ => none) "$\x7bFOO\x7d".data).2 → False := by
  refine ⟨rfl, rfl, ?_⟩
  intro e he
  simp only [processStr] at he
  exact (List.not_mem_nil e) he

/-- C8 (amended): environment substitution in string configuration fields.
(1) If no environment variable resolves to a truthy value, every string is
returned unchanged, silently: the event trace is empty, so in particular no
warning is emitted for the unresolved references. (2) A string that is
exactly a dollar-brace reference to a set, non-empty variable is replaced
by its value. (3) A string that is exactly a tight double-brace reference
to a set, non-empty variable whose value contains no dollar sign is
replaced by its value. (4) The Val-level traversal applies this string
transformation to every string leaf. -/
theorem C8_amended_env_substitution :
    (∀ (env : String → Option String) (s : List Char),
      (∀ nm, envValue env nm = none) → processStr env s = (s, [])) ∧
    (∀ (env : String → Option String) (nm v : String),
      ValidVarName nm → envValue env nm = some v →
      processStr env ('$' :: '\x7b' :: (nm.data ++ ['\x7d'])) = (v.data, [])) ∧
    (∀ (env : String → Option String) (nm v : String),
      ValidVarName nm → envValue env nm = some v →
      (∀ c ∈ v.data, (c = '$') → False) →
      processStr env ('\x7b' :: '\x7b' :: (nm.data ++ ['\x7d', '\x7d']))
        = (v.data, [])) ∧
    (∀ (env : String → Option String) (s : String),
      process_env_vars env (.str s) = .str ⟨(processStr env s.data).1⟩) :=
  ⟨processStr_all_unset, processStr_dollar, processStr_bracebrace,
    fun _ _ => rfl⟩

theorem C8_amended_witness :
    processStr (fun _ => none) "$\x7bFOO\x7d".data = ("$\x7bFOO\x7d".data, [])
      ∧ processStr envFOO "$\x7bFOO\x7d".data = ("bar".data, [])
      ∧ processStr envFOO "\x7b\x7bFOO\x7d\x7d".data = ("bar".data, []) := by
  refine ⟨?_, ?_, ?_⟩
  · exact C8_amended_env_substitution.1 (fun _ => none) "$\x7bFOO\x7d".data
      (fun nm => rfl)
  · exact C8_amended_env_substitution.2.1 envFOO "FOO" "bar" (by decide) rfl
  · exact C8_amended_env_substitution.2.2.1 envFOO "FOO" "bar" (by decide) rfl
      (by decide)
